import Mathlib

/-!
# go-codecov: request dispatch and timestamp decoding

A shallow embedding of the Codecov API client (`codecov.go`, `auth.go`,
`repositories.go`, `times.go`) together with the parts of the Go standard
library it calls (`strings`, `net/url`, `net/http`, `encoding/json`, `time`),
followed by the properties of the client that are proved over it.

Conventions
* Go strings and byte slices are lists of bytes (`GoString`); `bytes "..."`
  is the UTF-8 encoding of a literal.
* Go `int` values are `Int`; every value that occurs stays far below 2^63.
* A Go function that mutates its arguments returns their new values; a Go
  `error` result is an `Option GoError`, `none` being `nil`.
* The network (`http.DefaultClient.Do`) is a parameter of the model: a
  function from the request that is sent to a transport error or to the
  status and the complete body of the response. Failures while the body is
  read and the closing of the body are not modelled.

What is kept of the library
* `time.Parse`: the layout elements of the four layouts of `times.go`; the
  location a parsed offset is given (`time.Local` or a fabricated zone) is
  kept as its offset only.
* `encoding/json`: the grammar of the scanner, the stream decoder that reads
  one value, and the way values are stored into the client's types. Of a
  syntax error nothing but its kind is kept, of an `UnmarshalTypeError` its
  `Value` field. A `float64` is kept as the literal it was parsed from.
* `net/url`: `url.Parse` on references that start with one slash.
-/

namespace Codecov

/-! ## Strings -/

/-- A Go string: a sequence of bytes. -/
abbrev GoString := List Nat

/-- UTF-8 encoding of one code point, as `utf8.EncodeRune` writes it; surrogates
and values above U+10FFFF become U+FFFD. -/
def encodeRune (r : Nat) : GoString :=
  if r < 0x80 then [r]
  else if r < 0x800 then [0xC0 + r / 64, 0x80 + r % 64]
  else if 0xD800 ≤ r ∧ r ≤ 0xDFFF then [0xEF, 0xBF, 0xBD]
  else if r < 0x10000 then [0xE0 + r / 4096, 0x80 + r / 64 % 64, 0x80 + r % 64]
  else if r < 0x110000 then
    [0xF0 + r / 262144, 0x80 + r / 4096 % 64, 0x80 + r / 64 % 64, 0x80 + r % 64]
  else [0xEF, 0xBF, 0xBD]

/-- The bytes of a string literal. -/
def bytes (s : String) : GoString :=
  s.data.flatMap (fun c => encodeRune c.toNat)

/-- The byte `/`. -/
abbrev slash : Nat := 47

namespace Strings

/-- Go `strings.HasPrefix`. -/
def HasPrefix : GoString → GoString → Bool
  | _, [] => true
  | [], _ :: _ => false
  | a :: s, b :: p => a == b && HasPrefix s p

/-- Go `strings.TrimPrefix`: `s` without the leading `pre`, or `s` itself when
it does not start with `pre`. -/
def TrimPrefix (s pre : GoString) : GoString :=
  if HasPrefix s pre then s.drop pre.length else s

/-- Go `strings.TrimLeft` for a cutset of ASCII bytes. -/
def TrimLeft (s cutset : GoString) : GoString :=
  s.dropWhile (fun b => cutset.contains b)

/-- Go `strings.TrimRight` for a cutset of ASCII bytes. -/
def TrimRight (s cutset : GoString) : GoString :=
  (s.reverse.dropWhile (fun b => cutset.contains b)).reverse

/-- Go `strings.Trim` for a cutset of ASCII bytes: all leading and trailing
bytes of the cutset removed. -/
def Trim (s cutset : GoString) : GoString :=
  TrimLeft (TrimRight s cutset) cutset

end Strings

/-- The path `doRequest` writes into `request.URL.Path` (codecov.go line 72):
`"/" + strings.Trim(c.endpoint.Path, "/") + "/" + strings.TrimPrefix(request.URL.Path, "/")`. -/
def rewritePath (endpointPath requestPath : GoString) : GoString :=
  [slash] ++ Strings.Trim endpointPath [slash] ++ [slash]
    ++ Strings.TrimPrefix requestPath [slash]

/-- Whether a byte string contains two adjacent slashes. -/
def hasDoubleSlash : GoString → Bool
  | a :: b :: rest => (a == slash && b == slash) || hasDoubleSlash (b :: rest)
  | _ => false

/-! ## The `time` package

`time.Parse` is modelled for the layout elements that occur in the four
layouts of `times.go`: `2006`, `01`, `02`, `15`, `04`, `05`, `.999…` and
`Z07:00`; every other layout byte is literal text. -/

namespace GoTime

/-- Go `time.ParseError`. -/
structure ParseError where
  Layout : GoString
  Value : GoString
  LayoutElem : GoString
  ValueElem : GoString
  Message : GoString
deriving DecidableEq, Repr

/-- A `*time.Location` as far as the client can observe it: UTC, or a zone
(`time.Local` or a fabricated fixed zone) with the given offset in seconds. -/
inductive Location
  | utc
  | zone (offset : Int)
deriving DecidableEq, Repr

/-- Go `time.Time` without a monotonic reading: seconds since January 1 of
year 1 00:00:00 UTC, nanoseconds within the second, and the location. The
zero value is the zero `time.Time`. -/
structure Time where
  sec : Int := 0
  nsec : Int := 0
  loc : Location := Location.utc
deriving DecidableEq, Repr

/-- Go `Time.UTC`: the same instant with the location set to UTC. -/
def Time.UTC (t : Time) : Time := { t with loc := Location.utc }

/-- Go `Time.IsZero`. -/
def Time.IsZero (t : Time) : Bool := t.sec == 0 && t.nsec == 0

/-- Go `isLeap`. -/
def isLeap (year : Int) : Bool :=
  year % 4 == 0 && (year % 100 != 0 || year % 400 == 0)

/-- Go `daysBefore`: days before the start of each month in a non-leap year. -/
def daysBefore : List Int :=
  [0, 31, 59, 90, 120, 151, 181, 212, 243, 273, 304, 334, 365]

/-- Go `daysIn`. -/
def daysIn (m year : Int) : Int :=
  if m == 2 && isLeap year then 29
  else daysBefore.getD m.toNat 0 - daysBefore.getD (m.toNat - 1) 0

/-- Go `norm`: carries the overflow of `lo` (base `base`) into `hi`. -/
def norm (hi lo base : Int) : Int × Int :=
  let (hi, lo) := if lo < 0 then
      let n := (-lo - 1) / base + 1
      (hi - n, lo + n * base)
    else (hi, lo)
  if lo ≥ base then
    let n := lo / base
    (hi + n, lo - n * base)
  else (hi, lo)

/-- Go `absoluteZeroYear`. -/
def absoluteZeroYear : Int := -292277022399

/-- Go `absoluteToInternal`: seconds from the absolute epoch to year 1. -/
def absoluteToInternal : Int := -9223371966579724800

/-- Go `daysSinceEpoch`: days from the absolute epoch to the start of `year`. -/
def daysSinceEpoch (year : Int) : Int :=
  let y := year - absoluteZeroYear
  let n := y / 400
  let y := y - 400 * n
  let d := 146097 * n
  let n := y / 100
  let y := y - 100 * n
  let d := d + 36524 * n
  let n := y / 4
  let y := y - 4 * n
  let d := d + 1461 * n
  d + 365 * y

/-- Go `time.Date` with location UTC. -/
def Date (year month day hour min sec nsec : Int) : Time :=
  let (year, m) := norm year (month - 1) 12
  let month := m + 1
  let (sec, nsec) := norm sec nsec 1000000000
  let (min, sec) := norm min sec 60
  let (hour, min) := norm hour min 60
  let (day, hour) := norm day hour 24
  let d := daysSinceEpoch year
  let d := d + daysBefore.getD (month.toNat - 1) 0
  let d := if isLeap year && month ≥ 3 then d + 1 else d
  let d := d + (day - 1)
  let abs := d * 86400 + (hour * 3600 + min * 60 + sec)
  { sec := abs + absoluteToInternal, nsec := nsec, loc := Location.utc }

/-- Go `isDigit(s, 0)`: the first byte exists and is a decimal digit. -/
def isDigit0 : GoString → Bool
  | [] => false
  | c :: _ => decide (48 ≤ c) && decide (c ≤ 57)

/-- Whether a byte is a decimal digit. -/
def isDigitByte (c : Nat) : Bool := decide (48 ≤ c) && decide (c ≤ 57)

/-- Go `commaOrPeriod`. -/
def commaOrPeriod (c : Nat) : Bool := c == 46 || c == 44

/-- Value of a run of decimal digits, most significant first. -/
def digitsValue (ds : GoString) : Int :=
  ds.foldl (fun (acc : Int) (c : Nat) => acc * 10 + ((c : Int) - 48)) 0

/-- Go `atoi` on a string that starts with a digit: the value when every
byte is a digit, and no value otherwise. -/
def atoi (s : GoString) : Option Int :=
  if s ≠ [] ∧ s.all isDigitByte then some (digitsValue s) else none

/-- Go `getnum`: one or two leading digits (`fixed` demands two). -/
def getnum (s : GoString) (fixed : Bool) : Option (Int × GoString) :=
  match s with
  | [] => none
  | a :: t =>
    if !isDigitByte a then none
    else match t with
      | b :: u =>
        if isDigitByte b then some (((a : Int) - 48) * 10 + ((b : Int) - 48), u)
        else if fixed then none else some ((a : Int) - 48, t)
      | [] => if fixed then none else some ((a : Int) - 48, t)

/-- Go `cutspace`: the string without its leading spaces. -/
def cutspace (s : GoString) : GoString := s.dropWhile (fun c => c == 32)

/-- Go `skip`: removes `pre` from the front of `value`, a space of `pre`
standing for any run of spaces; on a mismatch the rest of `value` at the
point of failure is returned as the error. -/
def skip : Nat → GoString → GoString → Except GoString GoString
  | 0, value, _ => Except.ok value
  | fuel + 1, value, pre =>
    match pre with
    | [] => Except.ok value
    | p :: ps =>
      if p == 32 then
        if value ≠ [] ∧ value.head? ≠ some 32 then Except.error value
        else skip fuel (cutspace value) (cutspace (p :: ps))
      else match value with
        | [] => Except.error value
        | v :: vs => if v == p then skip fuel vs ps else Except.error value

/-- The layout elements of `time.Parse` that the client's layouts use. -/
inductive Std
  | stdLongYear
  | stdZeroMonth
  | stdZeroDay
  | stdHour
  | stdZeroMinute
  | stdZeroSecond
  | stdFracSecond9
  | stdISO8601ColonTZ
deriving DecidableEq, Repr

/-- The layout element that starts at the head of `layout`, with its length. -/
def stdAt (layout : GoString) : Option (Std × Nat) :=
  if Strings.HasPrefix layout (bytes "2006") then some (Std.stdLongYear, 4)
  else if Strings.HasPrefix layout (bytes "01") then some (Std.stdZeroMonth, 2)
  else if Strings.HasPrefix layout (bytes "02") then some (Std.stdZeroDay, 2)
  else if Strings.HasPrefix layout (bytes "04") then some (Std.stdZeroMinute, 2)
  else if Strings.HasPrefix layout (bytes "05") then some (Std.stdZeroSecond, 2)
  else if Strings.HasPrefix layout (bytes "15") then some (Std.stdHour, 2)
  else if Strings.HasPrefix layout (bytes "Z07:00") then some (Std.stdISO8601ColonTZ, 6)
  else match layout with
    | c :: d :: rest =>
      if commaOrPeriod c && d == 57 then
        let run := (d :: rest).takeWhile (fun x => x == 57)
        if isDigit0 ((d :: rest).drop run.length) then none
        else some (Std.stdFracSecond9, 1 + run.length)
      else none
    | _ => none

/-- Go `nextStdChunk`: the literal text before the first layout element, the
element (if any), and the layout after it. -/
def nextStdChunk : GoString → GoString × Option Std × GoString
  | [] => ([], none, [])
  | c :: rest =>
    match stdAt (c :: rest) with
    | some (std, n) => ([], some std, (c :: rest).drop n)
    | none =>
      let (pre, std, suffix) := nextStdChunk rest
      (c :: pre, std, suffix)

/-- Go `parseNanoseconds(value, nbytes)`: `value` starts with the separator
and `nbytes - 1` digits follow; digits after the ninth are dropped. -/
def parseNanoseconds (value : GoString) (nbytes : Nat) : Option Int :=
  match value with
  | [] => none
  | sep :: digits =>
    if !commaOrPeriod sep then none
    else
      let nbytes := if nbytes > 10 then 10 else nbytes
      match atoi (digits.take (nbytes - 1)) with
      | none => none
      | some ns => some (ns * 10 ^ (10 - nbytes))

/-- The local variables of `time.Parse` that the modelled elements set. -/
structure Fields where
  year : Int := 0
  month : Int := 1
  day : Int := 1
  hour : Int := 0
  min : Int := 0
  sec : Int := 0
  nsec : Int := 0
  zoneOffset : Int := -1
  z : Bool := false
deriving DecidableEq, Repr

/-- Outcome of one `switch std` case of `time.Parse`. -/
structure StepOut where
  fields : Fields
  value : GoString
  err : Bool := false
  rangeErr : GoString := []
deriving DecidableEq, Repr

/-- Number of bytes of a fractional second at the head of `value`: the
separator and the digits after it. -/
def fracLen (value : GoString) : Nat :=
  1 + ((value.drop 1).takeWhile isDigitByte).length

/-- Whether `value` starts with a separator followed by a digit. -/
def hasFrac (value : GoString) : Bool :=
  match value with
  | c :: d :: _ => commaOrPeriod c && isDigitByte d
  | _ => false

/-- One `switch std` case of `time.Parse`; `layout` is the layout after the
element. -/
def parseStd (std : Std) (layout value : GoString) (f : Fields) : StepOut :=
  match std with
  | Std.stdLongYear =>
    if value.length < 4 || !isDigit0 value then { fields := f, value := value, err := true }
    else match atoi (value.take 4) with
      | some y => { fields := { f with year := y }, value := value.drop 4 }
      | none => { fields := f, value := value.drop 4, err := true }
  | Std.stdZeroMonth =>
    match getnum value true with
    | some (m, rest) =>
      { fields := { f with month := m }, value := rest,
        rangeErr := if m ≤ 0 ∨ 12 < m then bytes "month" else [] }
    | none => { fields := { f with month := 0 }, value := value, err := true }
  | Std.stdZeroDay =>
    match getnum value true with
    | some (d, rest) => { fields := { f with day := d }, value := rest }
    | none => { fields := { f with day := 0 }, value := value, err := true }
  | Std.stdHour =>
    match getnum value false with
    | some (h, rest) =>
      { fields := { f with hour := h }, value := rest,
        rangeErr := if h < 0 ∨ 24 ≤ h then bytes "hour" else [] }
    | none => { fields := { f with hour := 0 }, value := value, err := true }
  | Std.stdZeroMinute =>
    match getnum value true with
    | some (m, rest) =>
      { fields := { f with min := m }, value := rest,
        rangeErr := if m < 0 ∨ 60 ≤ m then bytes "minute" else [] }
    | none => { fields := { f with min := 0 }, value := value, err := true }
  | Std.stdZeroSecond =>
    match getnum value true with
    | none => { fields := { f with sec := 0 }, value := value, err := true }
    | some (s, rest) =>
      if s < 0 ∨ 60 ≤ s then
        { fields := { f with sec := s }, value := rest, rangeErr := bytes "second" }
      else if hasFrac rest then
        match (nextStdChunk layout).2.1 with
        | some Std.stdFracSecond9 => { fields := { f with sec := s }, value := rest }
        | _ =>
          let n := fracLen rest
          match parseNanoseconds rest n with
          | some ns => { fields := { f with sec := s, nsec := ns }, value := rest.drop n }
          | none => { fields := { f with sec := s }, value := rest.drop n, err := true }
      else { fields := { f with sec := s }, value := rest }
  | Std.stdFracSecond9 =>
    if !hasFrac value then { fields := f, value := value }
    else
      let n := fracLen value
      match parseNanoseconds value n with
      | some ns => { fields := { f with nsec := ns }, value := value.drop n }
      | none => { fields := f, value := value.drop n, err := true }
  | Std.stdISO8601ColonTZ =>
    if value.head? = some 90 then { fields := { f with z := true }, value := value.drop 1 }
    else if value.length < 6 then { fields := f, value := value, err := true }
    else if value.get? 3 ≠ some 58 then { fields := f, value := value, err := true }
    else
      let sign := value.headD 0
      let rest := value.drop 6
      match getnum ((value.drop 1).take 2) true with
      | none => { fields := f, value := rest, err := true }
      | some (hr, _) =>
        match getnum ((value.drop 4).take 2) true with
        | none =>
          { fields := f, value := rest, err := true,
            rangeErr := if hr > 24 then bytes "time zone offset hour" else [] }
        | some (mm, _) =>
          let rangeErr :=
            if mm > 60 then bytes "time zone offset minute"
            else if hr > 24 then bytes "time zone offset hour" else []
          let off := (hr * 60 + mm) * 60
          if sign == 43 then
            { fields := { f with zoneOffset := off }, value := rest, rangeErr := rangeErr }
          else if sign == 45 then
            { fields := { f with zoneOffset := -off }, value := rest, rangeErr := rangeErr }
          else
            { fields := { f with zoneOffset := off }, value := rest, err := true,
              rangeErr := rangeErr }

/-- Two lowercase hexadecimal digits of a byte. -/
def lowerhex2 (b : Nat) : GoString :=
  let h := fun n => if n < 10 then 48 + n else 87 + n
  [h (b / 16 % 16), h (b % 16)]

/-- Go `time.quote`: the string in double quotes, quote and backslash
escaped, control and non-ASCII bytes written as `\xNN`. -/
def quote (s : GoString) : GoString :=
  [34] ++ s.flatMap (fun c =>
    if c ≥ 128 ∨ c < 32 then [92, 120] ++ lowerhex2 c
    else if c = 34 ∨ c = 92 then [92, c] else [c]) ++ [34]

/-- The text of the element that `nextStdChunk` found:
`layout[len(prefix) : len(layout)-len(suffix)]`. -/
def stdstr (layout pre suffix : GoString) : GoString :=
  (layout.drop pre.length).take (layout.length - pre.length - suffix.length)

/-- The loop of `time.Parse` over the layout elements, and the validation of
the day of the month after it. -/
def parseLoop (alayout avalue : GoString) :
    Nat → GoString → GoString → Fields → Except ParseError (Fields × GoString)
  | 0, _, value, f => Except.ok (f, value)
  | fuel + 1, layout, value, f =>
    match nextStdChunk layout with
    | (pre, std, suffix) =>
      match skip (pre.length + 1) value pre with
      | Except.error v => Except.error ⟨alayout, avalue, pre, v, []⟩
      | Except.ok value =>
        match std with
        | none =>
          if value ≠ [] then
            Except.error ⟨alayout, avalue, [], value, bytes ": extra text: " ++ quote value⟩
          else Except.ok (f, value)
        | some std =>
          let out := parseStd std suffix value f
          if out.rangeErr ≠ [] then
            Except.error ⟨alayout, avalue, stdstr layout pre suffix, out.value,
              bytes ": " ++ out.rangeErr ++ bytes " out of range"⟩
          else if out.err then
            Except.error ⟨alayout, avalue, stdstr layout pre suffix, value, []⟩
          else parseLoop alayout avalue fuel suffix out.value out.fields

/-- Go `time.Parse`. -/
def Parse (layout value : GoString) : Except ParseError Time :=
  match parseLoop layout value (layout.length + 1) layout value {} with
  | Except.error e => Except.error e
  | Except.ok (f, rest) =>
    if f.day < 1 ∨ f.day > daysIn f.month f.year then
      Except.error ⟨layout, value, [], rest, bytes ": day out of range"⟩
    else if f.z then
      Except.ok (Date f.year f.month f.day f.hour f.min f.sec f.nsec)
    else if f.zoneOffset ≠ -1 then
      let t := Date f.year f.month f.day f.hour f.min f.sec f.nsec
      Except.ok { t with sec := t.sec - f.zoneOffset, loc := Location.zone f.zoneOffset }
    else
      Except.ok (Date f.year f.month f.day f.hour f.min f.sec f.nsec)

/-- Go `time.RFC3339`. -/
def RFC3339 : GoString := bytes "2006-01-02T15:04:05Z07:00"

end GoTime

/-! ## times.go -/

/-- RFC3339UTC represents RFC3339 but with an assumed UTC timestamp. -/
def RFC3339UTC : GoString := bytes "2006-01-02T15:04:05"

/-- RFC3339UTCSansT represents RFC3339UTC but without the "T" separating character. -/
def RFC3339UTCSansT : GoString := bytes "2006-01-02 15:04:05"

/-- RFC3339NanoSansT represents RFC3339Nano but without the "T" separating character. -/
def RFC3339NanoSansT : GoString := bytes "2006-01-02 15:04:05.999999Z07:00"

/-- Time is a time object that handles custom formats coming from Codecov. -/
structure Time where
  Time : GoTime.Time := {}
deriving DecidableEq, Repr

/-- The errors the client can return. -/
inductive GoError
  | nilContext
  | urlError (msg : GoString)
  | transport (msg : GoString)
  | eof
  | unexpectedEOF
  | malformedJSON
  | unmarshalType (value : GoString)
  | timeParse (e : GoTime.ParseError)
  | errorf (msg : GoString)
deriving DecidableEq, Repr

/-- The layout a format is tried under, the format between two double
quotes. -/
def quoted (format : GoString) : GoString := [34] ++ format ++ [34]

/-- The formats `UnmarshalJSON` tries, in order. -/
def timeFormats : List GoString :=
  [GoTime.RFC3339, RFC3339UTC, RFC3339UTCSansT, RFC3339NanoSansT]

/-- The `for` loop of `Time.UnmarshalJSON`: `err` is the error variable, which
holds the failure of the last format tried. -/
def UnmarshalJSON.loop (t : Time) (strData : GoString) :
    List GoString → Option GoError → Time × Option GoError
  | [], err => (t, err)
  | format :: rest, _ =>
    match GoTime.Parse (quoted format) strData with
    | Except.ok tm => ({ t with Time := tm.UTC }, none)
    | Except.error e => UnmarshalJSON.loop t strData rest (some (GoError.timeParse e))

/-- `Time.UnmarshalJSON`: the receiver after the call and the error returned. -/
def Time.UnmarshalJSON (t : Codecov.Time) (data : GoString) :
    Codecov.Time × Option GoError :=
  if data = bytes "null" then (t, none)
  else UnmarshalJSON.loop t data timeFormats none

/-! ## The `encoding/json` package: reading one value

`Decoder.Decode` first delimits and validates the next JSON value of the
stream (`readValue`) and only then stores it; bytes after that value are not
looked at. -/

namespace Json

/-- A JSON value as the decoder sees it. Strings carry their raw text (with
the quotes) and their unquoted bytes, numbers their literal, arrays and
objects their raw text, which is what an `Unmarshaler` receives. -/
inductive Value
  | null
  | bool (b : Bool)
  | number (lit : GoString)
  | string (raw : GoString) (s : GoString)
  | array (raw : GoString) (elems : List Value)
  | object (raw : GoString) (members : List (GoString × Value))

/-- The raw text of a value. -/
def Value.raw : Value → GoString
  | Value.null => bytes "null"
  | Value.bool true => bytes "true"
  | Value.bool false => bytes "false"
  | Value.number lit => lit
  | Value.string raw _ => raw
  | Value.array raw _ => raw
  | Value.object raw _ => raw

/-- Result of scanning: a value and the bytes after it, a malformed input, an
input that ends too early, or exhausted recursion fuel. -/
inductive Scan (α : Type)
  | ok (v : α) (rest : GoString)
  | bad
  | eof
  | fuel

/-- The bytes of `s` before its suffix `rest`. -/
def consumed (s rest : GoString) : GoString := s.take (s.length - rest.length)

/-- Continues a scan with what it found and the bytes after it. -/
def Scan.bind {α β : Type} (x : Scan α) (f : α → GoString → Scan β) : Scan β :=
  match x with
  | Scan.ok v rest => f v rest
  | Scan.bad => Scan.bad
  | Scan.eof => Scan.eof
  | Scan.fuel => Scan.fuel

/-- Go `isSpace` of the JSON scanner. -/
def isSpace (c : Nat) : Bool := c == 32 || c == 9 || c == 13 || c == 10

/-- The input without its leading JSON white space. -/
def skipSpace (s : GoString) : GoString := s.dropWhile isSpace

/-- Value of a hexadecimal digit. -/
def hexVal (c : Nat) : Option Nat :=
  if 48 ≤ c ∧ c ≤ 57 then some (c - 48)
  else if 97 ≤ c ∧ c ≤ 102 then some (c - 87)
  else if 65 ≤ c ∧ c ≤ 70 then some (c - 55)
  else none

/-- The body of a string literal after the opening quote: the raw bytes up to
the closing quote, as the scanner accepts them (`stateInString` and the
escape states). -/
def scanString : Nat → GoString → GoString → Scan GoString
  | 0, _, _ => Scan.fuel
  | _ + 1, [], _ => Scan.eof
  | n + 1, c :: rest, acc =>
    if c == 34 then Scan.ok acc.reverse rest
    else if c == 92 then
      match rest with
      | [] => Scan.eof
      | e :: rest =>
        if e == 98 || e == 102 || e == 110 || e == 114 || e == 116 || e == 92 || e == 47
            || e == 34 then
          scanString n rest (e :: c :: acc)
        else if e == 117 then
          match rest with
          | [] => Scan.eof
          | h1 :: rest => if (hexVal h1).isNone then Scan.bad else
            match rest with
            | [] => Scan.eof
            | h2 :: rest => if (hexVal h2).isNone then Scan.bad else
              match rest with
              | [] => Scan.eof
              | h3 :: rest => if (hexVal h3).isNone then Scan.bad else
                match rest with
                | [] => Scan.eof
                | h4 :: rest => if (hexVal h4).isNone then Scan.bad else
                  scanString n rest (h4 :: h3 :: h2 :: h1 :: e :: c :: acc)
        else Scan.bad
    else if c < 32 then Scan.bad
    else scanString n rest (c :: acc)

/-- Number of bytes of a valid UTF-8 sequence at the head of the input, if
there is one (`utf8.DecodeRune` returning something else than `RuneError, 1`). -/
def utf8Len (s : GoString) : Option Nat :=
  let cont := fun (b : Nat) => 0x80 ≤ b ∧ b ≤ 0xBF
  match s with
  | [] => none
  | a :: t =>
    if a < 0x80 then some 1
    else if 0xC2 ≤ a ∧ a ≤ 0xDF then
      match t with
      | b :: _ => if cont b then some 2 else none
      | _ => none
    else if 0xE0 ≤ a ∧ a ≤ 0xEF then
      match t with
      | b :: c :: _ =>
        let lo := if a = 0xE0 then 0xA0 else 0x80
        let hi := if a = 0xED then 0x9F else 0xBF
        if lo ≤ b ∧ b ≤ hi ∧ cont c then some 3 else none
      | _ => none
    else if 0xF0 ≤ a ∧ a ≤ 0xF4 then
      match t with
      | b :: c :: d :: _ =>
        let lo := if a = 0xF0 then 0x90 else 0x80
        let hi := if a = 0xF4 then 0x8F else 0xBF
        if lo ≤ b ∧ b ≤ hi ∧ cont c ∧ cont d then some 4 else none
      | _ => none
    else none

/-- Go `getu4`: the code unit of a `\uXXXX` escape at the head of the input. -/
def getu4 (s : GoString) : Option Nat :=
  match s with
  | 92 :: 117 :: h1 :: h2 :: h3 :: h4 :: _ =>
    match hexVal h1, hexVal h2, hexVal h3, hexVal h4 with
    | some a, some b, some c, some d => some (a * 4096 + b * 256 + c * 16 + d)
    | _, _, _, _ => none
  | _ => none

/-- Go `unquoteBytes` on the body of a scanned string literal: escapes are
replaced, a surrogate pair becomes one code point, a lone surrogate and every
byte that is not part of valid UTF-8 become U+FFFD. -/
def unquote : Nat → GoString → GoString
  | 0, _ => []
  | _ + 1, [] => []
  | n + 1, c :: rest =>
    if c == 92 then
      match rest with
      | [] => []
      | e :: rest2 =>
        if e == 117 then
          match getu4 (c :: rest) with
          | none => []
          | some rr =>
            if 0xD800 ≤ rr ∧ rr < 0xE000 then
              match getu4 (rest2.drop 4) with
              | some rr1 =>
                if rr < 0xDC00 ∧ 0xDC00 ≤ rr1 ∧ rr1 < 0xE000 then
                  encodeRune ((rr - 0xD800) * 1024 + (rr1 - 0xDC00) + 0x10000)
                    ++ unquote n (rest2.drop 10)
                else encodeRune 0xFFFD ++ unquote n (rest2.drop 4)
              | none => encodeRune 0xFFFD ++ unquote n (rest2.drop 4)
            else encodeRune rr ++ unquote n (rest2.drop 4)
        else
          let b := if e == 98 then 8 else if e == 102 then 12 else if e == 110 then 10
            else if e == 114 then 13 else if e == 116 then 9 else e
          b :: unquote n rest2
    else if c < 0x80 then c :: unquote n rest
    else match utf8Len (c :: rest) with
      | some k => (c :: rest).take k ++ unquote n ((c :: rest).drop k)
      | none => encodeRune 0xFFFD ++ unquote n rest

/-- Whether a byte is a decimal digit. -/
def isDigit (c : Nat) : Bool := decide (48 ≤ c) && decide (c ≤ 57)

/-- The input without a leading sign. -/
def skipSign (s : GoString) : GoString :=
  match s with
  | c :: t => if c == 43 || c == 45 then t else s
  | [] => s

/-- The exponent part of a number, starting after `e` or `E`: an optional
sign and at least one digit. -/
def scanExp (s : GoString) : Scan Unit :=
  match skipSign s with
  | [] => Scan.eof
  | c :: t => if isDigit c then Scan.ok () (t.dropWhile isDigit) else Scan.bad

/-- An optional exponent. -/
def scanExpOpt (s : GoString) : Scan Unit :=
  match s with
  | e :: u => if e == 101 || e == 69 then scanExp u else Scan.ok () s
  | [] => Scan.ok () s

/-- The fraction and exponent of a number, starting after the integer part. -/
def scanFracExp (s : GoString) : Scan Unit :=
  match s with
  | [] => Scan.ok () s
  | d :: t =>
    if d == 46 then
      match t with
      | [] => Scan.eof
      | c :: u => if isDigit c then scanExpOpt (u.dropWhile isDigit) else Scan.bad
    else scanExpOpt s

/-- A number literal at the head of the input (the scanner states `stateNeg`,
`state0`, `state1`, `stateDot`, `stateE` and their successors). -/
def scanNumber (s : GoString) : Scan GoString :=
  let body := match s with
    | 45 :: t => t
    | _ => s
  let tail : Scan Unit := match body with
    | [] => Scan.eof
    | c :: t =>
      if c == 48 then scanFracExp t
      else if isDigit c then scanFracExp (t.dropWhile isDigit)
      else Scan.bad
  tail.bind fun _ rest => Scan.ok (consumed s rest) rest

/-- The rest of a literal name (`true`, `false`, `null`) after its first byte. -/
def scanName : GoString → GoString → Scan Unit
  | [], s => Scan.ok () s
  | _ :: _, [] => Scan.eof
  | e :: es, c :: s => if c == e then scanName es s else Scan.bad

/-- Go `maxNestingDepth`. -/
def maxNestingDepth : Nat := 10000

/-- What the parser is reading: a value, the rest of an array after an
element, or the rest of an object after a member. -/
inductive Mode
  | value
  | elems (acc : List Value)
  | members (acc : List (GoString × Value))

/-- A key string and the colon after it, at the head of the input. -/
def scanKey (s : GoString) : Scan GoString :=
  match s with
  | [] => Scan.eof
  | q :: t =>
    if q != 34 then Scan.bad
    else (scanString (t.length + 1) t []).bind fun body rest =>
      match skipSpace rest with
      | [] => Scan.eof
      | c :: rest => if c == 58 then Scan.ok (unquote (body.length + 1) body) rest else Scan.bad

/-- The JSON grammar as the scanner of `encoding/json` accepts it. In mode
`elems` and `members` the result is an array or object whose raw text is
left empty, for the caller to fill in. `depth` is the number of enclosing
arrays and objects. -/
def parse : Nat → Nat → Mode → GoString → Scan Value
  | 0, _, _, _ => Scan.fuel
  | fuel + 1, depth, Mode.value, s =>
    match skipSpace s with
    | [] => Scan.eof
    | c :: rest =>
      if c == 123 then
        if depth + 1 > maxNestingDepth then Scan.bad
        else match skipSpace rest with
          | [] => Scan.eof
          | d :: rest2 =>
            if d == 125 then Scan.ok (Value.object (consumed (c :: rest) rest2) []) rest2
            else (scanKey (d :: rest2)).bind fun key rest3 =>
              (parse fuel (depth + 1) Mode.value rest3).bind fun v rest4 =>
              (parse fuel (depth + 1) (Mode.members [(key, v)]) rest4).bind fun r rest5 =>
              match r with
              | Value.object _ ms =>
                Scan.ok (Value.object (consumed (c :: rest) rest5) ms) rest5
              | _ => Scan.bad
      else if c == 91 then
        if depth + 1 > maxNestingDepth then Scan.bad
        else match skipSpace rest with
          | [] => Scan.eof
          | d :: rest2 =>
            if d == 93 then Scan.ok (Value.array (consumed (c :: rest) rest2) []) rest2
            else (parse fuel (depth + 1) Mode.value (d :: rest2)).bind fun v rest4 =>
              (parse fuel (depth + 1) (Mode.elems [v]) rest4).bind fun r rest5 =>
              match r with
              | Value.array _ es =>
                Scan.ok (Value.array (consumed (c :: rest) rest5) es) rest5
              | _ => Scan.bad
      else if c == 34 then
        (scanString (rest.length + 1) rest []).bind fun body rest2 =>
          Scan.ok (Value.string ([34] ++ body ++ [34]) (unquote (body.length + 1) body)) rest2
      else if c == 45 || isDigit c then
        (scanNumber (c :: rest)).bind fun lit rest2 => Scan.ok (Value.number lit) rest2
      else if c == 116 then
        (scanName (bytes "rue") rest).bind fun _ rest2 => Scan.ok (Value.bool true) rest2
      else if c == 102 then
        (scanName (bytes "alse") rest).bind fun _ rest2 => Scan.ok (Value.bool false) rest2
      else if c == 110 then
        (scanName (bytes "ull") rest).bind fun _ rest2 => Scan.ok Value.null rest2
      else Scan.bad
  | fuel + 1, depth, Mode.elems acc, s =>
    match skipSpace s with
    | [] => Scan.eof
    | c :: rest =>
      if c == 93 then Scan.ok (Value.array [] acc.reverse) rest
      else if c == 44 then
        (parse fuel depth Mode.value rest).bind fun v rest2 =>
          parse fuel depth (Mode.elems (v :: acc)) rest2
      else Scan.bad
  | fuel + 1, depth, Mode.members acc, s =>
    match skipSpace s with
    | [] => Scan.eof
    | c :: rest =>
      if c == 125 then Scan.ok (Value.object [] acc.reverse) rest
      else if c == 44 then
        (scanKey (skipSpace rest)).bind fun key rest2 =>
          (parse fuel depth Mode.value rest2).bind fun v rest3 =>
          parse fuel depth (Mode.members ((key, v) :: acc)) rest3
      else Scan.bad

/-- Go `Decoder.readValue` on the complete body: the first JSON value and the
bytes after it. -/
def readValue (body : GoString) : Scan Value :=
  parse (body.length + 1) 0 Mode.value body

end Json

/-! ## The `encoding/json` package: storing a value -/

namespace Json

/-- The `Value` field of an `UnmarshalTypeError` for a JSON value that does
not fit the Go type. -/
def kindName : Value → GoString
  | Value.null => bytes "null"
  | Value.bool _ => bytes "bool"
  | Value.number _ => bytes "number"
  | Value.string _ _ => bytes "string"
  | Value.array _ _ => bytes "array"
  | Value.object _ _ => bytes "object"

/-- Go `foldName` as far as it matters for ASCII field names: ASCII letters
in upper case, and the two non-ASCII letters that fold to an ASCII one, the
long s (U+017F) to `S` and the Kelvin sign (U+212A) to `K`. -/
def foldName : GoString → GoString
  | 0xC5 :: 0xBF :: rest => 83 :: foldName rest
  | 0xE2 :: 0x84 :: 0xAA :: rest => 75 :: foldName rest
  | c :: rest => (if 97 ≤ c ∧ c ≤ 122 then c - 32 else c) :: foldName rest
  | [] => []

/-- The field a key selects: the field with exactly that name, else the first
one whose folded name equals the folded key. -/
def fieldIndex (names : List GoString) (key : GoString) : Option Nat :=
  match names.findIdx? (fun n => n == key) with
  | some i => some i
  | none => names.findIdx? (fun n => foldName n == foldName key)

/-- The part of `decodeState` that outlives a value: the target being
filled, the first saved type error (`d.savedError`), and the error that
`d.value` returned, after which nothing more is decoded. -/
structure DecodeState (T : Type) where
  val : T
  savedError : Option GoError := none
  err : Option GoError := none

/-- Go `decodeState.saveError`: only the first error is kept. -/
def DecodeState.saveError {T : Type} (st : DecodeState T) (e : GoError) : DecodeState T :=
  if st.savedError.isNone then { st with savedError := some e } else st

/-- Decoding into a field of a basic kind: `store` gives the new value of the
field and, when the JSON value does not fit, the type error to save. -/
def DecodeState.scalar {T α : Type} (st : DecodeState T) (get : T → α) (set : T → α → T)
    (store : Value → α → α × Option GoError) (v : Value) : DecodeState T :=
  let (a, e) := store v (get st.val)
  let st := { st with val := set st.val a }
  match e with
  | none => st
  | some e => st.saveError e

/-- Decoding into a field that is itself decoded by `dec`. -/
def DecodeState.nested {T S : Type} (st : DecodeState T) (get : T → S) (set : T → S → T)
    (dec : Value → DecodeState S → DecodeState S) (v : Value) : DecodeState T :=
  let r := dec v { val := get st.val, savedError := st.savedError, err := st.err }
  { val := set st.val r.val, savedError := r.savedError, err := r.err }

/-- The member loop of `decodeState.object` for a struct: each key that
selects a field is decoded into it, other keys are skipped, and an error
returned by a value ends the loop. -/
def objectInto {T : Type} (names : List GoString)
    (field : Nat → Value → DecodeState T → DecodeState T) :
    List (GoString × Value) → DecodeState T → DecodeState T
  | [], st => st
  | (k, v) :: ms, st =>
    let st := match fieldIndex names k with
      | some i => field i v st
      | none => st
    if st.err.isSome then st else objectInto names field ms st

/-- Decoding a JSON value into a struct: an object fills the fields, `null`
is ignored, anything else is a type error that is saved. -/
def structValue {T : Type} (names : List GoString)
    (field : Nat → Value → DecodeState T → DecodeState T)
    (v : Value) (st : DecodeState T) : DecodeState T :=
  match v with
  | Value.object _ ms => objectInto names field ms st
  | Value.null => st
  | other => st.saveError (GoError.unmarshalType (kindName other))

/-- Storing into a `string`. -/
def storeString (v : Value) (cur : GoString) : GoString × Option GoError :=
  match v with
  | Value.null => (cur, none)
  | Value.string _ s => (s, none)
  | other => (cur, some (GoError.unmarshalType (kindName other)))

/-- Storing into a `bool`. -/
def storeBool (v : Value) (cur : Bool) : Bool × Option GoError :=
  match v with
  | Value.null => (cur, none)
  | Value.bool b => (b, none)
  | other => (cur, some (GoError.unmarshalType (kindName other)))

/-- Go `strconv.ParseInt(s, 10, 64)` on a JSON number literal. -/
def parseInt64 (lit : GoString) : Option Int :=
  let neg := lit.head? = some 45
  let ds := if neg then lit.drop 1 else lit
  if ds ≠ [] ∧ ds.all isDigit then
    let n := GoTime.digitsValue ds
    let v := if neg then -n else n
    if -(2 : Int) ^ 63 ≤ v ∧ v < (2 : Int) ^ 63 then some v else none
  else none

/-- Storing into an `int`. -/
def storeInt (v : Value) (cur : Int) : Int × Option GoError :=
  match v with
  | Value.null => (cur, none)
  | Value.number lit =>
    match parseInt64 lit with
    | some n => (n, none)
    | none => (cur, some (GoError.unmarshalType (bytes "number " ++ lit)))
  | other => (cur, some (GoError.unmarshalType (kindName other)))

/-- A `float64`, represented by a decimal literal whose nearest `float64` it
is. Rounding is not modelled: two literals stand for two values. -/
structure Float64 where
  lit : GoString := bytes "0"
deriving DecidableEq, Repr

/-- Whether a JSON number literal rounds to an infinity, which is when
`strconv.ParseFloat` reports a range error: its magnitude is at least
`2^1024 - 2^970`. -/
def floatOverflows (lit : GoString) : Bool :=
  let s := if lit.head? = some 45 then lit.drop 1 else lit
  let intDigits := s.takeWhile isDigit
  let s := s.dropWhile isDigit
  let fracDigits := if s.head? = some 46 then (s.drop 1).takeWhile isDigit else []
  let s := if s.head? = some 46 then (s.drop 1).dropWhile isDigit else s
  let s := s.drop 1
  let expNeg := s.head? = some 45
  let expDigits := if s.head? = some 45 ∨ s.head? = some 43 then s.drop 1 else s
  let e := (GoTime.digitsValue expDigits).toNat
  let mant := (GoTime.digitsValue (intDigits ++ fracDigits)).toNat
  let limit := 2 ^ 1024 - 2 ^ 970
  if expNeg then decide (mant ≥ limit * 10 ^ (e + fracDigits.length))
  else if e ≥ fracDigits.length then decide (mant * 10 ^ (e - fracDigits.length) ≥ limit)
  else decide (mant ≥ limit * 10 ^ (fracDigits.length - e))

/-- Storing into a `float64`. -/
def storeFloat (v : Value) (cur : Float64) : Float64 × Option GoError :=
  match v with
  | Value.null => (cur, none)
  | Value.number lit =>
    if floatOverflows lit then (cur, some (GoError.unmarshalType (bytes "number " ++ lit)))
    else (⟨lit⟩, none)
  | other => (cur, some (GoError.unmarshalType (kindName other)))

/-- A Go type that `Decoder.Decode` can fill: its zero value and the way a
JSON value is stored into it. -/
class Unmarshal (T : Type) where
  zero : T
  value : Value → DecodeState T → DecodeState T

/-- Whether the body holds a byte that is not white space (Go `nonSpace`). -/
def nonSpace (b : GoString) : Bool := b.any (fun c => !isSpace c)

/-- Go `json.NewDecoder(body).Decode(&target)` on a complete body: the target
after the call and the error. A value that is malformed or cut short leaves
the target untouched; a value that is well formed is stored field by field,
and a failure on the way leaves what was stored before it. -/
def Decode {T : Type} [Unmarshal T] (body : GoString) (target : T) : T × Option GoError :=
  match readValue body with
  | Scan.ok v _ =>
    let st := Unmarshal.value v { val := target }
    (st.val, match st.err with
      | some e => some e
      | none => st.savedError)
  | Scan.bad => (target, some GoError.malformedJSON)
  | Scan.fuel => (target, some GoError.malformedJSON)
  | Scan.eof => (target, some (if nonSpace body then GoError.unexpectedEOF else GoError.eof))

end Json

/-! ## codecov.go and repositories.go: the data model -/

/-- Meta may be returned as part of some API responses. -/
structure Meta where
  Status : Int := 0
deriving DecidableEq, Repr

/-- Error may be returned as part of some API responses. -/
structure Error where
  Reason : GoString := []
deriving DecidableEq, Repr

/-- Response tracks the base information returned from most Codecov API responses. -/
structure Response where
  Meta : Meta := {}
deriving DecidableEq, Repr

/-- ResponseError tracks the base information returned from Codecov API
responses that have errored. -/
structure ResponseError where
  Meta : Meta := {}
  Error : Error := {}
deriving DecidableEq, Repr

/-- Repository is a tracked Codecov VCS repository. `Updatestamp` is a
pointer: `none` is the nil pointer. -/
structure Repository where
  Name : GoString := []
  Language : GoString := []
  Activated : Bool := false
  Deleted : Bool := false
  Private : Bool := false
  Updatestamp : Option Time := none
  Branch : GoString := []
  Coverage : Json.Float64 := {}
  RepoID : GoString := []
  UsingIntegration : Bool := false
deriving DecidableEq, Repr

/-- A `[]Repository`: whether it is nil, its elements, and the elements of
its backing array beyond its length, which the decoder reuses when it
extends the slice again. -/
structure RepoSlice where
  isNil : Bool := true
  elems : List Repository := []
  spare : List Repository := []
deriving DecidableEq, Repr

/-- ListRepositoriesResponse contains the response of a ListRepositories call. -/
structure ListRepositoriesResponse where
  Repos : RepoSlice := {}
  Meta : Meta := {}
deriving DecidableEq, Repr

/-- GetRepositoryResponse contains the response of a GetRepository call. -/
structure GetRepositoryResponse where
  Repo : Repository := {}
  Meta : Meta := {}
deriving DecidableEq, Repr

/-! ## How the decoder fills the client's types -/

open Json in
/-- Decoding into a `Meta`. -/
def Meta.value : Value → DecodeState Meta → DecodeState Meta :=
  structValue [bytes "Status"] (fun i v st =>
    match i with
    | 0 => st.scalar (fun m => m.Status) (fun m x => { m with Status := x }) storeInt v
    | _ => st)

open Json in
/-- Decoding into an `Error`. -/
def Error.value : Value → DecodeState Error → DecodeState Error :=
  structValue [bytes "Reason"] (fun i v st =>
    match i with
    | 0 => st.scalar (fun m => m.Reason) (fun m x => { m with Reason := x }) storeString v
    | _ => st)

open Json in
/-- Decoding into a `Response`. -/
def Response.value : Value → DecodeState Response → DecodeState Response :=
  structValue [bytes "Meta"] (fun i v st =>
    match i with
    | 0 => st.nested (fun m => m.Meta) (fun m x => { m with Meta := x }) Meta.value v
    | _ => st)

open Json in
/-- Decoding into a `ResponseError`. -/
def ResponseError.value : Value → DecodeState ResponseError → DecodeState ResponseError :=
  structValue [bytes "Meta", bytes "Error"] (fun i v st =>
    match i with
    | 0 => st.nested (fun m => m.Meta) (fun m x => { m with Meta := x }) Meta.value v
    | 1 => st.nested (fun m => m.Error) (fun m x => { m with Error := x }) Error.value v
    | _ => st)

open Json in
/-- Decoding into a `*Time` field: `null` sets the pointer to nil; for any
other value the pointer is allocated if it is nil and `UnmarshalJSON` is
called with the raw text of the value, its error ending the decoding. -/
def timePtrValue (v : Value) (st : DecodeState (Option Time)) : DecodeState (Option Time) :=
  match v with
  | Value.null => { st with val := none }
  | other =>
    let r := Time.UnmarshalJSON (st.val.getD {}) other.raw
    { st with val := some r.1, err := r.2 }

open Json in
/-- Decoding into a `Repository`. -/
def Repository.value : Value → DecodeState Repository → DecodeState Repository :=
  structValue
    [bytes "Name", bytes "Language", bytes "Activated", bytes "Deleted", bytes "Private",
      bytes "Updatestamp", bytes "Branch", bytes "Coverage", bytes "RepoID",
      bytes "using_integration"]
    (fun i v st =>
      match i with
      | 0 => st.scalar (fun m => m.Name) (fun m x => { m with Name := x }) storeString v
      | 1 => st.scalar (fun m => m.Language) (fun m x => { m with Language := x }) storeString v
      | 2 => st.scalar (fun m => m.Activated) (fun m x => { m with Activated := x }) storeBool v
      | 3 => st.scalar (fun m => m.Deleted) (fun m x => { m with Deleted := x }) storeBool v
      | 4 => st.scalar (fun m => m.Private) (fun m x => { m with Private := x }) storeBool v
      | 5 => st.nested (fun m => m.Updatestamp) (fun m x => { m with Updatestamp := x })
          timePtrValue v
      | 6 => st.scalar (fun m => m.Branch) (fun m x => { m with Branch := x }) storeString v
      | 7 => st.scalar (fun m => m.Coverage) (fun m x => { m with Coverage := x }) storeFloat v
      | 8 => st.scalar (fun m => m.RepoID) (fun m x => { m with RepoID := x }) storeString v
      | 9 => st.scalar (fun m => m.UsingIntegration)
          (fun m x => { m with UsingIntegration := x }) storeBool v
      | _ => st)

open Json in
/-- The element loop of `decodeState.array` for a `[]Repository`. `done` are
the elements decoded so far (last first), `live` the old elements not yet
reached, `spare` the backing array beyond the old length. Element `i` is
decoded into the old element `i` when there is one, else into the next
element of the backing array, else into a zero element. At the end the slice
is cut to the number of elements read, and an empty array gives a fresh
empty slice. -/
def sliceElems : List Value → List Repository → List Repository → List Repository →
    Option GoError → DecodeState RepoSlice
  | [], done, live, spare, saved =>
    if done.isEmpty then { val := { isNil := false }, savedError := saved }
    else
      { val := { isNil := false, elems := done.reverse, spare := live ++ spare },
        savedError := saved }
  | e :: es, done, live, spare, saved =>
    let target := match live, spare with
      | t :: _, _ => t
      | [], t :: _ => t
      | [], [] => {}
    let spare := if live.isEmpty then spare.drop 1 else spare
    let live := live.drop 1
    let r := Repository.value e { val := target, savedError := saved }
    match r.err with
    | some err =>
      { val := { isNil := false, elems := done.reverse ++ [r.val] ++ live, spare := spare },
        savedError := r.savedError, err := some err }
    | none => sliceElems es (r.val :: done) live spare r.savedError

open Json in
/-- Decoding into a `[]Repository`. -/
def RepoSlice.value (v : Value) (st : DecodeState RepoSlice) : DecodeState RepoSlice :=
  match v with
  | Value.array _ es => sliceElems es [] st.val.elems st.val.spare st.savedError
  | Value.null => { st with val := {} }
  | other => st.saveError (GoError.unmarshalType (kindName other))

open Json in
/-- Decoding into a `ListRepositoriesResponse`. -/
def ListRepositoriesResponse.value :
    Value → DecodeState ListRepositoriesResponse → DecodeState ListRepositoriesResponse :=
  structValue [bytes "Repos", bytes "Meta"] (fun i v st =>
    match i with
    | 0 => st.nested (fun m => m.Repos) (fun m x => { m with Repos := x }) RepoSlice.value v
    | 1 => st.nested (fun m => m.Meta) (fun m x => { m with Meta := x }) Meta.value v
    | _ => st)

open Json in
/-- Decoding into a `GetRepositoryResponse`. -/
def GetRepositoryResponse.value :
    Value → DecodeState GetRepositoryResponse → DecodeState GetRepositoryResponse :=
  structValue [bytes "Repo", bytes "Meta"] (fun i v st =>
    match i with
    | 0 => st.nested (fun m => m.Repo) (fun m x => { m with Repo := x }) Repository.value v
    | 1 => st.nested (fun m => m.Meta) (fun m x => { m with Meta := x }) Meta.value v
    | _ => st)

instance : Json.Unmarshal Response := ⟨{}, Response.value⟩
instance : Json.Unmarshal ResponseError := ⟨{}, ResponseError.value⟩
instance : Json.Unmarshal ListRepositoriesResponse := ⟨{}, ListRepositoriesResponse.value⟩
instance : Json.Unmarshal GetRepositoryResponse := ⟨{}, GetRepositoryResponse.value⟩

/-! ## The `net/url` and `net/http` packages -/

/-- Go `url.URL` (the encoding hints `RawPath` and `RawFragment` left out). -/
structure URL where
  Scheme : GoString := []
  Host : GoString := []
  Path : GoString := []
  ForceQuery : Bool := false
  RawQuery : GoString := []
  Fragment : GoString := []
deriving DecidableEq, Repr

namespace Url

/-- Go `unescape` in the modes of a path or a fragment: every `%XX` becomes
the byte it names; a `%` that is not followed by two hexadecimal digits is
an error. -/
def unescape : GoString → Option GoString
  | [] => some []
  | 37 :: rest =>
    match rest with
    | h1 :: h2 :: rest2 =>
      match Json.hexVal h1, Json.hexVal h2, unescape rest2 with
      | some a, some b, some r => some ((a * 16 + b) :: r)
      | _, _, _ => none
    | _ => none
  | c :: rest =>
    match unescape rest with
    | some r => some (c :: r)
    | none => none

/-- The bytes before the first `sep`, and those after it (Go `strings.Cut`
with a separator of one byte). -/
def cut (s : GoString) (sep : Nat) : GoString × GoString :=
  (s.takeWhile (fun c => c != sep), (s.dropWhile (fun c => c != sep)).drop 1)

/-- Go `url.Parse` on a reference that starts with a single slash, the only
form the client passes (`"/gh/" + owner`): the fragment is cut off, control
bytes are refused, the query is split off, and the path and the fragment are
unescaped. The scheme and authority branches of `url.Parse`, which such a
reference does not reach, are not modelled: other input is refused. -/
def Parse (rawURL : GoString) : Except GoError URL :=
  let (u, frag) := cut rawURL 35
  if u.any (fun b => b < 32 || b == 127) then
    Except.error (GoError.urlError (bytes "net/url: invalid control character in URL"))
  else if u.head? ≠ some slash ∨ (u.drop 1).head? = some slash then
    Except.error (GoError.urlError (bytes "reference outside the model"))
  else
    let force := u.getLast? = some 63 ∧ u.count 63 = 1
    let rest := if force then u.dropLast else (cut u 63).1
    let query := if force then [] else (cut u 63).2
    match unescape rest, unescape frag with
    | some path, some fragment =>
      Except.ok { Path := path, ForceQuery := force, RawQuery := query, Fragment := fragment }
    | _, _ => Except.error (GoError.urlError (bytes "invalid URL escape"))

end Url

/-- Go `http.Header`: the values stored under each key (none for a key that
is absent). -/
abbrev Header := GoString → List GoString

namespace Textproto

/-- Go `validHeaderFieldByte`: the bytes of an HTTP token. -/
def validHeaderFieldByte (c : Nat) : Bool :=
  (48 ≤ c && c ≤ 57) || (65 ≤ c && c ≤ 90) || (97 ≤ c && c ≤ 122)
    || (bytes "!#$%&'*+-.^_`|~").contains c

/-- The casing of a canonical key: `upper` tells whether the next letter
starts a word. -/
def canonicalCase : Bool → GoString → GoString
  | _, [] => []
  | upper, c :: rest =>
    let c' := if upper && (97 ≤ c && c ≤ 122) then c - 32
      else if !upper && (65 ≤ c && c ≤ 90) then c + 32 else c
    c' :: canonicalCase (c == 45) rest

/-- Go `textproto.CanonicalMIMEHeaderKey`: a key made of token bytes gets the
first letter and every letter after a hyphen in upper case and the others
in lower case; any other key is returned as it is. -/
def CanonicalMIMEHeaderKey (s : GoString) : GoString :=
  if s.all validHeaderFieldByte then canonicalCase true s else s

end Textproto

/-- Go `Header.Add`: appends the value to the values of the canonical key. -/
def Header.Add (h : Header) (key value : GoString) : Header :=
  fun k => if k = Textproto.CanonicalMIMEHeaderKey key then h k ++ [value] else h k

/-- A non-nil `context.Context`; only its deadline (in milliseconds) is kept. -/
structure Context where
  deadline : Option Nat := none
deriving DecidableEq, Repr

/-- Go `context.Background()`. -/
def Context.Background : Context := {}

/-- Go `http.Request` as the client uses it. -/
structure Request where
  ctx : Context
  Method : GoString
  URL : URL
  Header : Header
  Host : GoString

/-- The status and the complete body of a Go `http.Response`. -/
structure HTTPResponse where
  StatusCode : Int
  Body : GoString
deriving DecidableEq, Repr

/-- Go `http.NewRequestWithContext(ctx, method, url, nil)` for a valid method:
a nil context (`none`) is refused before the URL is looked at. -/
def NewRequestWithContext (ctx : Option Context) (method url : GoString) :
    Except GoError Request :=
  match ctx with
  | none => Except.error GoError.nilContext
  | some ctx =>
    match Url.Parse url with
    | Except.error e => Except.error e
    | Except.ok u =>
      Except.ok { ctx := ctx, Method := method, URL := u, Header := fun _ => [], Host := u.Host }

/-- Go `http.DefaultClient.Do`: the network, a parameter of the model. -/
abbrev Transport := Request → Except GoError HTTPResponse

/-! ## codecov.go, auth.go, repositories.go: the client -/

/-- Client represents the Codecov API client. -/
structure Client where
  endpoint : URL
  token : GoString
deriving DecidableEq, Repr

/-- SetEndpoint will override the default Codecov endpoint with a custom location. -/
def Client.SetEndpoint (c : Client) (u : URL) : Client := { c with endpoint := u }

/-- NewClient returns an instance of the Codecov API client. -/
def NewClient (token : GoString) : Client :=
  Client.SetEndpoint { endpoint := {}, token := token }
    { Scheme := bytes "https", Host := bytes "codecov.io", Path := bytes "/api/" }

/-- `Client.addAuthorization`: the request after the call. -/
def Client.addAuthorization (c : Client) (request : Request) : Request :=
  { request with Header := request.Header.Add (bytes "Authorization") (bytes "token " ++ c.token) }

/-- Decimal rendering of an integer, as the verb `%d` prints it. -/
def formatInt (n : Int) : GoString :=
  (if n < 0 then [45] else []) ++ (Nat.toDigits 10 n.natAbs).map Char.toNat

/-- What a call of `doRequest` leaves behind: the request object and the
response target after the call, the error returned, and the requests that
were handed to `http.DefaultClient.Do`. -/
structure Dispatch (T : Type) where
  request : Request
  response : T
  err : Option GoError
  sent : List Request

/-- `Client.doRequest`: the path is prefixed, the credential added, the request
sent, and the body decoded into the response target on status 200 and into
a `ResponseError` on any other status. -/
def Client.doRequest {T : Type} [Json.Unmarshal T] (Do : Transport) (c : Client)
    (request : Request) (response : T) : Dispatch T :=
  -- Prefix the URL
  let request := { request with URL := { request.URL with
    Scheme := c.endpoint.Scheme
    Host := c.endpoint.Host
    Path := rewritePath c.endpoint.Path request.URL.Path } }
  -- Authenticate the request for sending
  let request := c.addAuthorization request
  -- Send the request
  match Do request with
  | Except.error err => ⟨request, response, some err, [request]⟩
  | Except.ok responseData =>
    if responseData.StatusCode = 200 then
      -- Success, parse the response successfully
      let r := Json.Decode responseData.Body response
      ⟨request, r.1, r.2, [request]⟩
    else
      -- Extract the error message from the response and return it
      let r := Json.Decode responseData.Body ({} : ResponseError)
      match r.2 with
      | none =>
        ⟨request, response,
          some (GoError.errorf
            (formatInt responseData.StatusCode ++ bytes ": " ++ r.1.Error.Reason)),
          [request]⟩
      | some err => ⟨request, response, some err, [request]⟩

/-- What a resource operation returns, and the requests it sent. -/
structure Call (T : Type) where
  response : T
  err : Option GoError
  sent : List Request

/-- ListRepositories will list all repositories for the given owner. -/
def Client.ListRepositories (Do : Transport) (c : Client) (ctx : Option Context)
    (owner : GoString) : Call ListRepositoriesResponse :=
  match NewRequestWithContext ctx (bytes "GET") (bytes "/gh/" ++ owner) with
  | Except.error err => ⟨{}, some err, []⟩
  | Except.ok request =>
    let r := c.doRequest Do request ({} : ListRepositoriesResponse)
    ⟨r.response, r.err, r.sent⟩

/-- GetRepository will get a single repository for the given owner. -/
def Client.GetRepository (Do : Transport) (c : Client) (ctx : Option Context)
    (owner repo : GoString) : Call GetRepositoryResponse :=
  match NewRequestWithContext ctx (bytes "GET") (bytes "/gh/" ++ owner ++ bytes "/" ++ repo) with
  | Except.error err => ⟨{}, some err, []⟩
  | Except.ok request =>
    let r := c.doRequest Do request ({} : GetRepositoryResponse)
    ⟨r.response, r.err, r.sent⟩

/-! ## Notions used to state the properties -/

/-- The segments of a path: its maximal runs of bytes other than `/`.
`cur` is the run being read, last byte first. -/
def segmentsFrom : GoString → GoString → List GoString
  | [], cur => if cur.isEmpty then [] else [cur.reverse]
  | c :: rest, cur =>
    if c = slash then
      if cur.isEmpty then segmentsFrom rest [] else cur.reverse :: segmentsFrom rest []
    else segmentsFrom rest (c :: cur)

/-- The segments of a path. -/
def segments (s : GoString) : List GoString := segmentsFrom s []

/-- The segments joined by single slashes. -/
def joinSlash : List GoString → GoString
  | [] => []
  | [a] => a
  | a :: b :: l => a ++ [slash] ++ joinSlash (b :: l)

/-- The request `doRequest` hands to `http.DefaultClient.Do`: scheme, host and
path rewritten to the endpoint, and the credential added. -/
def Client.outgoing (c : Client) (request : Request) : Request :=
  c.addAuthorization { request with URL := { request.URL with
    Scheme := c.endpoint.Scheme
    Host := c.endpoint.Host
    Path := rewritePath c.endpoint.Path request.URL.Path } }

/-- The errors that `Decoder.Decode` produces, as opposed to the API error
that `doRequest` builds with `fmt.Errorf`. -/
def GoError.isDecodeError : GoError → Bool
  | GoError.eof => true
  | GoError.unexpectedEOF => true
  | GoError.malformedJSON => true
  | GoError.unmarshalType _ => true
  | GoError.timeParse _ => true
  | _ => false

/-- The body of the `Error` case of `TestClient_doRequest`, which carries a
surplus closing brace after the envelope. -/
def errorFixture : GoString :=
  bytes "\x7b \"meta\": \x7b \"status\": 404 \x7d, \"error\": \x7b \"reason\": \"Item not found.\" \x7d \x7d \x7d\n"

/-- The error `Decoder.Decode` returns for what was stored: the error that
ended the decoding, else the first saved type error. -/
def Json.DecodeState.result {T : Type} (st : Json.DecodeState T) : Option GoError :=
  match st.err with
  | some e => some e
  | none => st.savedError

/-- The body of the `Successful` case of `TestClient_ListRepositories`. -/
def listFixture : GoString :=
  bytes "\n\x7b\n\t\"repos\": [\n\t\t\x7b\n\t\t\t\"fork\": null,\n\t\t\t\"name\": \"guess-my-word\",\n\t\t\t\"language\": \"go\",\n\t\t\t\"activated\": false,\n\t\t\t\"private\": false,\n\t\t\t\"updatestamp\": \"2020-05-10 17:55:29.623184+00:00\",\n\t\t\t\"latest_commit\": \"2020-05-10 17:54:16\",\n\t\t\t\"branch\": \"master\",\n\t\t\t\"coverage\": 82.07547,\n\t\t\t\"repoid\": \"9384825\"\n\t\t\x7d,\n\t\t\x7b\n\t\t\t\"fork\": null,\n\t\t\t\"name\": \"terraform-provider-jenkins\",\n\t\t\t\"language\": \"go\",\n\t\t\t\"activated\": false,\n\t\t\t\"private\": false,\n\t\t\t\"updatestamp\": null,\n\t\t\t\"latest_commit\": null,\n\t\t\t\"branch\": \"master\",\n\t\t\t\"coverage\": null,\n\t\t\t\"repoid\": \"9384835\"\n\t\t\x7d\n\t],\n\t\"meta\": \x7b\n\t\t\"status\": 200,\n\t\t\"limit\": 20,\n\t\t\"page\": 1\n\t\x7d\n\x7d\n"

/-- A 200 body for `GetRepository` whose `updatestamp` is in no known format. -/
def badStampRepo : GoString :=
  bytes "\x7b\"meta\":\x7b\"status\":200\x7d,\"repo\":\x7b\"name\":\"x\",\"updatestamp\":\"not-a-date\"\x7d\x7d"

/-- A 200 body for `ListRepositories` whose `updatestamp` is in no known format. -/
def badStampRepos : GoString :=
  bytes "\x7b\"meta\":\x7b\"status\":200\x7d,\"repos\":[\x7b\"name\":\"x\",\"updatestamp\":\"not-a-date\"\x7d]\x7d"

/-- The ordered fallback as the specification words it: the first format of
the list, in order, that accepts the input decides, and the UTC conversion
of its parse is stored without error; when no format accepts the input the
result is the parse error of the last format, `RFC3339NanoSansT`, with the
receiver unchanged. -/
def orderedFallback (t : Time) (data : GoString) : Time × Option GoError :=
  match [GoTime.RFC3339, RFC3339UTC, RFC3339UTCSansT, RFC3339NanoSansT].find?
      (fun format => (GoTime.Parse (quoted format) data).toBool) with
  | some format =>
    match GoTime.Parse (quoted format) data with
    | Except.ok tm => ({ t with Time := tm.UTC }, none)
    | Except.error e => (t, some (GoError.timeParse e))
  | none =>
    match GoTime.Parse (quoted RFC3339NanoSansT) data with
    | Except.ok tm => ({ t with Time := tm.UTC }, none)
    | Except.error e => (t, some (GoError.timeParse e))

/-- The four timestamp variants the Codecov API has been seen to send. -/
inductive Variant
  | rfc3339
  | utc
  | utcSansT
  | nanoSansT
deriving DecidableEq, Repr

/-- Whether a literal of the variant carries a UTC offset. -/
def Variant.carriesOffset : Variant → Bool
  | Variant.rfc3339 => true
  | Variant.nanoSansT => true
  | _ => false

/-- The byte between date and time: `T` or a space. -/
def Variant.separator : Variant → Nat
  | Variant.rfc3339 => 84
  | Variant.utc => 84
  | _ => 32

/-- A calendar date and a time of day, as a literal spells them. -/
structure Civil where
  year : Nat
  month : Nat
  day : Nat
  hour : Nat
  min : Nat
  sec : Nat
deriving DecidableEq, Repr

/-- A date that exists in a year of four digits, and a time of day. -/
def Civil.valid (c : Civil) : Bool :=
  decide (c.year ≤ 9999) && decide (1 ≤ c.month) && decide (c.month ≤ 12)
    && decide (1 ≤ c.day) && decide ((c.day : Int) ≤ GoTime.daysIn c.month c.year)
    && decide (c.hour < 24) && decide (c.min < 60) && decide (c.sec < 60)

/-- A UTC offset as a literal spells it: `Z`, `+hh:mm` or `-hh:mm`. -/
inductive Offset
  | z
  | east (hh mm : Nat)
  | west (hh mm : Nat)
deriving DecidableEq, Repr

/-- Hours up to 23 and minutes up to 59. -/
def Offset.valid : Offset → Bool
  | Offset.z => true
  | Offset.east hh mm => decide (hh ≤ 23) && decide (mm ≤ 59)
  | Offset.west hh mm => decide (hh ≤ 23) && decide (mm ≤ 59)

/-- The offset in seconds east of UTC. -/
def Offset.seconds : Offset → Int
  | Offset.z => 0
  | Offset.east hh mm => ((hh : Int) * 60 + mm) * 60
  | Offset.west hh mm => -(((hh : Int) * 60 + mm) * 60)

/-- Two decimal digits. -/
def two (n : Nat) : GoString := [48 + n / 10, 48 + n % 10]

/-- Four decimal digits. -/
def four (n : Nat) : GoString :=
  [48 + n / 1000, 48 + n / 100 % 10, 48 + n / 10 % 10, 48 + n % 10]

/-- The text of an offset. -/
def Offset.text : Offset → GoString
  | Offset.z => [90]
  | Offset.east hh mm => 43 :: (two hh ++ 58 :: two mm)
  | Offset.west hh mm => 45 :: (two hh ++ 58 :: two mm)

/-- The text of a fraction of a second given by its digits: nothing when
there are none, else a period and the digits. -/
def fracText (ds : List Nat) : GoString :=
  if ds.isEmpty then [] else 46 :: ds.map (fun d => 48 + d)

/-- The number a list of decimal digits spells. -/
def decimal (ds : List Nat) : Nat := ds.foldl (fun a d => 10 * a + d) 0

/-- The nanoseconds a fraction of up to nine digits stands for. -/
def fracNanos (ds : List Nat) : Int := (decimal ds : Int) * 10 ^ (9 - ds.length)

/-- Up to nine decimal digits. -/
def fracValid (ds : List Nat) : Bool := decide (ds.length ≤ 9) && ds.all (fun d => decide (d < 10))

/-- The quoted literal of a variant for a date, time, fraction and offset;
the offset is written only in the variants that carry one. -/
def literal (v : Variant) (c : Civil) (frac : List Nat) (off : Offset) : GoString :=
  34 :: (four c.year ++ 45 :: (two c.month ++ 45 :: (two c.day ++ v.separator ::
    (two c.hour ++ 58 :: (two c.min ++ 58 :: (two c.sec ++ (fracText frac ++
      ((if v.carriesOffset then off.text else []) ++ [34]))))))))

/-- The moment a literal expresses, as a `time.Time` in UTC: the date and
time read at the offset of the literal, or at UTC in the variants without
an offset. -/
def expressed (v : Variant) (c : Civil) (frac : List Nat) (off : Offset) : GoTime.Time :=
  let t := GoTime.Date c.year c.month c.day c.hour c.min c.sec (fracNanos frac)
  { sec := t.sec - (if v.carriesOffset then off.seconds else 0), nsec := t.nsec,
    loc := GoTime.Location.utc }

namespace Json

/-- No error ended the decoding, and the saved error, if any, is a decode error. -/
def DecodeState.Clean {T : Type} (st : DecodeState T) : Prop :=
  st.err = none ∧ ∀ e, st.savedError = some e → e.isDecodeError = true

end Json

namespace GoTime

/-- One turn of the loop of `time.Parse`: the layout before the turn, the
literal text before the element, the element, and the layout after it. -/
structure Chunk where
  layout : GoString
  pre : GoString
  std : Std
  suffix : GoString
deriving DecidableEq, Repr

/-- The turns the loop of `time.Parse` takes on a layout, and the literal
text that ends the layout (none when the fuel runs out first). -/
def chunkList : Nat → GoString → List Chunk × Option GoString
  | 0, _ => ([], none)
  | fuel + 1, layout =>
    match nextStdChunk layout with
    | (pre, none, _) => ([], some pre)
    | (pre, some std, suffix) =>
      (⟨layout, pre, std, suffix⟩ :: (chunkList fuel suffix).1, (chunkList fuel suffix).2)

/-- The loop of `time.Parse` run over the turns of `chunkList`. -/
def runChunks (alayout avalue : GoString) :
    List Chunk → Option GoString → GoString → Fields → Except ParseError (Fields × GoString)
  | [], none, value, f => Except.ok (f, value)
  | [], some pre, value, f =>
    match skip (pre.length + 1) value pre with
    | Except.error v => Except.error ⟨alayout, avalue, pre, v, []⟩
    | Except.ok value =>
      if value ≠ [] then
        Except.error ⟨alayout, avalue, [], value, bytes ": extra text: " ++ quote value⟩
      else Except.ok (f, value)
  | c :: cs, last, value, f =>
    match skip (c.pre.length + 1) value c.pre with
    | Except.error v => Except.error ⟨alayout, avalue, c.pre, v, []⟩
    | Except.ok value =>
      if (parseStd c.std c.suffix value f).rangeErr ≠ [] then
        Except.error ⟨alayout, avalue, stdstr c.layout c.pre c.suffix,
          (parseStd c.std c.suffix value f).value,
          bytes ": " ++ (parseStd c.std c.suffix value f).rangeErr ++ bytes " out of range"⟩
      else if (parseStd c.std c.suffix value f).err then
        Except.error ⟨alayout, avalue, stdstr c.layout c.pre c.suffix, value, []⟩
      else runChunks alayout avalue cs last (parseStd c.std c.suffix value f).value
        (parseStd c.std c.suffix value f).fields

/-- The text after a fraction: it starts with a byte that is neither a digit
nor a period or comma. -/
def Stops (tail : GoString) : Prop :=
  ∃ c t, tail = c :: t ∧ isDigitByte c = false ∧ commaOrPeriod c = false

end GoTime

/-- The turns of the loop of `time.Parse` on the layout `"2006-01-02T15:04:05Z07:00"`. -/
def chunksRFC3339 : List GoTime.Chunk :=
  [⟨[34, 50, 48, 48, 54, 45, 48, 49, 45, 48, 50, 84, 49, 53, 58, 48, 52, 58, 48, 53, 90, 48, 55, 58, 48, 48, 34],
    [34], GoTime.Std.stdLongYear, [45, 48, 49, 45, 48, 50, 84, 49, 53, 58, 48, 52, 58, 48, 53, 90, 48, 55, 58, 48, 48, 34]⟩,
   ⟨[45, 48, 49, 45, 48, 50, 84, 49, 53, 58, 48, 52, 58, 48, 53, 90, 48, 55, 58, 48, 48, 34],
    [45], GoTime.Std.stdZeroMonth, [45, 48, 50, 84, 49, 53, 58, 48, 52, 58, 48, 53, 90, 48, 55, 58, 48, 48, 34]⟩,
   ⟨[45, 48, 50, 84, 49, 53, 58, 48, 52, 58, 48, 53, 90, 48, 55, 58, 48, 48, 34],
    [45], GoTime.Std.stdZeroDay, [84, 49, 53, 58, 48, 52, 58, 48, 53, 90, 48, 55, 58, 48, 48, 34]⟩,
   ⟨[84, 49, 53, 58, 48, 52, 58, 48, 53, 90, 48, 55, 58, 48, 48, 34],
    [84], GoTime.Std.stdHour, [58, 48, 52, 58, 48, 53, 90, 48, 55, 58, 48, 48, 34]⟩,
   ⟨[58, 48, 52, 58, 48, 53, 90, 48, 55, 58, 48, 48, 34],
    [58], GoTime.Std.stdZeroMinute, [58, 48, 53, 90, 48, 55, 58, 48, 48, 34]⟩,
   ⟨[58, 48, 53, 90, 48, 55, 58, 48, 48, 34],
    [58], GoTime.Std.stdZeroSecond, [90, 48, 55, 58, 48, 48, 34]⟩,
   ⟨[90, 48, 55, 58, 48, 48, 34],
    [], GoTime.Std.stdISO8601ColonTZ, [34]⟩]

/-- The turns of the loop of `time.Parse` on the layout `"2006-01-02T15:04:05"`. -/
def chunksRFC3339UTC : List GoTime.Chunk :=
  [⟨[34, 50, 48, 48, 54, 45, 48, 49, 45, 48, 50, 84, 49, 53, 58, 48, 52, 58, 48, 53, 34],
    [34], GoTime.Std.stdLongYear, [45, 48, 49, 45, 48, 50, 84, 49, 53, 58, 48, 52, 58, 48, 53, 34]⟩,
   ⟨[45, 48, 49, 45, 48, 50, 84, 49, 53, 58, 48, 52, 58, 48, 53, 34],
    [45], GoTime.Std.stdZeroMonth, [45, 48, 50, 84, 49, 53, 58, 48, 52, 58, 48, 53, 34]⟩,
   ⟨[45, 48, 50, 84, 49, 53, 58, 48, 52, 58, 48, 53, 34],
    [45], GoTime.Std.stdZeroDay, [84, 49, 53, 58, 48, 52, 58, 48, 53, 34]⟩,
   ⟨[84, 49, 53, 58, 48, 52, 58, 48, 53, 34],
    [84], GoTime.Std.stdHour, [58, 48, 52, 58, 48, 53, 34]⟩,
   ⟨[58, 48, 52, 58, 48, 53, 34],
    [58], GoTime.Std.stdZeroMinute, [58, 48, 53, 34]⟩,
   ⟨[58, 48, 53, 34],
    [58], GoTime.Std.stdZeroSecond, [34]⟩]

/-- The turns of the loop of `time.Parse` on the layout `"2006-01-02 15:04:05"`. -/
def chunksRFC3339UTCSansT : List GoTime.Chunk :=
  [⟨[34, 50, 48, 48, 54, 45, 48, 49, 45, 48, 50, 32, 49, 53, 58, 48, 52, 58, 48, 53, 34],
    [34], GoTime.Std.stdLongYear, [45, 48, 49, 45, 48, 50, 32, 49, 53, 58, 48, 52, 58, 48, 53, 34]⟩,
   ⟨[45, 48, 49, 45, 48, 50, 32, 49, 53, 58, 48, 52, 58, 48, 53, 34],
    [45], GoTime.Std.stdZeroMonth, [45, 48, 50, 32, 49, 53, 58, 48, 52, 58, 48, 53, 34]⟩,
   ⟨[45, 48, 50, 32, 49, 53, 58, 48, 52, 58, 48, 53, 34],
    [45], GoTime.Std.stdZeroDay, [32, 49, 53, 58, 48, 52, 58, 48, 53, 34]⟩,
   ⟨[32, 49, 53, 58, 48, 52, 58, 48, 53, 34],
    [32], GoTime.Std.stdHour, [58, 48, 52, 58, 48, 53, 34]⟩,
   ⟨[58, 48, 52, 58, 48, 53, 34],
    [58], GoTime.Std.stdZeroMinute, [58, 48, 53, 34]⟩,
   ⟨[58, 48, 53, 34],
    [58], GoTime.Std.stdZeroSecond, [34]⟩]

/-- The turns of the loop of `time.Parse` on the layout `"2006-01-02 15:04:05.999999Z07:00"`. -/
def chunksRFC3339NanoSansT : List GoTime.Chunk :=
  [⟨[34, 50, 48, 48, 54, 45, 48, 49, 45, 48, 50, 32, 49, 53, 58, 48, 52, 58, 48, 53, 46, 57, 57, 57, 57, 57, 57, 90, 48, 55, 58, 48, 48, 34],
    [34], GoTime.Std.stdLongYear, [45, 48, 49, 45, 48, 50, 32, 49, 53, 58, 48, 52, 58, 48, 53, 46, 57, 57, 57, 57, 57, 57, 90, 48, 55, 58, 48, 48, 34]⟩,
   ⟨[45, 48, 49, 45, 48, 50, 32, 49, 53, 58, 48, 52, 58, 48, 53, 46, 57, 57, 57, 57, 57, 57, 90, 48, 55, 58, 48, 48, 34],
    [45], GoTime.Std.stdZeroMonth, [45, 48, 50, 32, 49, 53, 58, 48, 52, 58, 48, 53, 46, 57, 57, 57, 57, 57, 57, 90, 48, 55, 58, 48, 48, 34]⟩,
   ⟨[45, 48, 50, 32, 49, 53, 58, 48, 52, 58, 48, 53, 46, 57, 57, 57, 57, 57, 57, 90, 48, 55, 58, 48, 48, 34],
    [45], GoTime.Std.stdZeroDay, [32, 49, 53, 58, 48, 52, 58, 48, 53, 46, 57, 57, 57, 57, 57, 57, 90, 48, 55, 58, 48, 48, 34]⟩,
   ⟨[32, 49, 53, 58, 48, 52, 58, 48, 53, 46, 57, 57, 57, 57, 57, 57, 90, 48, 55, 58, 48, 48, 34],
    [32], GoTime.Std.stdHour, [58, 48, 52, 58, 48, 53, 46, 57, 57, 57, 57, 57, 57, 90, 48, 55, 58, 48, 48, 34]⟩,
   ⟨[58, 48, 52, 58, 48, 53, 46, 57, 57, 57, 57, 57, 57, 90, 48, 55, 58, 48, 48, 34],
    [58], GoTime.Std.stdZeroMinute, [58, 48, 53, 46, 57, 57, 57, 57, 57, 57, 90, 48, 55, 58, 48, 48, 34]⟩,
   ⟨[58, 48, 53, 46, 57, 57, 57, 57, 57, 57, 90, 48, 55, 58, 48, 48, 34],
    [58], GoTime.Std.stdZeroSecond, [46, 57, 57, 57, 57, 57, 57, 90, 48, 55, 58, 48, 48, 34]⟩,
   ⟨[46, 57, 57, 57, 57, 57, 57, 90, 48, 55, 58, 48, 48, 34],
    [], GoTime.Std.stdFracSecond9, [90, 48, 55, 58, 48, 48, 34]⟩,
   ⟨[90, 48, 55, 58, 48, 48, 34],
    [], GoTime.Std.stdISO8601ColonTZ, [34]⟩]

/-- The fields `time.Parse` has read when it reaches the end of a literal. -/
def readFields (v : Variant) (c : Civil) (frac : List Nat) (off : Offset) : GoTime.Fields :=
  { year := c.year, month := c.month, day := c.day, hour := c.hour, min := c.min,
    sec := c.sec, nsec := fracNanos frac,
    zoneOffset := if v.carriesOffset then
        (match off with
          | Offset.z => -1
          | _ => off.seconds)
      else -1,
    z := v.carriesOffset && (match off with
      | Offset.z => true
      | _ => false) }

/-- The layout that is meant for a variant. -/
def Variant.format : Variant → GoString
  | Variant.rfc3339 => GoTime.RFC3339
  | Variant.utc => RFC3339UTC
  | Variant.utcSansT => RFC3339UTCSansT
  | Variant.nanoSansT => RFC3339NanoSansT

/-! ## Path lemmas -/

theorem TrimPrefix_slash_cons (x : GoString) :
    Strings.TrimPrefix (slash :: x) [slash] = x := by
  simp [Strings.TrimPrefix, Strings.HasPrefix]

theorem head_TrimLeft (s : GoString) :
    (Strings.TrimLeft s [slash]).head? ≠ some slash := by
  unfold Strings.TrimLeft
  induction s with
  | nil => simp
  | cons a t ih =>
    by_cases h : a = slash
    · simpa [List.dropWhile_cons, h] using ih
    · simp [List.dropWhile_cons, h]

theorem getLast_dropWhile_ne (p : Nat → Bool) (s : GoString) (x : Nat)
    (h : s.getLast? ≠ some x) : (s.dropWhile p).getLast? ≠ some x := by
  induction s with
  | nil => simpa using h
  | cons a t ih =>
    rw [List.dropWhile_cons]
    split
    · apply ih
      cases t with
      | nil => simp
      | cons b u => simpa [List.getLast?_cons_cons] using h
    · exact h

theorem getLast_TrimRight (s : GoString) :
    (Strings.TrimRight s [slash]).getLast? ≠ some slash := by
  unfold Strings.TrimRight
  rw [List.getLast?_reverse]
  have := head_TrimLeft s.reverse
  simpa [Strings.TrimLeft] using this

theorem head_Trim (s : GoString) : (Strings.Trim s [slash]).head? ≠ some slash :=
  head_TrimLeft _

theorem getLast_Trim (s : GoString) : (Strings.Trim s [slash]).getLast? ≠ some slash :=
  getLast_dropWhile_ne _ _ _ (getLast_TrimRight s)

theorem hasDoubleSlash_append (x y : GoString)
    (hx : hasDoubleSlash x = false) (hy : hasDoubleSlash y = false)
    (hxy : x.getLast? ≠ some slash ∨ y.head? ≠ some slash) :
    hasDoubleSlash (x ++ y) = false := by
  induction x with
  | nil => simpa using hy
  | cons a t ih =>
    cases t with
    | nil =>
      cases y with
      | nil => simp [hasDoubleSlash]
      | cons b u =>
        simp only [List.singleton_append, hasDoubleSlash, hy, Bool.or_false]
        simp only [List.getLast?_singleton, List.head?_cons, ne_eq, Option.some.injEq] at hxy
        simp only [Bool.and_eq_false_imp, beq_iff_eq, beq_eq_false_iff_ne]
        intro ha
        cases hxy with
        | inl h => exact absurd ha h
        | inr h => exact h
    | cons b u =>
      simp only [hasDoubleSlash, Bool.or_eq_false_iff] at hx
      have := ih hx.2 (by simpa [List.getLast?_cons_cons] using hxy)
      simp only [List.cons_append, hasDoubleSlash, Bool.or_eq_false_iff]
      exact ⟨hx.1, by simpa using this⟩

theorem TrimRight_append_slashes (b : GoString) (k : Nat) :
    Strings.TrimRight (b ++ List.replicate k slash) [slash] = Strings.TrimRight b [slash] := by
  unfold Strings.TrimRight
  congr 1
  rw [List.reverse_append, List.reverse_replicate]
  induction k with
  | zero => simp
  | succ n ih => simpa [List.replicate_succ, List.dropWhile_cons] using ih

theorem rewritePath_append_slashes (b r : GoString) (k : Nat) :
    rewritePath (b ++ List.replicate k slash) r = rewritePath b r := by
  simp [rewritePath, Strings.Trim, TrimRight_append_slashes]

theorem rewritePath_clean (B R : GoString) (hB : B ≠ [])
    (hBh : B.head? ≠ some slash) (hBl : B.getLast? ≠ some slash)
    (hBd : hasDoubleSlash B = false)
    (hR : R.head? ≠ some slash) (hRd : hasDoubleSlash R = false) :
    ([slash] ++ B ++ [slash] ++ R).tail.head? ≠ some slash
    ∧ hasDoubleSlash ([slash] ++ B ++ [slash] ++ R) = false := by
  constructor
  · cases B with
    | nil => exact absurd rfl hB
    | cons x t => simpa using hBh
  · have h1 : hasDoubleSlash ([slash] ++ R) = false :=
      hasDoubleSlash_append [slash] R (by simp [hasDoubleSlash]) hRd (Or.inr hR)
    have h2 : hasDoubleSlash (B ++ ([slash] ++ R)) = false :=
      hasDoubleSlash_append B _ hBd h1 (Or.inl hBl)
    have h3 := hasDoubleSlash_append [slash] (B ++ ([slash] ++ R)) (by simp [hasDoubleSlash]) h2
      (Or.inr (by cases B with
        | nil => exact absurd rfl hB
        | cons x t => simpa using hBh))
    simpa [List.append_assoc] using h3

theorem segmentsFrom_append_slash (s cur : GoString) :
    segmentsFrom (s ++ [slash]) cur = segmentsFrom s cur := by
  induction s generalizing cur with
  | nil => by_cases h : cur.isEmpty <;> simp [segmentsFrom, h]
  | cons c t ih =>
    by_cases hc : c = slash
    · by_cases h : cur.isEmpty <;> simp [segmentsFrom, hc, h, ih]
    · simp [segmentsFrom, hc, ih]

theorem segmentsFrom_append_slashes (s cur : GoString) (k : Nat) :
    segmentsFrom (s ++ List.replicate k slash) cur = segmentsFrom s cur := by
  induction k with
  | zero => simp
  | succ n ih =>
    rw [List.replicate_succ', ← List.append_assoc, segmentsFrom_append_slash, ih]

theorem segments_TrimLeft (s : GoString) :
    segments (Strings.TrimLeft s [slash]) = segments s := by
  unfold Strings.TrimLeft segments
  induction s with
  | nil => rfl
  | cons c t ih =>
    by_cases hc : c = slash
    · simpa [List.dropWhile_cons, hc, segmentsFrom] using ih
    · simp [List.dropWhile_cons, hc]

theorem TrimRight_decompose (s : GoString) :
    ∃ k, s = Strings.TrimRight s [slash] ++ List.replicate k slash := by
  refine ⟨(s.reverse.takeWhile (fun b => [slash].contains b)).length, ?_⟩
  have h := List.takeWhile_append_dropWhile (fun b => [slash].contains b) s.reverse
  have h2 : s.reverse.takeWhile (fun b => [slash].contains b)
      = List.replicate (s.reverse.takeWhile (fun b => [slash].contains b)).length slash := by
    rw [List.eq_replicate_iff]
    refine ⟨rfl, fun b hb => ?_⟩
    have := List.mem_takeWhile_imp hb
    simpa using this
  have h3 := congrArg List.reverse h
  rw [List.reverse_append, List.reverse_reverse] at h3
  have h4 : (s.reverse.takeWhile (fun b => [slash].contains b)).reverse
      = List.replicate (s.reverse.takeWhile (fun b => [slash].contains b)).length slash := by
    nth_rewrite 1 [h2]
    simp
  rw [h4] at h3
  exact h3.symm

theorem segments_Trim (s : GoString) :
    segments (Strings.Trim s [slash]) = segments s := by
  unfold Strings.Trim
  rw [segments_TrimLeft]
  obtain ⟨k, hk⟩ := TrimRight_decompose s
  conv_rhs => rw [hk]
  unfold segments
  rw [segmentsFrom_append_slashes]

theorem segments_TrimPrefix (r : GoString) :
    segments (Strings.TrimPrefix r [slash]) = segments r := by
  cases r with
  | nil => rfl
  | cons c t =>
    by_cases hc : c = slash
    · subst hc
      rw [TrimPrefix_slash_cons]
      simp [segments, segmentsFrom]
    · simp [Strings.TrimPrefix, Strings.HasPrefix, hc]

theorem joinSlash_segmentsFrom (s cur : GoString)
    (hd : hasDoubleSlash s = false)
    (hl : s.getLast? ≠ some slash)
    (hh : cur ≠ [] ∨ (s ≠ [] ∧ s.head? ≠ some slash)) :
    joinSlash (segmentsFrom s cur) = cur.reverse ++ s := by
  induction s generalizing cur with
  | nil =>
    cases hh with
    | inl h => simp [segmentsFrom, h, joinSlash]
    | inr h => exact absurd rfl h.1
  | cons c t ih =>
    have hdt : hasDoubleSlash t = false := by
      cases t with
      | nil => rfl
      | cons d u =>
        simp only [hasDoubleSlash, Bool.or_eq_false_iff] at hd
        exact hd.2
    have hlt : t ≠ [] → t.getLast? ≠ some slash := by
      intro hne
      cases t with
      | nil => exact absurd rfl hne
      | cons d u => simpa [List.getLast?_cons_cons] using hl
    by_cases hc : c = slash
    · subst hc
      have hcur : cur ≠ [] := by
        cases hh with
        | inl h => exact h
        | inr h => simp at h
      have htne : t ≠ [] := by
        intro h
        subst h
        simp at hl
      have hth : t.head? ≠ some slash := by
        cases t with
        | nil => simp
        | cons d u =>
          intro h
          simp only [List.head?_cons, Option.some.injEq] at h
          subst h
          simp [hasDoubleSlash] at hd
      have ih' := ih [] hdt (hlt htne) (Or.inr ⟨htne, hth⟩)
      simp only [List.reverse_nil, List.nil_append] at ih'
      have hne : segmentsFrom t [] ≠ [] := by
        intro h
        rw [h] at ih'
        exact htne ih'.symm
      simp only [segmentsFrom, if_true, List.isEmpty_eq_true, hcur, if_false]
      cases hseg : segmentsFrom t [] with
      | nil => exact absurd hseg hne
      | cons x l =>
        rw [hseg] at ih'
        simp [joinSlash, ih']
    · have hlt' : t.getLast? ≠ some slash := by
        cases t with
        | nil => simp
        | cons d u => exact hlt (by simp)
      have ih' := ih (c :: cur) hdt hlt' (Or.inl (by simp))
      simp [segmentsFrom, hc, ih']

theorem joinSlash_append (x y : List GoString) (hx : x ≠ []) (hy : y ≠ []) :
    joinSlash (x ++ y) = joinSlash x ++ [slash] ++ joinSlash y := by
  induction x with
  | nil => exact absurd rfl hx
  | cons a l ih =>
    cases l with
    | nil =>
      cases y with
      | nil => exact absurd rfl hy
      | cons b m => simp [joinSlash]
    | cons b m =>
      have := ih (by simp)
      simp only [List.cons_append] at this ⊢
      simp [joinSlash, this]

theorem joinSlash_segments (s : GoString) (hs : s ≠ [])
    (hh : s.head? ≠ some slash) (hl : s.getLast? ≠ some slash)
    (hd : hasDoubleSlash s = false) :
    joinSlash (segments s) = s ∧ segments s ≠ [] := by
  have h := joinSlash_segmentsFrom s [] hd hl (Or.inr ⟨hs, hh⟩)
  simp only [List.reverse_nil, List.nil_append] at h
  refine ⟨h, fun h0 => ?_⟩
  unfold segments at h0
  rw [h0] at h
  exact hs h.symm

theorem dropWhile_append_singleton (p : Nat → Bool) (l : GoString) (a : Nat) (ha : p a = true) :
    (l ++ [a]).dropWhile p = if l.dropWhile p = [] then [] else l.dropWhile p ++ [a] := by
  induction l with
  | nil => simp [List.dropWhile_cons, ha]
  | cons x t ih =>
    by_cases hx : p x = true
    · simpa [List.dropWhile_cons, hx] using ih
    · simp [List.dropWhile_cons, hx]

theorem Trim_slash_cons (s : GoString) :
    Strings.Trim (slash :: s) [slash] = Strings.Trim s [slash] := by
  unfold Strings.Trim Strings.TrimRight
  rw [List.reverse_cons, dropWhile_append_singleton _ _ _ (by simp)]
  split
  · rename_i h
    rw [h]
  · simp [Strings.TrimLeft, List.dropWhile_cons]

theorem Trim_slashes_append (s : GoString) (j : Nat) :
    Strings.Trim (List.replicate j slash ++ s) [slash] = Strings.Trim s [slash] := by
  induction j with
  | zero => simp
  | succ n ih => rw [List.replicate_succ, List.cons_append, Trim_slash_cons, ih]

theorem Trim_surrounded (s : GoString) (j k : Nat) :
    Strings.Trim (List.replicate j slash ++ s ++ List.replicate k slash) [slash]
      = Strings.Trim s [slash] := by
  rw [List.append_assoc, Trim_slashes_append]
  simp [Strings.Trim, TrimRight_append_slashes]

theorem doRequest_request {T : Type} [Json.Unmarshal T] (Do : Transport) (c : Client)
    (request : Request) (response : T) :
    (c.doRequest Do request response).request
      = c.addAuthorization { request with URL := { request.URL with
          Scheme := c.endpoint.Scheme
          Host := c.endpoint.Host
          Path := rewritePath c.endpoint.Path request.URL.Path } }
    ∧ (c.doRequest Do request response).sent = [(c.doRequest Do request response).request] := by
  unfold Client.doRequest
  simp only
  split
  · exact ⟨rfl, rfl⟩
  · split
    · exact ⟨rfl, rfl⟩
    · split <;> exact ⟨rfl, rfl⟩

theorem doRequest_path {T : Type} [Json.Unmarshal T] (Do : Transport) (c : Client)
    (request : Request) (response : T) :
    (c.doRequest Do request response).request.URL.Path
      = rewritePath c.endpoint.Path request.URL.Path := by
  rw [(doRequest_request Do c request response).1]
  rfl

/-! ## C1: the path `doRequest` writes -/

/-- C1 (amended): when the endpoint base path has at least one segment and,
trimmed of its slashes, no two adjacent slashes, and the request path without
its one leading slash neither starts with a slash nor contains two adjacent
slashes, the path `doRequest` writes onto the request is `/` + B + `/` + R
(B the base path without leading and trailing slashes, R the request path
without its one leading slash, trailing slash kept); it starts with exactly
one slash and contains no two adjacent slashes; when R is not empty and does
not end in a slash it is the segments of the base path followed by those of
the request path, joined by single slashes; it is the same for any number of
leading and trailing slashes on the base path; and `ListRepositories` for
owner `test-account` sends a request for B + `/gh/test-account` under a
leading slash, for any count of trailing slashes on the base path. -/
theorem doRequest_path_normalised {T : Type} [Json.Unmarshal T] (Do : Transport) (c : Client)
    (request : Request) (response : T)
    (hB : Strings.Trim c.endpoint.Path [slash] ≠ [])
    (hBd : hasDoubleSlash (Strings.Trim c.endpoint.Path [slash]) = false)
    (hR : (Strings.TrimPrefix request.URL.Path [slash]).head? ≠ some slash)
    (hRd : hasDoubleSlash (Strings.TrimPrefix request.URL.Path [slash]) = false) :
    (c.doRequest Do request response).request.URL.Path
        = [slash] ++ Strings.Trim c.endpoint.Path [slash] ++ [slash]
          ++ Strings.TrimPrefix request.URL.Path [slash]
    ∧ (c.doRequest Do request response).request.URL.Path.head? = some slash
    ∧ (c.doRequest Do request response).request.URL.Path.tail.head? ≠ some slash
    ∧ hasDoubleSlash (c.doRequest Do request response).request.URL.Path = false
    ∧ (Strings.TrimPrefix request.URL.Path [slash] ≠ [] →
        (Strings.TrimPrefix request.URL.Path [slash]).getLast? ≠ some slash →
        (c.doRequest Do request response).request.URL.Path
          = slash :: joinSlash (segments c.endpoint.Path ++ segments request.URL.Path))
    ∧ (∀ j k : Nat,
        (Client.doRequest Do
          { c with endpoint := { c.endpoint with
              Path := List.replicate j slash ++ c.endpoint.Path ++ List.replicate k slash } }
          request response).request.URL.Path
        = (c.doRequest Do request response).request.URL.Path)
    ∧ (∀ (ctx : Context) (k : Nat),
        (Client.ListRepositories Do
          { c with endpoint := { c.endpoint with
              Path := c.endpoint.Path ++ List.replicate k slash } }
          (some ctx) (bytes "test-account")).sent.map (fun q => q.URL.Path)
        = [[slash] ++ Strings.Trim c.endpoint.Path [slash] ++ bytes "/gh/test-account"]) := by
  have hclean := rewritePath_clean _ _ hB (head_Trim _) (getLast_Trim _) hBd hR hRd
  refine ⟨doRequest_path Do c request response, ?_, ?_, ?_, ?_, ?_, ?_⟩
  · rw [doRequest_path]; rfl
  · rw [doRequest_path]; exact hclean.1
  · rw [doRequest_path]; exact hclean.2
  · intro hne hl
    rw [doRequest_path]
    have h1 := joinSlash_segments _ hB (head_Trim _) (getLast_Trim _) hBd
    have h2 := joinSlash_segments _ hne hR hl hRd
    rw [segments_Trim] at h1
    rw [segments_TrimPrefix] at h2
    rw [joinSlash_append _ _ h1.2 h2.2, h1.1, h2.1]
    simp [rewritePath]
  · intro j k
    rw [doRequest_path, doRequest_path]
    simp only [rewritePath, Trim_surrounded]
  · intro ctx k
    have hreq : NewRequestWithContext (some ctx) (bytes "GET") (bytes "/gh/" ++ bytes "test-account")
        = Except.ok ⟨ctx, bytes "GET", { Path := bytes "/gh/test-account" }, fun _ => [], []⟩ := by
      rfl
    unfold Client.ListRepositories
    rw [hreq]
    simp only
    rw [(doRequest_request Do _ _ _).2]
    simp only [List.map_cons, List.map_nil, doRequest_path]
    have := Trim_surrounded c.endpoint.Path 0 k
    simp only [List.replicate_zero, List.nil_append] at this
    simp only [rewritePath, this]
    have h2 : [slash] ++ Strings.TrimPrefix (bytes "/gh/test-account") [slash]
        = bytes "/gh/test-account" := by decide
    rw [List.append_assoc, h2]

/-- C1 witness: the default client (base path `/api/`) and the request path
`/gh/` of the tests. -/
theorem doRequest_path_normalised_witness :
    (Client.doRequest (fun _ => Except.error (GoError.transport [])) (NewClient (bytes "testing"))
        ⟨{}, bytes "GET", { Path := bytes "/gh/" }, fun _ => [], []⟩ ({} : Response)).request.URL.Path
      = bytes "/api/gh/" :=
  (doRequest_path_normalised (fun _ => Except.error (GoError.transport []))
    (NewClient (bytes "testing")) ⟨{}, bytes "GET", { Path := bytes "/gh/" }, fun _ => [], []⟩
    ({} : Response) (by decide) (by decide) (by decide) (by decide)).1

/-- C1 counterexample: with the empty base path the tests configure,
`ListRepositories` for owner `test-account` sends a request for
`//gh/test-account`, which has two adjacent slashes; a request path with two
leading slashes keeps one of them (`/api//gh`); and a trailing slash of the
request path is kept (`/api/gh/`), which is not the segments joined by single
slashes (`/api/gh`). -/
theorem doRequest_path_counterexample :
    hasDoubleSlash (bytes "") = false ∧ hasDoubleSlash (bytes "/gh/test-account") = false
    ∧ (Client.ListRepositories (fun _ => Except.error (GoError.transport []))
        (Client.SetEndpoint (NewClient (bytes "testing"))
          { Scheme := bytes "http", Host := bytes "127.0.0.1:8080" })
        (some Context.Background) (bytes "test-account")).sent.map (fun q => q.URL.Path)
      = [bytes "//gh/test-account"]
    ∧ hasDoubleSlash (bytes "//gh/test-account") = true
    ∧ (Client.doRequest (fun _ => Except.error (GoError.transport [])) (NewClient (bytes "testing"))
        ⟨{}, bytes "GET", { Path := bytes "//gh" }, fun _ => [], []⟩ ({} : Response)).request.URL.Path
      = bytes "/api//gh"
    ∧ (Client.doRequest (fun _ => Except.error (GoError.transport [])) (NewClient (bytes "testing"))
        ⟨{}, bytes "GET", { Path := bytes "/gh/" }, fun _ => [], []⟩ ({} : Response)).request.URL.Path
      = bytes "/api/gh/"
    ∧ slash :: joinSlash (segments (bytes "/api/") ++ segments (bytes "/gh/")) = bytes "/api/gh" := by
  decide

/-! ## C10: dispatching a request object twice -/

/-- C10: for every base path and request path, a request that `doRequest`
has already rewritten is rewritten on a second dispatch to
`/` + B + `/` + B + `/` + R, while the first dispatch gave `/` + B + `/` + R;
the second path is strictly longer, hence different, and so is the path of
the request that is sent. -/
theorem doRequest_twice_path {T : Type} [Json.Unmarshal T] (Do : Transport) (c : Client)
    (request : Request) (first second : T) :
    (c.doRequest Do (c.doRequest Do request first).request second).request.URL.Path
      = [slash] ++ Strings.Trim c.endpoint.Path [slash] ++ [slash]
        ++ Strings.Trim c.endpoint.Path [slash] ++ [slash]
        ++ Strings.TrimPrefix request.URL.Path [slash]
    ∧ (c.doRequest Do request first).request.URL.Path
      = [slash] ++ Strings.Trim c.endpoint.Path [slash] ++ [slash]
        ++ Strings.TrimPrefix request.URL.Path [slash]
    ∧ (c.doRequest Do request first).request.URL.Path.length
      < (c.doRequest Do (c.doRequest Do request first).request second).request.URL.Path.length
    ∧ (c.doRequest Do (c.doRequest Do request first).request second).request.URL.Path
      ≠ (c.doRequest Do request first).request.URL.Path
    ∧ (c.doRequest Do (c.doRequest Do request first).request second).sent.map (fun q => q.URL.Path)
      ≠ (c.doRequest Do request first).sent.map (fun q => q.URL.Path) := by
  have h1 := doRequest_path Do c request first
  have h2 := doRequest_path Do c (c.doRequest Do request first).request second
  have e2 : (c.doRequest Do (c.doRequest Do request first).request second).request.URL.Path
      = [slash] ++ Strings.Trim c.endpoint.Path [slash] ++ [slash]
        ++ Strings.Trim c.endpoint.Path [slash] ++ [slash]
        ++ Strings.TrimPrefix request.URL.Path [slash] := by
    rw [h2, h1]
    simp [rewritePath, TrimPrefix_slash_cons]
  have hlen : (c.doRequest Do request first).request.URL.Path.length
      < (c.doRequest Do (c.doRequest Do request first).request second).request.URL.Path.length := by
    rw [e2, h1]
    simp only [rewritePath, List.length_append, List.length_singleton]
    omega
  have hne : (c.doRequest Do (c.doRequest Do request first).request second).request.URL.Path
      ≠ (c.doRequest Do request first).request.URL.Path := by
    intro h
    rw [h] at hlen
    exact Nat.lt_irrefl _ hlen
  refine ⟨e2, h1, hlen, hne, ?_⟩
  rw [(doRequest_request Do c _ second).2, (doRequest_request Do c request first).2]
  simpa using hne

/-! ## Lemmas on `doRequest` -/

theorem doRequest_outgoing {T : Type} [Json.Unmarshal T] (Do : Transport) (c : Client)
    (request : Request) (response : T) :
    (c.doRequest Do request response).request = c.outgoing request
    ∧ (c.doRequest Do request response).sent = [c.outgoing request] := by
  have h := doRequest_request Do c request response
  exact ⟨h.1, by rw [h.2, h.1]; rfl⟩

theorem doRequest_transport_error {T : Type} [Json.Unmarshal T] (Do : Transport) (c : Client)
    (request : Request) (response : T) (e : GoError)
    (hDo : Do (c.outgoing request) = Except.error e) :
    (c.doRequest Do request response).err = some e
    ∧ (c.doRequest Do request response).response = response := by
  unfold Client.outgoing at hDo
  unfold Client.doRequest
  simp [hDo]

theorem doRequest_ok {T : Type} [Json.Unmarshal T] (Do : Transport) (c : Client)
    (request : Request) (response : T) (resp : HTTPResponse)
    (hDo : Do (c.outgoing request) = Except.ok resp) (hs : resp.StatusCode = 200) :
    (c.doRequest Do request response).err = (Json.Decode resp.Body response).2
    ∧ (c.doRequest Do request response).response = (Json.Decode resp.Body response).1 := by
  unfold Client.outgoing at hDo
  unfold Client.doRequest
  simp [hDo, hs]

theorem doRequest_not_ok {T : Type} [Json.Unmarshal T] (Do : Transport) (c : Client)
    (request : Request) (response : T) (resp : HTTPResponse)
    (hDo : Do (c.outgoing request) = Except.ok resp) (hs : resp.StatusCode ≠ 200) :
    (c.doRequest Do request response).err
      = (match (Json.Decode resp.Body ({} : ResponseError)).2 with
        | none => some (GoError.errorf (formatInt resp.StatusCode ++ bytes ": "
            ++ (Json.Decode resp.Body ({} : ResponseError)).1.Error.Reason))
        | some e => some e)
    ∧ (c.doRequest Do request response).response = response := by
  unfold Client.outgoing at hDo
  unfold Client.doRequest
  simp only [hDo, hs, if_false]
  split <;> rename_i h <;> simp [h]

/-! ## C8: the credential header -/

/-- C8: for every client with credential `c` and every request without an
`Authorization` header, after `addAuthorization` the `Authorization` header
has exactly one value, `token ` followed by `c` (so `token ` alone when `c`
is empty); every other header and the context, method, URL and host of the
request are unchanged. The operation is total: it returns the request and
has no error result. -/
theorem addAuthorization_header (c : Client) (request : Request)
    (h : request.Header (bytes "Authorization") = []) :
    (c.addAuthorization request).Header (bytes "Authorization") = [bytes "token " ++ c.token]
    ∧ (c.token = [] →
        (c.addAuthorization request).Header (bytes "Authorization") = [bytes "token "])
    ∧ (∀ k, k ≠ bytes "Authorization" → (c.addAuthorization request).Header k = request.Header k)
    ∧ (c.addAuthorization request).ctx = request.ctx
    ∧ (c.addAuthorization request).Method = request.Method
    ∧ (c.addAuthorization request).URL = request.URL
    ∧ (c.addAuthorization request).Host = request.Host := by
  have hk : Textproto.CanonicalMIMEHeaderKey (bytes "Authorization") = bytes "Authorization" := by
    decide
  have h1 : (c.addAuthorization request).Header (bytes "Authorization")
      = [bytes "token " ++ c.token] := by
    simp only [Client.addAuthorization, Header.Add, hk, if_true, h, List.nil_append]
  refine ⟨h1, ?_, ?_, rfl, rfl, rfl, rfl⟩
  · intro ht
    rw [h1, ht, List.append_nil]
  · intro k hne
    simp only [Client.addAuthorization, Header.Add, hk, hne, if_false]

/-- C8 witness: the client of the tests and a fresh request. -/
theorem addAuthorization_header_witness :
    (Client.addAuthorization (NewClient (bytes "testing"))
        ⟨{}, bytes "GET", { Path := bytes "/gh/" }, fun _ => [], []⟩).Header (bytes "Authorization")
      = [bytes "token testing"] :=
  (addAuthorization_header (NewClient (bytes "testing"))
    ⟨{}, bytes "GET", { Path := bytes "/gh/" }, fun _ => [], []⟩ rfl).1

/-! ## C9: a nil context -/

/-- C9: for every client, owner and repository name, `ListRepositories` and
`GetRepository` called with a nil context return the error of
`http.NewRequestWithContext` together with the zero-valued envelope, and no
request reaches `doRequest`: nothing is sent. -/
theorem nil_context_fails_without_dispatch (Do : Transport) (c : Client)
    (owner repo : GoString) :
    (c.ListRepositories Do none owner).err = some GoError.nilContext
    ∧ (c.ListRepositories Do none owner).response = {}
    ∧ (c.ListRepositories Do none owner).sent = []
    ∧ (c.GetRepository Do none owner repo).err = some GoError.nilContext
    ∧ (c.GetRepository Do none owner repo).response = {}
    ∧ (c.GetRepository Do none owner repo).sent = [] :=
  ⟨rfl, rfl, rfl, rfl, rfl, rfl⟩

/-! ## C2: the API error -/

/-- C2: for every response whose HTTP status `s` is not 200 and whose body
decodes without error as an error envelope, `doRequest` fails with the error
whose message is the decimal rendering of `s`, then `: `, then the reason of
the envelope; `s` is the status of the response, not `meta.status`. -/
theorem doRequest_api_error {T : Type} [Json.Unmarshal T] (Do : Transport) (c : Client)
    (request : Request) (response : T) (resp : HTTPResponse) (envelope : ResponseError)
    (hDo : Do (c.outgoing request) = Except.ok resp)
    (hs : resp.StatusCode ≠ 200)
    (hdec : Json.Decode resp.Body ({} : ResponseError) = (envelope, none)) :
    (c.doRequest Do request response).err
      = some (GoError.errorf
          (formatInt resp.StatusCode ++ bytes ": " ++ envelope.Error.Reason)) := by
  rw [(doRequest_not_ok Do c request response resp hDo hs).1, hdec]

/-- C2 witness: status 404 and the reason `Item not found.` give the message
`404: Item not found.`. -/
theorem doRequest_api_error_witness :
    Json.Decode
        (bytes "\x7b\"meta\":\x7b\"status\":404\x7d,\"error\":\x7b\"reason\":\"Item not found.\"\x7d\x7d")
        ({} : ResponseError)
      = (⟨⟨404⟩, ⟨bytes "Item not found."⟩⟩, none)
    ∧ (Client.doRequest
        (fun _ => Except.ok ⟨404,
          bytes "\x7b\"meta\":\x7b\"status\":404\x7d,\"error\":\x7b\"reason\":\"Item not found.\"\x7d\x7d"⟩)
        (NewClient (bytes "testing"))
        ⟨{}, bytes "GET", { Path := bytes "/gh/" }, fun _ => [], []⟩ ({} : Response)).err
      = some (GoError.errorf (bytes "404: Item not found.")) :=
  ⟨by decide,
   doRequest_api_error
    (fun _ => Except.ok ⟨404,
      bytes "\x7b\"meta\":\x7b\"status\":404\x7d,\"error\":\x7b\"reason\":\"Item not found.\"\x7d\x7d"⟩)
    (NewClient (bytes "testing"))
    ⟨{}, bytes "GET", { Path := bytes "/gh/" }, fun _ => [], []⟩ ({} : Response)
    ⟨404, bytes "\x7b\"meta\":\x7b\"status\":404\x7d,\"error\":\x7b\"reason\":\"Item not found.\"\x7d\x7d"⟩
    ⟨⟨404⟩, ⟨bytes "Item not found."⟩⟩ rfl (by decide) (by decide)⟩

/-! ## Which errors decoding an error envelope can give -/

namespace Json

theorem DecodeState.Clean.saveError {T : Type} (st : DecodeState T) (h : st.Clean)
    (e : GoError) (he : e.isDecodeError = true) : (st.saveError e).Clean := by
  unfold DecodeState.saveError
  split
  · refine ⟨h.1, ?_⟩
    intro e' h'
    simp only [Option.some.injEq] at h'
    exact h' ▸ he
  · exact h

theorem DecodeState.Clean.scalar {T α : Type} (st : DecodeState T) (h : st.Clean)
    (get : T → α) (set : T → α → T) (store : Value → α → α × Option GoError)
    (hstore : ∀ v a e, (store v a).2 = some e → e.isDecodeError = true) (v : Value) :
    (st.scalar get set store v).Clean := by
  unfold DecodeState.scalar
  simp only
  cases hs : (store v (get st.val)).2 with
  | none => exact ⟨h.1, h.2⟩
  | some e =>
    exact DecodeState.Clean.saveError
      { st with val := set st.val (store v (get st.val)).1 } ⟨h.1, h.2⟩ e (hstore _ _ _ hs)

theorem DecodeState.Clean.nested {T S : Type} (st : DecodeState T) (h : st.Clean)
    (get : T → S) (set : T → S → T) (dec : Value → DecodeState S → DecodeState S)
    (hdec : ∀ v (s : DecodeState S), s.Clean → (dec v s).Clean) (v : Value) :
    (st.nested get set dec v).Clean := by
  unfold DecodeState.nested
  have := hdec v { val := get st.val, savedError := st.savedError, err := st.err } ⟨h.1, h.2⟩
  exact ⟨this.1, this.2⟩

theorem objectInto_clean {T : Type} (names : List GoString)
    (field : Nat → Value → DecodeState T → DecodeState T)
    (hfield : ∀ i v (s : DecodeState T), s.Clean → (field i v s).Clean)
    (ms : List (GoString × Value)) (st : DecodeState T) (h : st.Clean) :
    (objectInto names field ms st).Clean := by
  induction ms generalizing st with
  | nil => exact h
  | cons m rest ih =>
    obtain ⟨k, v⟩ := m
    unfold objectInto
    simp only
    have h1 : (match fieldIndex names k with
        | some i => field i v st
        | none => st).Clean := by
      split
      · exact hfield _ _ _ h
      · exact h
    split
    · exact h1
    · exact ih _ h1

theorem structValue_clean {T : Type} (names : List GoString)
    (field : Nat → Value → DecodeState T → DecodeState T)
    (hfield : ∀ i v (s : DecodeState T), s.Clean → (field i v s).Clean)
    (v : Value) (st : DecodeState T) (h : st.Clean) :
    (structValue names field v st).Clean := by
  unfold structValue
  split
  · exact objectInto_clean names field hfield _ st h
  · exact h
  · rename_i other _ _
    exact DecodeState.Clean.saveError st h _ rfl

theorem storeInt_error (v : Value) (a : Int) (e : GoError) (h : (storeInt v a).2 = some e) :
    e.isDecodeError = true := by
  unfold storeInt at h
  split at h
  · simp at h
  · split at h
    · simp at h
    · simp only [Option.some.injEq] at h
      exact h ▸ rfl
  · simp only [Option.some.injEq] at h
    exact h ▸ rfl

theorem storeString_error (v : Value) (a : GoString) (e : GoError)
    (h : (storeString v a).2 = some e) : e.isDecodeError = true := by
  unfold storeString at h
  split at h
  · simp at h
  · simp at h
  · simp only [Option.some.injEq] at h
    exact h ▸ rfl

end Json

theorem Meta_value_clean (v : Json.Value) (s : Json.DecodeState Meta) (h : s.Clean) :
    (Meta.value v s).Clean := by
  unfold Meta.value
  apply Json.structValue_clean _ _ _ v s h
  intro i v s hs
  split
  · exact Json.DecodeState.Clean.scalar s hs _ _ _ Json.storeInt_error v
  · exact hs

theorem Error_value_clean (v : Json.Value) (s : Json.DecodeState Error) (h : s.Clean) :
    (Error.value v s).Clean := by
  unfold Error.value
  apply Json.structValue_clean _ _ _ v s h
  intro i v s hs
  split
  · exact Json.DecodeState.Clean.scalar s hs _ _ _ Json.storeString_error v
  · exact hs

theorem ResponseError_value_clean (v : Json.Value) (s : Json.DecodeState ResponseError)
    (h : s.Clean) : (ResponseError.value v s).Clean := by
  unfold ResponseError.value
  apply Json.structValue_clean _ _ _ v s h
  intro i v s hs
  split
  · exact Json.DecodeState.Clean.nested s hs _ _ _ Meta_value_clean v
  · exact Json.DecodeState.Clean.nested s hs _ _ _ Error_value_clean v
  · exact hs

theorem Decode_ResponseError_error (body : GoString) (envelope : ResponseError) (e : GoError)
    (h : Json.Decode body ({} : ResponseError) = (envelope, some e)) :
    e.isDecodeError = true := by
  unfold Json.Decode at h
  split at h
  · rename_i v rest _
    have hc := ResponseError_value_clean v { val := {} } ⟨rfl, by simp⟩
    simp only [Json.Unmarshal.value, Prod.mk.injEq] at h
    rw [hc.1] at h
    exact hc.2 e h.2
  all_goals
    simp only [Prod.mk.injEq, Option.some.injEq] at h
    rw [← h.2]
    try rfl
  split <;> rfl

/-! ## C3: a non-200 response whose envelope does not decode -/

/-- C3 (amended): for every response whose HTTP status is not 200 and for
which decoding the first JSON value of the body into the error envelope
fails, `doRequest` fails with that decode error, which is an error of the
JSON decoder and not a `<status>: <reason>` API error, and leaves the
response target as it was. Bytes after the first JSON value are not read: the
error fixture of the tests, which carries a surplus closing brace after the
envelope object, decodes without error to the envelope before the brace. -/
theorem doRequest_envelope_decode_error {T : Type} [Json.Unmarshal T] (Do : Transport)
    (c : Client) (request : Request) (response : T) (resp : HTTPResponse)
    (envelope : ResponseError) (e : GoError)
    (hDo : Do (c.outgoing request) = Except.ok resp)
    (hs : resp.StatusCode ≠ 200)
    (hdec : Json.Decode resp.Body ({} : ResponseError) = (envelope, some e)) :
    (c.doRequest Do request response).err = some e
    ∧ e.isDecodeError = true
    ∧ (∀ msg, e ≠ GoError.errorf msg)
    ∧ (c.doRequest Do request response).response = response
    ∧ Json.Decode errorFixture ({} : ResponseError)
      = (⟨⟨404⟩, ⟨bytes "Item not found."⟩⟩, none) := by
  have h := doRequest_not_ok Do c request response resp hDo hs
  have hd := Decode_ResponseError_error _ _ _ hdec
  refine ⟨?_, hd, ?_, h.2, by decide⟩
  · rw [h.1, hdec]
  · intro msg hmsg
    rw [hmsg] at hd
    simp [GoError.isDecodeError] at hd

/-- C3 witness: status 404 with the body `uhhh`. -/
theorem doRequest_envelope_decode_error_witness :
    (Client.doRequest (fun _ => Except.ok ⟨404, bytes "uhhh"⟩) (NewClient (bytes "testing"))
        ⟨{}, bytes "GET", { Path := bytes "/gh/" }, fun _ => [], []⟩ ({} : Response)).err
      = some GoError.malformedJSON :=
  (doRequest_envelope_decode_error (fun _ => Except.ok ⟨404, bytes "uhhh"⟩)
    (NewClient (bytes "testing")) ⟨{}, bytes "GET", { Path := bytes "/gh/" }, fun _ => [], []⟩
    ({} : Response) ⟨404, bytes "uhhh"⟩ {} GoError.malformedJSON rfl (by decide) (by decide)).1

/-- C3 counterexample: for status 404 and the error fixture of the tests,
whose body carries a surplus closing brace after the envelope object,
`doRequest` fails with the API error `404: Item not found.`, not with a
decode error. -/
theorem doRequest_surplus_brace_counterexample :
    (Client.doRequest (fun _ => Except.ok ⟨404, errorFixture⟩) (NewClient (bytes "testing"))
        ⟨{}, bytes "GET", { Path := bytes "/gh/" }, fun _ => [], []⟩ ({} : Response)).err
      = some (GoError.errorf (bytes "404: Item not found."))
    ∧ (GoError.errorf (bytes "404: Item not found.")).isDecodeError = false := by
  decide

/-! ## C4: when the envelope is left at its zero value -/

theorem Decode_readValue {T : Type} [Json.Unmarshal T] (body : GoString) (target : T) :
    (∀ v rest, Json.readValue body = Json.Scan.ok v rest →
      Json.Decode body target
        = ((Json.Unmarshal.value v { val := target }).val,
           (Json.Unmarshal.value v { val := target }).result))
    ∧ ((∀ v rest, Json.readValue body ≠ Json.Scan.ok v rest) →
      (Json.Decode body target).1 = target ∧ (Json.Decode body target).2 ≠ none) := by
  constructor
  · intro v rest h
    unfold Json.Decode Json.DecodeState.result
    rw [h]
  · intro h
    unfold Json.Decode
    split
    · rename_i v rest hv
      exact absurd hv (h v rest)
    all_goals simp

theorem doRequest_accounted {T : Type} [Json.Unmarshal T] (Do : Transport) (c : Client)
    (request : Request) (zero : T)
    (h : (c.doRequest Do request zero).err = none
      ∨ (c.doRequest Do request zero).response ≠ zero) :
    ∃ resp v rest,
      Do (c.outgoing request) = Except.ok resp ∧ resp.StatusCode = 200
      ∧ Json.readValue resp.Body = Json.Scan.ok v rest
      ∧ (c.doRequest Do request zero).response = (Json.Unmarshal.value v { val := zero }).val
      ∧ (c.doRequest Do request zero).err
        = (Json.Unmarshal.value v { val := zero }).result := by
  cases hDo : Do (c.outgoing request) with
  | error e =>
    have := doRequest_transport_error Do c request zero e hDo
    rw [this.1, this.2] at h
    simp at h
  | ok resp =>
    by_cases hs : resp.StatusCode = 200
    · have h1 := doRequest_ok Do c request zero resp hDo hs
      have h2 := Decode_readValue resp.Body zero
      by_cases hv : ∃ v rest, Json.readValue resp.Body = Json.Scan.ok v rest
      · obtain ⟨v, rest, hv⟩ := hv
        refine ⟨resp, v, rest, rfl, hs, hv, ?_, ?_⟩
        · rw [h1.2, h2.1 v rest hv]
        · rw [h1.1, h2.1 v rest hv]
      · have h3 := h2.2 (fun v rest hv' => hv ⟨v, rest, hv'⟩)
        rw [h1.1, h1.2] at h
        cases h with
        | inl h => exact absurd h h3.2
        | inr h => exact absurd h3.1 h
    · have h1 := doRequest_not_ok Do c request zero resp hDo hs
      rw [h1.1, h1.2] at h
      cases h with
      | inl h => split at h <;> simp at h
      | inr h => exact absurd rfl h

/-- C4 (amended): for every call of `ListRepositories` or `GetRepository` and
every server response, the call returns no error, or an envelope other than
its zero value, only if the request was built and sent, the status was 200
and the body began with a well-formed JSON value; the envelope is then what
storing that value into the zero envelope gives, and the error is the error
of that storing. So a nil context, an unparsable URL, a transport failure, a
status other than 200 and a 200 body whose first JSON value is malformed or
cut short all give an error with the envelope at its zero value; a 200 body
whose first value is well formed but fails while it is stored (an unparsable
`updatestamp`, a field of the wrong type) gives the error together with the
fields stored before the failure, since nothing resets the target. -/
theorem envelope_zero_unless_stored (Do : Transport) (c : Client) (ctx : Option Context)
    (owner repo : GoString) :
    (((c.ListRepositories Do ctx owner).err = none
        ∨ (c.ListRepositories Do ctx owner).response ≠ {}) →
      ∃ request resp v rest,
        NewRequestWithContext ctx (bytes "GET") (bytes "/gh/" ++ owner) = Except.ok request
        ∧ Do (c.outgoing request) = Except.ok resp ∧ resp.StatusCode = 200
        ∧ Json.readValue resp.Body = Json.Scan.ok v rest
        ∧ (c.ListRepositories Do ctx owner).response
          = (ListRepositoriesResponse.value v { val := {} }).val
        ∧ (c.ListRepositories Do ctx owner).err
          = (ListRepositoriesResponse.value v { val := {} }).result)
    ∧ (((c.GetRepository Do ctx owner repo).err = none
        ∨ (c.GetRepository Do ctx owner repo).response ≠ {}) →
      ∃ request resp v rest,
        NewRequestWithContext ctx (bytes "GET") (bytes "/gh/" ++ owner ++ bytes "/" ++ repo)
          = Except.ok request
        ∧ Do (c.outgoing request) = Except.ok resp ∧ resp.StatusCode = 200
        ∧ Json.readValue resp.Body = Json.Scan.ok v rest
        ∧ (c.GetRepository Do ctx owner repo).response
          = (GetRepositoryResponse.value v { val := {} }).val
        ∧ (c.GetRepository Do ctx owner repo).err
          = (GetRepositoryResponse.value v { val := {} }).result) := by
  constructor
  · intro h
    unfold Client.ListRepositories at h ⊢
    cases hreq : NewRequestWithContext ctx (bytes "GET") (bytes "/gh/" ++ owner) with
    | error e =>
      rw [hreq] at h
      simp at h
    | ok request =>
      rw [hreq] at h
      simp only at h ⊢
      obtain ⟨resp, v, rest, h1, h2, h3, h4, h5⟩ :=
        doRequest_accounted Do c request ({} : ListRepositoriesResponse) h
      exact ⟨request, resp, v, rest, rfl, h1, h2, h3, h4, h5⟩
  · intro h
    unfold Client.GetRepository at h ⊢
    cases hreq : NewRequestWithContext ctx (bytes "GET")
        (bytes "/gh/" ++ owner ++ bytes "/" ++ repo) with
    | error e =>
      rw [hreq] at h
      simp at h
    | ok request =>
      rw [hreq] at h
      simp only at h ⊢
      obtain ⟨resp, v, rest, h1, h2, h3, h4, h5⟩ :=
        doRequest_accounted Do c request ({} : GetRepositoryResponse) h
      exact ⟨request, resp, v, rest, rfl, h1, h2, h3, h4, h5⟩

set_option maxRecDepth 100000 in
set_option exponentiation.threshold 2000 in
/-- C4 witness: `ListRepositories` against the success fixture of the tests
returns no error, and its envelope is the stored first JSON value. -/
theorem envelope_zero_unless_stored_witness :
    (Client.ListRepositories (fun _ => Except.ok ⟨200, listFixture⟩)
        (NewClient (bytes "testing")) (some Context.Background) (bytes "test-account")).err = none
    ∧ ∃ request resp v rest,
        NewRequestWithContext (some Context.Background) (bytes "GET")
          (bytes "/gh/" ++ bytes "test-account") = Except.ok request
        ∧ (fun _ => Except.ok ⟨200, listFixture⟩ : Transport)
            (Client.outgoing (NewClient (bytes "testing")) request) = Except.ok resp
        ∧ resp.StatusCode = 200
        ∧ Json.readValue resp.Body = Json.Scan.ok v rest
        ∧ (Client.ListRepositories (fun _ => Except.ok ⟨200, listFixture⟩)
            (NewClient (bytes "testing")) (some Context.Background) (bytes "test-account")).response
          = (ListRepositoriesResponse.value v { val := {} }).val
        ∧ (Client.ListRepositories (fun _ => Except.ok ⟨200, listFixture⟩)
            (NewClient (bytes "testing")) (some Context.Background) (bytes "test-account")).err
          = (ListRepositoriesResponse.value v { val := {} }).result :=
  ⟨by decide,
   (envelope_zero_unless_stored (fun _ => Except.ok ⟨200, listFixture⟩)
      (NewClient (bytes "testing")) (some Context.Background) (bytes "test-account") []).1
      (Or.inl (by decide))⟩

set_option maxRecDepth 100000 in
set_option exponentiation.threshold 2000 in
/-- C4 counterexample: a 200 body whose `updatestamp` is `"not-a-date"`
makes `GetRepository` and `ListRepositories` return an error together with
an envelope that is not zero: `Meta.Status` is 200, the repository name is
`x` and `Updatestamp` points to a zero timestamp. -/
theorem envelope_partly_populated_counterexample :
    (Client.GetRepository (fun _ => Except.ok ⟨200, badStampRepo⟩)
        (NewClient (bytes "testing")) (some Context.Background)
        (bytes "test-account") (bytes "test-repo")).err.isSome = true
    ∧ (Client.GetRepository (fun _ => Except.ok ⟨200, badStampRepo⟩)
        (NewClient (bytes "testing")) (some Context.Background)
        (bytes "test-account") (bytes "test-repo")).response
      = { Repo := { Name := bytes "x", Updatestamp := some {} }, Meta := { Status := 200 } }
    ∧ (Client.GetRepository (fun _ => Except.ok ⟨200, badStampRepo⟩)
        (NewClient (bytes "testing")) (some Context.Background)
        (bytes "test-account") (bytes "test-repo")).response ≠ {}
    ∧ (Client.ListRepositories (fun _ => Except.ok ⟨200, badStampRepos⟩)
        (NewClient (bytes "testing")) (some Context.Background)
        (bytes "test-account")).err.isSome = true
    ∧ (Client.ListRepositories (fun _ => Except.ok ⟨200, badStampRepos⟩)
        (NewClient (bytes "testing")) (some Context.Background)
        (bytes "test-account")).response
      = { Repos := { isNil := false, elems := [{ Name := bytes "x", Updatestamp := some {} }] },
          Meta := { Status := 200 } } := by
  decide

/-! ## C7: the literal `null` -/

set_option maxRecDepth 100000 in
set_option exponentiation.threshold 2000 in
/-- C7: for every `Time` receiver, `UnmarshalJSON` on the input `null`
returns no error and leaves the receiver unchanged, so a freshly created
timestamp stays the zero instant; decoding `null` into the `updatestamp` of
any `Repository` sets `Updatestamp` to nil without error, and in the success
fixture of the tests the repository with `"updatestamp": null` has a nil
`Updatestamp` while the other one has its timestamp. -/
theorem UnmarshalJSON_null (t : Time) :
    Time.UnmarshalJSON t (bytes "null") = (t, none)
    ∧ (Time.UnmarshalJSON {} (bytes "null")).1.Time.IsZero = true
    ∧ (∀ (r : Repository) (raw : GoString),
        Repository.value (Json.Value.object raw [(bytes "updatestamp", Json.Value.null)])
            { val := r }
          = { val := { r with Updatestamp := none } })
    ∧ (Json.Decode listFixture ({} : ListRepositoriesResponse)).2 = none
    ∧ (Json.Decode listFixture ({} : ListRepositoriesResponse)).1.Repos.elems.map
          (fun r => (r.Name, r.Updatestamp))
        = [(bytes "guess-my-word", some ⟨GoTime.Date 2020 5 10 17 55 29 623184000⟩),
           (bytes "terraform-provider-jenkins", none)] := by
  refine ⟨?_, ?_, ?_, by decide, by decide⟩
  · simp [Time.UnmarshalJSON]
  · decide
  · intro r raw
    rfl

/-! ## C6: the ordered fallback -/

/-- C6: for every input other than the literal `null`, `Time.UnmarshalJSON`
equals the ordered fallback over the formats `time.RFC3339`, `RFC3339UTC`,
`RFC3339UTCSansT`, `RFC3339NanoSansT`, each between double quotes: the first
format in that order that accepts the input decides, and the UTC conversion
of its parse is stored without error; when no format accepts the input, the
error returned is the parse error of the last format, `RFC3339NanoSansT`,
and the receiver is unchanged. -/
theorem UnmarshalJSON_ordered_fallback (t : Time) (data : GoString)
    (h : data ≠ bytes "null") :
    Time.UnmarshalJSON t data = orderedFallback t data
    ∧ ((∀ format ∈ [GoTime.RFC3339, RFC3339UTC, RFC3339UTCSansT, RFC3339NanoSansT],
          (GoTime.Parse (quoted format) data).toBool = false) →
        ∃ e, GoTime.Parse (quoted RFC3339NanoSansT) data = Except.error e
          ∧ Time.UnmarshalJSON t data = (t, some (GoError.timeParse e))) := by
  have hmain : Time.UnmarshalJSON t data = orderedFallback t data := by
    unfold Time.UnmarshalJSON orderedFallback
    simp only [h, if_false, timeFormats, UnmarshalJSON.loop, List.find?]
    cases h1 : GoTime.Parse (quoted GoTime.RFC3339) data with
    | ok tm => simp [Except.toBool, h1]
    | error e1 =>
      cases h2 : GoTime.Parse (quoted RFC3339UTC) data with
      | ok tm => simp [Except.toBool, h2]
      | error e2 =>
        cases h3 : GoTime.Parse (quoted RFC3339UTCSansT) data with
        | ok tm => simp [Except.toBool, h3]
        | error e3 =>
          cases h4 : GoTime.Parse (quoted RFC3339NanoSansT) data with
          | ok tm => simp [Except.toBool, h4]
          | error e4 => simp [Except.toBool, h4]
  refine ⟨hmain, ?_⟩
  intro hall
  have h4 := hall RFC3339NanoSansT (by simp)
  cases hp : GoTime.Parse (quoted RFC3339NanoSansT) data with
  | ok tm => rw [hp] at h4; simp [Except.toBool] at h4
  | error e =>
    refine ⟨e, rfl, ?_⟩
    rw [hmain]
    unfold orderedFallback
    have hfind : [GoTime.RFC3339, RFC3339UTC, RFC3339UTCSansT, RFC3339NanoSansT].find?
        (fun format => (GoTime.Parse (quoted format) data).toBool) = none := by
      rw [List.find?_eq_none]
      intro x hx
      simp [hall x hx]
    rw [hfind]
    simp only [hp]

/-- C6 witness: on `"not-a-date"` the receiver is unchanged and the error is
the one `time.Parse` gives for the last format, which fails on the year. -/
theorem UnmarshalJSON_ordered_fallback_witness :
    bytes "\"not-a-date\"" ≠ bytes "null"
    ∧ Time.UnmarshalJSON {} (bytes "\"not-a-date\"")
      = ({}, some (GoError.timeParse
          ⟨quoted RFC3339NanoSansT, bytes "\"not-a-date\"", bytes "2006",
            bytes "not-a-date\"", []⟩))
    ∧ GoTime.Parse (quoted RFC3339NanoSansT) (bytes "\"not-a-date\"")
      = Except.error ⟨quoted RFC3339NanoSansT, bytes "\"not-a-date\"", bytes "2006",
            bytes "not-a-date\"", []⟩ :=
  ⟨by decide,
   ((UnmarshalJSON_ordered_fallback {} (bytes "\"not-a-date\"") (by decide)).1).trans
     (by decide),
   by rfl⟩

namespace GoTime

theorem isDigitByte_digit (d : Nat) (h : d < 10) : isDigitByte (48 + d) = true := by
  simp [isDigitByte]; omega

theorem getnum_two (n : Nat) (rest : GoString) (fixed : Bool) (h : n < 100) :
    getnum (two n ++ rest) fixed = some ((n : Int), rest) := by
  have h1 : n / 10 < 10 := by omega
  have h2 : n % 10 < 10 := by omega
  simp only [two, List.cons_append, List.nil_append, getnum, isDigitByte_digit _ h1,
    isDigitByte_digit _ h2, Bool.not_true, Bool.false_eq_true, if_false, if_true]
  congr 1
  congr 1
  push_cast
  omega

theorem atoi_four (y : Nat) (h : y ≤ 9999) : atoi (four y) = some (y : Int) := by
  have h1 : y / 1000 < 10 := by omega
  have h2 : y / 100 % 10 < 10 := by omega
  have h3 : y / 10 % 10 < 10 := by omega
  have h4 : y % 10 < 10 := by omega
  simp only [atoi, four, List.all_cons, List.all_nil, isDigitByte_digit _ h1,
    isDigitByte_digit _ h2, isDigitByte_digit _ h3, isDigitByte_digit _ h4, Bool.and_self,
    ne_eq, reduceCtorEq, not_false_eq_true, and_self, if_true, digitsValue, List.foldl]
  congr 1
  push_cast
  omega

/-! ### The layout as a list of elements -/

theorem parseLoop_eq_runChunks (alayout avalue : GoString) (fuel : Nat) (layout value : GoString)
    (f : Fields) :
    parseLoop alayout avalue fuel layout value f
      = runChunks alayout avalue (chunkList fuel layout).1 (chunkList fuel layout).2 value f := by
  induction fuel generalizing layout value f with
  | zero => rfl
  | succ n ih =>
    unfold parseLoop chunkList
    rcases hc : nextStdChunk layout with ⟨pre, std, suffix⟩
    cases std with
    | none =>
      simp only [runChunks]
      try (cases skip (pre.length + 1) value pre <;> rfl)
    | some std =>
      simp only [runChunks]
      cases skip (pre.length + 1) value pre with
      | error v => rfl
      | ok value' =>
        simp only
        split
        · rfl
        · split
          · rfl
          · exact ih _ _ _

/-! ### The elements on a rendered literal -/

theorem parseStd_year (suffix rest : GoString) (f : Fields) (y : Nat) (h : y ≤ 9999) :
    parseStd Std.stdLongYear suffix (four y ++ rest) f
      = { fields := { f with year := y }, value := rest } := by
  have h1 : y / 1000 < 10 := by omega
  have ha := atoi_four y h
  have ht : (four y ++ rest).take 4 = four y := by simp [four]
  have hd : (four y ++ rest).drop 4 = rest := by simp [four]
  have hl : ¬ ((four y ++ rest).length < 4) := by simp [four]
  have hdig : isDigit0 (four y ++ rest) = true := by
    simp only [four, List.cons_append, isDigit0]
    simp only [Bool.and_eq_true, decide_eq_true_eq]
    omega
  simp only [parseStd, hl, decide_False, hdig, Bool.not_true, Bool.or_self, Bool.false_eq_true,
    if_false, ht, ha, hd]

theorem parseStd_month (suffix rest : GoString) (f : Fields) (m : Nat) (h1 : 1 ≤ m)
    (h2 : m ≤ 12) :
    parseStd Std.stdZeroMonth suffix (two m ++ rest) f
      = { fields := { f with month := m }, value := rest } := by
  have hr : ¬ ((m : Int) ≤ 0 ∨ (12 : Int) < m) := by omega
  simp only [parseStd, getnum_two m rest true (by omega), hr, if_false]

theorem parseStd_day (suffix rest : GoString) (f : Fields) (d : Nat) (h : d < 100) :
    parseStd Std.stdZeroDay suffix (two d ++ rest) f
      = { fields := { f with day := d }, value := rest } := by
  simp only [parseStd, getnum_two d rest true h]

theorem parseStd_hour (suffix rest : GoString) (f : Fields) (n : Nat) (h : n < 24) :
    parseStd Std.stdHour suffix (two n ++ rest) f
      = { fields := { f with hour := n }, value := rest } := by
  have hr : ¬ ((n : Int) < 0 ∨ (24 : Int) ≤ n) := by omega
  simp only [parseStd, getnum_two n rest false (by omega), hr, if_false]

theorem parseStd_minute (suffix rest : GoString) (f : Fields) (n : Nat) (h : n < 60) :
    parseStd Std.stdZeroMinute suffix (two n ++ rest) f
      = { fields := { f with min := n }, value := rest } := by
  have hr : ¬ ((n : Int) < 0 ∨ (60 : Int) ≤ n) := by omega
  simp only [parseStd, getnum_two n rest true (by omega), hr, if_false]

theorem digitsValue_map (ds : List Nat) :
    digitsValue (ds.map (fun d => 48 + d)) = (decimal ds : Int) := by
  unfold digitsValue decimal
  suffices h : ∀ (a : Nat),
      List.foldl (fun (acc : Int) (c : Nat) => acc * 10 + ((c : Int) - 48)) (a : Int)
        (ds.map (fun d => 48 + d))
      = ((List.foldl (fun a d => 10 * a + d) a ds : Nat) : Int) from
    h 0
  induction ds with
  | nil => intro a; rfl
  | cons d t ih =>
    intro a
    simp only [List.map_cons, List.foldl_cons]
    have : (a : Int) * 10 + (((48 + d : Nat) : Int) - 48) = ((10 * a + d : Nat) : Int) := by
      push_cast; omega
    rw [this]
    exact ih _

theorem all_digits_map (ds : List Nat) (h : ds.all (fun d => decide (d < 10)) = true) :
    (ds.map (fun d => 48 + d)).all isDigitByte = true := by
  simp only [List.all_eq_true, decide_eq_true_eq] at h
  simp only [List.all_eq_true, List.mem_map]
  rintro x ⟨d, hd, rfl⟩
  exact isDigitByte_digit d (h d hd)

theorem takeWhile_digits (ds : List Nat) (tail : GoString)
    (h : ds.all (fun d => decide (d < 10)) = true) (ht : Stops tail) :
    (ds.map (fun d => 48 + d) ++ tail).takeWhile isDigitByte = ds.map (fun d => 48 + d) := by
  obtain ⟨c, t, rfl, hc, _⟩ := ht
  induction ds with
  | nil => simp [List.takeWhile_cons, hc]
  | cons d u ih =>
    simp only [List.all_cons, Bool.and_eq_true, decide_eq_true_eq] at h
    simp only [List.map_cons, List.cons_append, List.takeWhile_cons,
      isDigitByte_digit d h.1, if_true]
    rw [ih h.2]

theorem hasFrac_fracText (ds : List Nat) (tail : GoString)
    (h : ds.all (fun d => decide (d < 10)) = true) (ht : Stops tail) :
    hasFrac (fracText ds ++ tail) = !ds.isEmpty := by
  obtain ⟨c, t, rfl, _, hc⟩ := ht
  cases ds with
  | nil => cases t <;> simp [fracText, hasFrac, hc]
  | cons d u =>
    simp only [List.all_cons, Bool.and_eq_true, decide_eq_true_eq] at h
    simp [fracText, hasFrac, commaOrPeriod, isDigitByte_digit d h.1]

theorem fraction_parsed (d : Nat) (u : List Nat) (tail : GoString)
    (hv : fracValid (d :: u) = true) (ht : Stops tail) :
    fracLen (fracText (d :: u) ++ tail) = 1 + (d :: u).length
    ∧ parseNanoseconds (fracText (d :: u) ++ tail) (1 + (d :: u).length)
      = some (fracNanos (d :: u))
    ∧ (fracText (d :: u) ++ tail).drop (1 + (d :: u).length) = tail := by
  simp only [fracValid, Bool.and_eq_true, decide_eq_true_eq] at hv
  obtain ⟨hlen, hall⟩ := hv
  have htw := takeWhile_digits (d :: u) tail hall ht
  have hft : fracText (d :: u) ++ tail = 46 :: ((d :: u).map (fun d => 48 + d) ++ tail) := by
    simp [fracText]
  refine ⟨?_, ?_, ?_⟩
  · rw [hft]
    simp only [fracLen, List.drop_succ_cons, List.drop_zero, htw, List.length_map]
  · rw [hft]
    have hn : ¬ (1 + (d :: u).length > 10) := by omega
    have htake : ((d :: u).map (fun d => 48 + d) ++ tail).take (1 + (d :: u).length - 1)
        = (d :: u).map (fun d => 48 + d) := by
      rw [Nat.add_sub_cancel_left]
      exact @List.take_left' _ ((d :: u).map (fun d => 48 + d)) tail (d :: u).length
        (by simp)
    have hat : atoi ((d :: u).map (fun d => 48 + d)) = some (decimal (d :: u) : Int) := by
      unfold atoi
      rw [all_digits_map _ hall, digitsValue_map]
      simp
    simp only [parseNanoseconds, commaOrPeriod, beq_self_eq_true, Bool.true_or, Bool.not_true,
      Bool.false_eq_true, if_false, hn, htake, hat, fracNanos]
    have he : 10 - (1 + (d :: u).length) = 9 - (d :: u).length := by omega
    rw [he]
  · rw [hft]
    rw [Nat.add_comm, List.drop_succ_cons]
    exact @List.drop_left' _ ((d :: u).map (fun d => 48 + d)) tail (d :: u).length
      (by simp)

theorem parseStd_second (suffix tail : GoString) (f : Fields) (n : Nat) (ds : List Nat)
    (h : n < 60) (hv : fracValid ds = true) (ht : Stops tail)
    (hnext : (nextStdChunk suffix).2.1 ≠ some Std.stdFracSecond9) :
    parseStd Std.stdZeroSecond suffix (two n ++ (fracText ds ++ tail)) f
      = { fields := { f with sec := n, nsec := if ds.isEmpty then f.nsec else fracNanos ds },
          value := tail } := by
  have hr : ¬ ((n : Int) < 0 ∨ (60 : Int) ≤ n) := by omega
  have hall : ds.all (fun d => decide (d < 10)) = true := by
    simp only [fracValid, Bool.and_eq_true] at hv
    exact hv.2
  simp only [parseStd, getnum_two n _ true (by omega), hr, if_false,
    hasFrac_fracText ds tail hall ht]
  cases ds with
  | nil => simp [fracText]
  | cons d u =>
    obtain ⟨h1, h2, h3⟩ := fraction_parsed d u tail hv ht
    simp only [List.isEmpty_cons, Bool.not_false, if_true, Bool.false_eq_true, if_false,
      h1, h2, h3]

theorem parseStd_second_keep (suffix tail : GoString) (f : Fields) (n : Nat) (ds : List Nat)
    (h : n < 60) (hv : fracValid ds = true) (ht : Stops tail)
    (hnext : (nextStdChunk suffix).2.1 = some Std.stdFracSecond9) :
    parseStd Std.stdZeroSecond suffix (two n ++ (fracText ds ++ tail)) f
      = { fields := { f with sec := n }, value := fracText ds ++ tail } := by
  have hr : ¬ ((n : Int) < 0 ∨ (60 : Int) ≤ n) := by omega
  have hall : ds.all (fun d => decide (d < 10)) = true := by
    simp only [fracValid, Bool.and_eq_true] at hv
    exact hv.2
  simp only [parseStd, getnum_two n _ true (by omega), hr, if_false,
    hasFrac_fracText ds tail hall ht, hnext]
  cases ds <;> simp

theorem parseStd_fraction (suffix tail : GoString) (f : Fields) (ds : List Nat)
    (hv : fracValid ds = true) (ht : Stops tail) :
    parseStd Std.stdFracSecond9 suffix (fracText ds ++ tail) f
      = { fields := { f with nsec := if ds.isEmpty then f.nsec else fracNanos ds },
          value := tail } := by
  have hall : ds.all (fun d => decide (d < 10)) = true := by
    simp only [fracValid, Bool.and_eq_true] at hv
    exact hv.2
  simp only [parseStd, hasFrac_fracText ds tail hall ht]
  cases ds with
  | nil => simp [fracText]
  | cons d u =>
    obtain ⟨h1, h2, h3⟩ := fraction_parsed d u tail hv ht
    simp only [List.isEmpty_cons, Bool.not_false, Bool.not_true, Bool.false_eq_true, if_false,
      h1, h2, h3]

theorem parseStd_zone (suffix : GoString) (f : Fields) (off : Offset) (hv : off.valid = true) :
    parseStd Std.stdISO8601ColonTZ suffix (off.text ++ [34]) f
      = { fields := (match off with
            | Offset.z => { f with z := true }
            | _ => { f with zoneOffset := off.seconds }),
          value := [34] } := by
  cases off with
  | z => simp [parseStd, Offset.text]
  | east hh mm =>
    simp only [Offset.valid, Bool.and_eq_true, decide_eq_true_eq] at hv
    have g1 := getnum_two hh [] true (by omega)
    have g2 := getnum_two mm [] true (by omega)
    simp only [two, List.cons_append, List.nil_append] at g1 g2
    have hr1 : ¬ ((mm : Int) > 60) := by omega
    have hr2 : ¬ ((hh : Int) > 24) := by omega
    simp [parseStd, Offset.text, two, g1, g2, hr1, hr2, Offset.seconds]
  | west hh mm =>
    simp only [Offset.valid, Bool.and_eq_true, decide_eq_true_eq] at hv
    have g1 := getnum_two hh [] true (by omega)
    have g2 := getnum_two mm [] true (by omega)
    simp only [two, List.cons_append, List.nil_append] at g1 g2
    have hr1 : ¬ ((mm : Int) > 60) := by omega
    have hr2 : ¬ ((hh : Int) > 24) := by omega
    simp [parseStd, Offset.text, two, g1, g2, hr1, hr2, Offset.seconds]

/-! ### Running the turns -/

theorem skip_byte (c : Nat) (v : GoString) (hc : c ≠ 32) :
    skip 2 (c :: v) [c] = Except.ok v := by
  simp [skip, hc]

theorem skip_empty (n : Nat) (v : GoString) : skip (n + 1) v [] = Except.ok v := by
  simp [skip]

theorem skip_space (a : Nat) (v : GoString) (ha : a ≠ 32) :
    skip 2 (32 :: a :: v) [32] = Except.ok (a :: v) := by
  simp [skip, cutspace, List.dropWhile_cons, ha]

theorem skip_mismatch (c d : Nat) (v : GoString) (hcd : c ≠ d) (hd : d ≠ 32) :
    skip 2 (c :: v) [d] = Except.error (c :: v) := by
  simp [skip, hcd, hd]

theorem skip_space_mismatch (c : Nat) (v : GoString) (hc : c ≠ 32) :
    skip 2 (c :: v) [32] = Except.error (c :: v) := by
  simp [skip, hc]

theorem runChunks_step (al av : GoString) (c : Chunk) (cs : List Chunk) (last : Option GoString)
    (value value' : GoString) (f : Fields) (out : StepOut)
    (hs : skip (c.pre.length + 1) value c.pre = Except.ok value')
    (ho : parseStd c.std c.suffix value' f = out)
    (hr : out.rangeErr = []) (he : out.err = false) :
    runChunks al av (c :: cs) last value f = runChunks al av cs last out.value out.fields := by
  subst ho
  simp only [runChunks, hs, hr, he, ne_eq, not_true_eq_false, if_false, Bool.false_eq_true]

theorem runChunks_skip_fail (al av : GoString) (c : Chunk) (cs : List Chunk)
    (last : Option GoString) (value v : GoString) (f : Fields)
    (hs : skip (c.pre.length + 1) value c.pre = Except.error v) :
    runChunks al av (c :: cs) last value f = Except.error ⟨al, av, c.pre, v, []⟩ := by
  simp only [runChunks, hs]

theorem runChunks_std_fail (al av : GoString) (c : Chunk) (cs : List Chunk)
    (last : Option GoString) (value value' : GoString) (f : Fields)
    (hs : skip (c.pre.length + 1) value c.pre = Except.ok value')
    (hr : (parseStd c.std c.suffix value' f).rangeErr = [])
    (he : (parseStd c.std c.suffix value' f).err = true) :
    runChunks al av (c :: cs) last value f
      = Except.error ⟨al, av, stdstr c.layout c.pre c.suffix, value', []⟩ := by
  simp only [runChunks, hs, hr, he, ne_eq, not_true_eq_false, if_false, if_true]

theorem runChunks_end (al av : GoString) (f : Fields) :
    runChunks al av [] (some [34]) [34] f = Except.ok (f, []) := by
  simp [runChunks, skip]

theorem runChunks_end_fail (al av : GoString) (f : Fields) (c : Nat) (v : GoString)
    (hc : c ≠ 34) :
    runChunks al av [] (some [34]) (c :: v) f = Except.error ⟨al, av, [34], c :: v, []⟩ := by
  simp [runChunks, skip, hc]

end GoTime

theorem chunkList_RFC3339 :
    GoTime.chunkList ((quoted GoTime.RFC3339).length + 1) (quoted GoTime.RFC3339) = (chunksRFC3339, some [34]) := by
  decide

theorem chunkList_RFC3339UTC :
    GoTime.chunkList ((quoted RFC3339UTC).length + 1) (quoted RFC3339UTC) = (chunksRFC3339UTC, some [34]) := by
  decide

theorem chunkList_RFC3339UTCSansT :
    GoTime.chunkList ((quoted RFC3339UTCSansT).length + 1) (quoted RFC3339UTCSansT) = (chunksRFC3339UTCSansT, some [34]) := by
  decide

theorem chunkList_RFC3339NanoSansT :
    GoTime.chunkList ((quoted RFC3339NanoSansT).length + 1) (quoted RFC3339NanoSansT) = (chunksRFC3339NanoSansT, some [34]) := by
  decide

namespace GoTime

theorem run_date (al av : GoString) (c1 c2 c3 : Chunk) (cs : List Chunk)
    (last : Option GoString) (rest : GoString) (f : Fields) (y m d : Nat)
    (h1p : c1.pre = [34]) (h1s : c1.std = Std.stdLongYear)
    (h2p : c2.pre = [45]) (h2s : c2.std = Std.stdZeroMonth)
    (h3p : c3.pre = [45]) (h3s : c3.std = Std.stdZeroDay)
    (hy : y ≤ 9999) (hm1 : 1 ≤ m) (hm2 : m ≤ 12) (hd : d < 100) :
    runChunks al av (c1 :: c2 :: c3 :: cs) last
        (34 :: (four y ++ 45 :: (two m ++ 45 :: (two d ++ rest)))) f
      = runChunks al av cs last rest { f with year := y, month := m, day := d } := by
  rw [runChunks_step al av c1 _ last _ _ f ⟨{ f with year := y }, _, false, []⟩
    (by rw [h1p]; exact skip_byte 34 _ (by decide))
    (by rw [h1s]; exact parseStd_year _ _ _ y hy) rfl rfl]
  rw [runChunks_step al av c2 _ last _ _ _ ⟨{ f with year := y, month := m }, _, false, []⟩
    (by rw [h2p]; exact skip_byte 45 _ (by decide))
    (by rw [h2s]; exact parseStd_month _ _ _ m hm1 hm2) rfl rfl]
  rw [runChunks_step al av c3 _ last _ _ _
    ⟨{ f with year := y, month := m, day := d }, _, false, []⟩
    (by rw [h3p]; exact skip_byte 45 _ (by decide))
    (by rw [h3s]; exact parseStd_day _ _ _ d hd) rfl rfl]

theorem skip_separator (sep n : Nat) (rest : GoString) (hsep : sep = 84 ∨ sep = 32) :
    skip 2 (sep :: (two n ++ rest)) [sep] = Except.ok (two n ++ rest) := by
  cases hsep with
  | inl h => subst h; exact skip_byte 84 _ (by decide)
  | inr h =>
    subst h
    simp only [two, List.cons_append, List.nil_append]
    exact skip_space _ _ (by omega)

theorem run_clock (al av : GoString) (c4 c5 : Chunk) (cs : List Chunk)
    (last : Option GoString) (rest : GoString) (f : Fields) (sep h mi : Nat)
    (h4p : c4.pre = [sep]) (h4s : c4.std = Std.stdHour)
    (h5p : c5.pre = [58]) (h5s : c5.std = Std.stdZeroMinute)
    (hsep : sep = 84 ∨ sep = 32) (hh : h < 24) (hmi : mi < 60) :
    runChunks al av (c4 :: c5 :: cs) last (sep :: (two h ++ 58 :: (two mi ++ rest))) f
      = runChunks al av cs last rest { f with hour := h, min := mi } := by
  rw [runChunks_step al av c4 _ last _ _ f ⟨{ f with hour := h }, _, false, []⟩
    (by rw [h4p]; exact skip_separator sep h _ hsep)
    (by rw [h4s]; exact parseStd_hour _ _ _ h hh) rfl rfl]
  rw [runChunks_step al av c5 _ last _ _ _ ⟨{ f with hour := h, min := mi }, _, false, []⟩
    (by rw [h5p]; exact skip_byte 58 _ (by decide))
    (by rw [h5s]; exact parseStd_minute _ _ _ mi hmi) rfl rfl]

theorem run_clock_fail (al av : GoString) (c4 : Chunk) (cs : List Chunk)
    (last : Option GoString) (rest : GoString) (f : Fields) (sepL sepV : Nat)
    (h4p : c4.pre = [sepL])
    (hsep : (sepL = 84 ∧ sepV = 32) ∨ (sepL = 32 ∧ sepV = 84)) :
    ∃ e, runChunks al av (c4 :: cs) last (sepV :: rest) f = Except.error e := by
  refine ⟨_, runChunks_skip_fail al av c4 cs last _ (sepV :: rest) f ?_⟩
  rw [h4p]
  rcases hsep with ⟨h1, h2⟩ | ⟨h1, h2⟩
  · subst h1 h2; exact skip_mismatch 32 84 _ (by decide) (by decide)
  · subst h1 h2; exact skip_space_mismatch 84 _ (by decide)

theorem run_second (al av : GoString) (c6 : Chunk) (cs : List Chunk)
    (last : Option GoString) (tail : GoString) (f : Fields) (n : Nat) (ds : List Nat)
    (h6p : c6.pre = [58]) (h6s : c6.std = Std.stdZeroSecond)
    (hnext : (nextStdChunk c6.suffix).2.1 ≠ some Std.stdFracSecond9)
    (hn : n < 60) (hv : fracValid ds = true) (ht : Stops tail) :
    runChunks al av (c6 :: cs) last (58 :: (two n ++ (fracText ds ++ tail))) f
      = runChunks al av cs last tail
          { f with sec := n, nsec := if ds.isEmpty then f.nsec else fracNanos ds } := by
  rw [runChunks_step al av c6 _ last _ _ f
    ⟨{ f with sec := n, nsec := if ds.isEmpty then f.nsec else fracNanos ds }, tail, false, []⟩
    (by rw [h6p]; exact skip_byte 58 _ (by decide))
    (by rw [h6s]; exact parseStd_second _ tail _ n ds hn hv ht hnext) rfl rfl]

theorem run_second_fraction (al av : GoString) (c6 c7 : Chunk) (cs : List Chunk)
    (last : Option GoString) (tail : GoString) (f : Fields) (n : Nat) (ds : List Nat)
    (h6p : c6.pre = [58]) (h6s : c6.std = Std.stdZeroSecond)
    (hnext : (nextStdChunk c6.suffix).2.1 = some Std.stdFracSecond9)
    (h7p : c7.pre = []) (h7s : c7.std = Std.stdFracSecond9)
    (hn : n < 60) (hv : fracValid ds = true) (ht : Stops tail) :
    runChunks al av (c6 :: c7 :: cs) last (58 :: (two n ++ (fracText ds ++ tail))) f
      = runChunks al av cs last tail
          { f with sec := n, nsec := if ds.isEmpty then f.nsec else fracNanos ds } := by
  rw [runChunks_step al av c6 _ last _ _ f ⟨{ f with sec := n }, fracText ds ++ tail, false, []⟩
    (by rw [h6p]; exact skip_byte 58 _ (by decide))
    (by rw [h6s]; exact parseStd_second_keep _ tail _ n ds hn hv ht hnext) rfl rfl]
  rw [runChunks_step al av c7 _ last _ _ _
    ⟨{ f with sec := n, nsec := if ds.isEmpty then f.nsec else fracNanos ds }, tail, false, []⟩
    (by rw [h7p]; exact skip_empty _ _)
    (by rw [h7s]; exact parseStd_fraction _ tail _ ds hv ht) rfl rfl]

theorem run_zone (al av : GoString) (c : Chunk) (f : Fields) (off : Offset)
    (hp : c.pre = []) (hs : c.std = Std.stdISO8601ColonTZ) (hv : off.valid = true) :
    runChunks al av [c] (some [34]) (off.text ++ [34]) f
      = Except.ok ((match off with
            | Offset.z => { f with z := true }
            | _ => { f with zoneOffset := off.seconds }), []) := by
  rw [runChunks_step al av c _ _ _ _ f
    ⟨(match off with
      | Offset.z => { f with z := true }
      | _ => { f with zoneOffset := off.seconds }), [34], false, []⟩
    (by rw [hp]; exact skip_empty _ _)
    (by rw [hs]; exact parseStd_zone _ _ off hv) rfl rfl]
  exact runChunks_end al av _

theorem run_zone_fail (al av : GoString) (c : Chunk) (cs : List Chunk) (f : Fields)
    (hp : c.pre = []) (hs : c.std = Std.stdISO8601ColonTZ) :
    ∃ e, runChunks al av (c :: cs) (some [34]) [34] f = Except.error e := by
  refine ⟨_, runChunks_std_fail al av c cs _ _ [34] f (by rw [hp]; exact skip_empty _ _) ?_ ?_⟩
  · rw [hs]; simp [parseStd]
  · rw [hs]; simp [parseStd]

theorem stops_quote : Stops [34] := ⟨34, [], rfl, by decide, by decide⟩

theorem stops_offset (off : Offset) : Stops (off.text ++ [34]) := by
  cases off with
  | z => exact ⟨90, [34], rfl, by decide, by decide⟩
  | east hh mm => exact ⟨43, _, rfl, by decide, by decide⟩
  | west hh mm => exact ⟨45, _, rfl, by decide, by decide⟩

theorem offset_head_ne_quote (off : Offset) :
    ∃ c v, off.text ++ [34] = c :: v ∧ c ≠ 34 := by
  cases off with
  | z => exact ⟨90, [34], rfl, by decide⟩
  | east hh mm => exact ⟨43, _, rfl, by decide⟩
  | west hh mm => exact ⟨45, _, rfl, by decide⟩

end GoTime

/-! ### The four layouts on the four variants -/

namespace GoTime

theorem Parse_of_run (layout value : GoString) (cs : List Chunk) (last : Option GoString)
    (f : Fields)
    (hc : chunkList (layout.length + 1) layout = (cs, last))
    (hrun : runChunks layout value cs last value {} = Except.ok (f, []))
    (hday : ¬ (f.day < 1 ∨ f.day > daysIn f.month f.year)) :
    Parse layout value
      = (if f.z then Except.ok (Date f.year f.month f.day f.hour f.min f.sec f.nsec)
        else if f.zoneOffset ≠ -1 then
          Except.ok { Date f.year f.month f.day f.hour f.min f.sec f.nsec with
            sec := (Date f.year f.month f.day f.hour f.min f.sec f.nsec).sec - f.zoneOffset
            loc := Location.zone f.zoneOffset }
        else Except.ok (Date f.year f.month f.day f.hour f.min f.sec f.nsec)) := by
  unfold Parse
  rw [parseLoop_eq_runChunks, hc]
  simp only [hrun, hday, if_false]

theorem Parse_of_run_fail (layout value : GoString) (cs : List Chunk) (last : Option GoString)
    (hc : chunkList (layout.length + 1) layout = (cs, last))
    (hrun : ∃ e, runChunks layout value cs last value {} = Except.error e) :
    ∃ e, Parse layout value = Except.error e := by
  obtain ⟨e, he⟩ := hrun
  refine ⟨e, ?_⟩
  unfold Parse
  rw [parseLoop_eq_runChunks, hc]
  simp only [he]

end GoTime

theorem fracNanos_or_zero (ds : List Nat) :
    (if ds.isEmpty then (0 : Int) else fracNanos ds) = fracNanos ds := by
  cases ds with
  | nil => rfl
  | cons d u => rfl

theorem Civil.valid_bounds (c : Civil) (hc : c.valid = true) :
    c.year ≤ 9999 ∧ 1 ≤ c.month ∧ c.month ≤ 12 ∧ 1 ≤ c.day
    ∧ (c.day : Int) ≤ GoTime.daysIn c.month c.year
    ∧ c.hour < 24 ∧ c.min < 60 ∧ c.sec < 60 ∧ c.day < 100 := by
  simp only [Civil.valid, Bool.and_eq_true, decide_eq_true_eq] at hc
  obtain ⟨⟨⟨⟨⟨⟨⟨h1, h2⟩, h3⟩, h4⟩, h5⟩, h6⟩, h7⟩, h8⟩ := hc
  refine ⟨h1, h2, h3, h4, h5, h6, h7, h8, ?_⟩
  have : GoTime.daysIn c.month c.year ≤ 31 := by
    unfold GoTime.daysIn
    split
    · decide
    · have : c.month = 1 ∨ c.month = 2 ∨ c.month = 3 ∨ c.month = 4 ∨ c.month = 5
          ∨ c.month = 6 ∨ c.month = 7 ∨ c.month = 8 ∨ c.month = 9 ∨ c.month = 10
          ∨ c.month = 11 ∨ c.month = 12 := by omega
      rcases this with h | h | h | h | h | h | h | h | h | h | h | h <;> rw [h] <;> decide
  omega

theorem run_RFC3339 (al av : GoString) (c : Civil) (ds : List Nat) (off : Offset)
    (hc : c.valid = true) (hv : fracValid ds = true) (ho : off.valid = true) :
    GoTime.runChunks al av chunksRFC3339 (some [34]) (literal Variant.rfc3339 c ds off) {}
      = Except.ok (readFields Variant.rfc3339 c ds off, []) := by
  obtain ⟨h1, h2, h3, _, _, h6, h7, h8, hd⟩ := c.valid_bounds hc
  unfold literal chunksRFC3339
  simp only [Variant.separator, Variant.carriesOffset, if_true]
  rw [GoTime.run_date al av _ _ _ _ _ _ _ c.year c.month c.day rfl rfl rfl rfl rfl rfl
    h1 h2 h3 hd]
  rw [GoTime.run_clock al av _ _ _ _ _ _ 84 c.hour c.min rfl rfl rfl rfl (Or.inl rfl) h6 h7]
  rw [GoTime.run_second al av _ _ _ (off.text ++ [34]) _ c.sec ds rfl rfl (by decide) h8 hv
    (GoTime.stops_offset off)]
  rw [GoTime.run_zone al av _ _ off rfl rfl ho]
  cases off <;>
    simp only [readFields, Variant.carriesOffset, if_true, Bool.true_and, fracNanos_or_zero]

theorem run_RFC3339UTC (al av : GoString) (c : Civil) (ds : List Nat) (off : Offset)
    (hc : c.valid = true) (hv : fracValid ds = true) :
    GoTime.runChunks al av chunksRFC3339UTC (some [34]) (literal Variant.utc c ds off) {}
      = Except.ok (readFields Variant.utc c ds off, []) := by
  obtain ⟨h1, h2, h3, _, _, h6, h7, h8, hd⟩ := c.valid_bounds hc
  unfold literal chunksRFC3339UTC
  simp only [Variant.separator, Variant.carriesOffset, Bool.false_eq_true, if_false,
    List.nil_append]
  rw [GoTime.run_date al av _ _ _ _ _ _ _ c.year c.month c.day rfl rfl rfl rfl rfl rfl
    h1 h2 h3 hd]
  rw [GoTime.run_clock al av _ _ _ _ _ _ 84 c.hour c.min rfl rfl rfl rfl (Or.inl rfl) h6 h7]
  rw [GoTime.run_second al av _ _ _ [34] _ c.sec ds rfl rfl (by decide) h8 hv
    GoTime.stops_quote]
  rw [GoTime.runChunks_end]
  simp only [readFields, Variant.carriesOffset, Bool.false_eq_true, if_false, Bool.false_and,
    fracNanos_or_zero]

theorem run_RFC3339UTCSansT (al av : GoString) (c : Civil) (ds : List Nat) (off : Offset)
    (hc : c.valid = true) (hv : fracValid ds = true) :
    GoTime.runChunks al av chunksRFC3339UTCSansT (some [34])
        (literal Variant.utcSansT c ds off) {}
      = Except.ok (readFields Variant.utcSansT c ds off, []) := by
  obtain ⟨h1, h2, h3, _, _, h6, h7, h8, hd⟩ := c.valid_bounds hc
  unfold literal chunksRFC3339UTCSansT
  simp only [Variant.separator, Variant.carriesOffset, Bool.false_eq_true, if_false,
    List.nil_append]
  rw [GoTime.run_date al av _ _ _ _ _ _ _ c.year c.month c.day rfl rfl rfl rfl rfl rfl
    h1 h2 h3 hd]
  rw [GoTime.run_clock al av _ _ _ _ _ _ 32 c.hour c.min rfl rfl rfl rfl (Or.inr rfl) h6 h7]
  rw [GoTime.run_second al av _ _ _ [34] _ c.sec ds rfl rfl (by decide) h8 hv
    GoTime.stops_quote]
  rw [GoTime.runChunks_end]
  simp only [readFields, Variant.carriesOffset, Bool.false_eq_true, if_false, Bool.false_and,
    fracNanos_or_zero]

theorem run_RFC3339NanoSansT (al av : GoString) (c : Civil) (ds : List Nat) (off : Offset)
    (hc : c.valid = true) (hv : fracValid ds = true) (ho : off.valid = true) :
    GoTime.runChunks al av chunksRFC3339NanoSansT (some [34])
        (literal Variant.nanoSansT c ds off) {}
      = Except.ok (readFields Variant.nanoSansT c ds off, []) := by
  obtain ⟨h1, h2, h3, _, _, h6, h7, h8, hd⟩ := c.valid_bounds hc
  unfold literal chunksRFC3339NanoSansT
  simp only [Variant.separator, Variant.carriesOffset, if_true]
  rw [GoTime.run_date al av _ _ _ _ _ _ _ c.year c.month c.day rfl rfl rfl rfl rfl rfl
    h1 h2 h3 hd]
  rw [GoTime.run_clock al av _ _ _ _ _ _ 32 c.hour c.min rfl rfl rfl rfl (Or.inr rfl) h6 h7]
  rw [GoTime.run_second_fraction al av _ _ _ _ (off.text ++ [34]) _ c.sec ds rfl rfl
    (by decide) rfl rfl h8 hv (GoTime.stops_offset off)]
  rw [GoTime.run_zone al av _ _ off rfl rfl ho]
  cases off <;>
    simp only [readFields, Variant.carriesOffset, if_true, Bool.true_and, fracNanos_or_zero]

/-- A layout with `T` refuses a literal with a space, and the other way round. -/
theorem run_separator_fail (al av : GoString) (cs : List GoTime.Chunk) (v : Variant)
    (c : Civil) (ds : List Nat) (off : Offset) (hc : c.valid = true)
    (c1 c2 c3 c4 : GoTime.Chunk) (rest : List GoTime.Chunk) (sepL : Nat)
    (hcs : cs = c1 :: c2 :: c3 :: c4 :: rest)
    (h1p : c1.pre = [34]) (h1s : c1.std = GoTime.Std.stdLongYear)
    (h2p : c2.pre = [45]) (h2s : c2.std = GoTime.Std.stdZeroMonth)
    (h3p : c3.pre = [45]) (h3s : c3.std = GoTime.Std.stdZeroDay)
    (h4p : c4.pre = [sepL])
    (hsep : (sepL = 84 ∧ v.separator = 32) ∨ (sepL = 32 ∧ v.separator = 84)) :
    ∃ e, GoTime.runChunks al av cs (some [34]) (literal v c ds off) {} = Except.error e := by
  obtain ⟨h1, h2, h3, _, _, _, _, _, hd⟩ := c.valid_bounds hc
  subst hcs
  unfold literal
  rw [GoTime.run_date al av _ _ _ _ _ _ _ c.year c.month c.day h1p h1s h2p h2s h3p h3s
    h1 h2 h3 hd]
  exact GoTime.run_clock_fail al av c4 rest _ _ _ sepL v.separator h4p hsep

theorem run_RFC3339_on_utc (al av : GoString) (c : Civil) (ds : List Nat) (off : Offset)
    (hc : c.valid = true) (hv : fracValid ds = true) :
    ∃ e, GoTime.runChunks al av chunksRFC3339 (some [34]) (literal Variant.utc c ds off) {}
      = Except.error e := by
  obtain ⟨h1, h2, h3, _, _, h6, h7, h8, hd⟩ := c.valid_bounds hc
  unfold literal chunksRFC3339
  simp only [Variant.separator, Variant.carriesOffset, Bool.false_eq_true, if_false,
    List.nil_append]
  rw [GoTime.run_date al av _ _ _ _ _ _ _ c.year c.month c.day rfl rfl rfl rfl rfl rfl
    h1 h2 h3 hd]
  rw [GoTime.run_clock al av _ _ _ _ _ _ 84 c.hour c.min rfl rfl rfl rfl (Or.inl rfl) h6 h7]
  rw [GoTime.run_second al av _ _ _ [34] _ c.sec ds rfl rfl (by decide) h8 hv
    GoTime.stops_quote]
  exact GoTime.run_zone_fail al av _ _ _ rfl rfl

theorem run_RFC3339UTCSansT_on_nano (al av : GoString) (c : Civil) (ds : List Nat)
    (off : Offset) (hc : c.valid = true) (hv : fracValid ds = true) :
    ∃ e, GoTime.runChunks al av chunksRFC3339UTCSansT (some [34])
        (literal Variant.nanoSansT c ds off) {} = Except.error e := by
  obtain ⟨h1, h2, h3, _, _, h6, h7, h8, hd⟩ := c.valid_bounds hc
  unfold literal chunksRFC3339UTCSansT
  simp only [Variant.separator, Variant.carriesOffset, if_true]
  rw [GoTime.run_date al av _ _ _ _ _ _ _ c.year c.month c.day rfl rfl rfl rfl rfl rfl
    h1 h2 h3 hd]
  rw [GoTime.run_clock al av _ _ _ _ _ _ 32 c.hour c.min rfl rfl rfl rfl (Or.inr rfl) h6 h7]
  rw [GoTime.run_second al av _ _ _ (off.text ++ [34]) _ c.sec ds rfl rfl (by decide) h8 hv
    (GoTime.stops_offset off)]
  obtain ⟨x, w, hxw, hx⟩ := GoTime.offset_head_ne_quote off
  rw [hxw]
  exact ⟨_, GoTime.runChunks_end_fail al av _ x w hx⟩

theorem readFields_day_ok (v : Variant) (c : Civil) (ds : List Nat) (off : Offset)
    (hc : c.valid = true) :
    ¬ ((readFields v c ds off).day < 1
      ∨ (readFields v c ds off).day
        > GoTime.daysIn (readFields v c ds off).month (readFields v c ds off).year) := by
  obtain ⟨_, _, _, h4, h5, _, _, _, _⟩ := c.valid_bounds hc
  simp only [readFields]
  omega

theorem Parse_literal (v : Variant) (c : Civil) (ds : List Nat) (off : Offset)
    (hc : c.valid = true) (hv : fracValid ds = true) (ho : off.valid = true) :
    ∃ tm, GoTime.Parse (quoted v.format) (literal v c ds off) = Except.ok tm
      ∧ tm.UTC = expressed v c ds off := by
  have hday := readFields_day_ok v c ds off hc
  cases v with
  | rfc3339 =>
    simp only [Variant.format]
    have h := GoTime.Parse_of_run (quoted GoTime.RFC3339) (literal Variant.rfc3339 c ds off)
      _ _ _ chunkList_RFC3339 (run_RFC3339 _ _ c ds off hc hv ho) hday
    cases off with
    | z =>
      simp only [readFields, Variant.carriesOffset, Bool.true_and, if_true] at h
      exact ⟨_, h, by
        simp [GoTime.Time.UTC, expressed, Variant.carriesOffset, Offset.seconds]⟩
    | east hh mm =>
      have hne : ((hh : Int) * 60 + mm) * 60 ≠ -1 := by omega
      simp only [readFields, Variant.carriesOffset, Bool.true_and, if_true,
        Bool.false_eq_true, if_false, Offset.seconds, ne_eq, hne, not_false_eq_true] at h
      exact ⟨_, h, by
        simp [GoTime.Time.UTC, expressed, Variant.carriesOffset, Offset.seconds]⟩
    | west hh mm =>
      have hne : -(((hh : Int) * 60 + mm) * 60) ≠ -1 := by omega
      simp only [readFields, Variant.carriesOffset, Bool.true_and, if_true,
        Bool.false_eq_true, if_false, Offset.seconds, ne_eq, hne, not_false_eq_true] at h
      exact ⟨_, h, by
        simp [GoTime.Time.UTC, expressed, Variant.carriesOffset, Offset.seconds]⟩
  | utc =>
    simp only [Variant.format]
    have h := GoTime.Parse_of_run (quoted RFC3339UTC) (literal Variant.utc c ds off)
      _ _ _ chunkList_RFC3339UTC (run_RFC3339UTC _ _ c ds off hc hv) hday
    simp only [readFields, Variant.carriesOffset, Bool.false_and, Bool.false_eq_true,
      if_false, ne_eq, not_true_eq_false] at h
    exact ⟨_, h, by simp [GoTime.Time.UTC, expressed, Variant.carriesOffset]⟩
  | utcSansT =>
    simp only [Variant.format]
    have h := GoTime.Parse_of_run (quoted RFC3339UTCSansT) (literal Variant.utcSansT c ds off)
      _ _ _ chunkList_RFC3339UTCSansT (run_RFC3339UTCSansT _ _ c ds off hc hv) hday
    simp only [readFields, Variant.carriesOffset, Bool.false_and, Bool.false_eq_true,
      if_false, ne_eq, not_true_eq_false] at h
    exact ⟨_, h, by simp [GoTime.Time.UTC, expressed, Variant.carriesOffset]⟩
  | nanoSansT =>
    simp only [Variant.format]
    have h := GoTime.Parse_of_run (quoted RFC3339NanoSansT) (literal Variant.nanoSansT c ds off)
      _ _ _ chunkList_RFC3339NanoSansT (run_RFC3339NanoSansT _ _ c ds off hc hv ho) hday
    cases off with
    | z =>
      simp only [readFields, Variant.carriesOffset, Bool.true_and, if_true] at h
      exact ⟨_, h, by
        simp [GoTime.Time.UTC, expressed, Variant.carriesOffset, Offset.seconds]⟩
    | east hh mm =>
      have hne : ((hh : Int) * 60 + mm) * 60 ≠ -1 := by omega
      simp only [readFields, Variant.carriesOffset, Bool.true_and, if_true,
        Bool.false_eq_true, if_false, Offset.seconds, ne_eq, hne, not_false_eq_true] at h
      exact ⟨_, h, by
        simp [GoTime.Time.UTC, expressed, Variant.carriesOffset, Offset.seconds]⟩
    | west hh mm =>
      have hne : -(((hh : Int) * 60 + mm) * 60) ≠ -1 := by omega
      simp only [readFields, Variant.carriesOffset, Bool.true_and, if_true,
        Bool.false_eq_true, if_false, Offset.seconds, ne_eq, hne, not_false_eq_true] at h
      exact ⟨_, h, by
        simp [GoTime.Time.UTC, expressed, Variant.carriesOffset, Offset.seconds]⟩

theorem Parse_separator_fail (layout : GoString) (cs : List GoTime.Chunk) (v : Variant)
    (c : Civil) (ds : List Nat) (off : Offset) (hc : c.valid = true)
    (hl : GoTime.chunkList (layout.length + 1) layout = (cs, some [34]))
    (c1 c2 c3 c4 : GoTime.Chunk) (rest : List GoTime.Chunk) (sepL : Nat)
    (hcs : cs = c1 :: c2 :: c3 :: c4 :: rest)
    (h1p : c1.pre = [34]) (h1s : c1.std = GoTime.Std.stdLongYear)
    (h2p : c2.pre = [45]) (h2s : c2.std = GoTime.Std.stdZeroMonth)
    (h3p : c3.pre = [45]) (h3s : c3.std = GoTime.Std.stdZeroDay)
    (h4p : c4.pre = [sepL])
    (hsep : (sepL = 84 ∧ v.separator = 32) ∨ (sepL = 32 ∧ v.separator = 84)) :
    ∃ e, GoTime.Parse layout (literal v c ds off) = Except.error e :=
  GoTime.Parse_of_run_fail layout _ cs _ hl
    (run_separator_fail _ _ cs v c ds off hc c1 c2 c3 c4 rest sepL hcs h1p h1s h2p h2s h3p h3s
      h4p hsep)

theorem literal_ne_null (v : Variant) (c : Civil) (ds : List Nat) (off : Offset) :
    literal v c ds off ≠ bytes "null" := by
  intro h
  have h2 := congrArg List.head? h
  have h3 : (bytes "null").head? = some 110 := by decide
  rw [h3] at h2
  simp [literal] at h2

/-! ## C5: the four variants give the same instant -/

/-- C5: for every moment and each of the four timestamp variants (RFC 3339
with `T` and offset; `T` without offset, read as UTC; space-separated without
offset, read as UTC; space-separated with fractional seconds and offset),
`Time.UnmarshalJSON` on the quoted literal that expresses the moment in that
variant (a date that exists in a four-digit year, a time of day, a fraction
of up to nine digits, and, where the variant carries one, any offset `Z` or
up to 23:59 east or west) succeeds and stores the moment with location UTC,
whatever the receiver held; so two literals of any two variants that express
the same moment store the same `Time` value. -/
theorem UnmarshalJSON_variants (t : Time) (m : GoTime.Time) (v : Variant) (c : Civil)
    (frac : List Nat) (off : Offset)
    (hc : c.valid = true) (hf : fracValid frac = true) (ho : off.valid = true)
    (hm : expressed v c frac off = m) :
    Time.UnmarshalJSON t (literal v c frac off) = (⟨m⟩, none)
    ∧ m.loc = GoTime.Location.utc := by
  subst hm
  refine ⟨?_, rfl⟩
  obtain ⟨tm, hp, hu⟩ := Parse_literal v c frac off hc hf ho
  unfold Time.UnmarshalJSON
  rw [if_neg (literal_ne_null v c frac off)]
  unfold timeFormats
  cases v with
  | rfc3339 =>
    simp only [Variant.format] at hp
    simp only [UnmarshalJSON.loop, hp, hu]
  | utc =>
    simp only [Variant.format] at hp
    obtain ⟨e1, h1⟩ := GoTime.Parse_of_run_fail (quoted GoTime.RFC3339)
      (literal Variant.utc c frac off) _ _ chunkList_RFC3339
      (run_RFC3339_on_utc _ _ c frac off hc hf)
    simp only [UnmarshalJSON.loop, h1, hp, hu]
  | utcSansT =>
    simp only [Variant.format] at hp
    obtain ⟨e1, h1⟩ := Parse_separator_fail (quoted GoTime.RFC3339) chunksRFC3339
      Variant.utcSansT c frac off hc chunkList_RFC3339 _ _ _ _ _ 84 rfl rfl rfl rfl rfl rfl rfl
      rfl (Or.inl ⟨rfl, rfl⟩)
    obtain ⟨e2, h2⟩ := Parse_separator_fail (quoted RFC3339UTC) chunksRFC3339UTC
      Variant.utcSansT c frac off hc chunkList_RFC3339UTC _ _ _ _ _ 84 rfl rfl rfl rfl rfl rfl
      rfl rfl (Or.inl ⟨rfl, rfl⟩)
    simp only [UnmarshalJSON.loop, h1, h2, hp, hu]
  | nanoSansT =>
    simp only [Variant.format] at hp
    obtain ⟨e1, h1⟩ := Parse_separator_fail (quoted GoTime.RFC3339) chunksRFC3339
      Variant.nanoSansT c frac off hc chunkList_RFC3339 _ _ _ _ _ 84 rfl rfl rfl rfl rfl rfl rfl
      rfl (Or.inl ⟨rfl, rfl⟩)
    obtain ⟨e2, h2⟩ := Parse_separator_fail (quoted RFC3339UTC) chunksRFC3339UTC
      Variant.nanoSansT c frac off hc chunkList_RFC3339UTC _ _ _ _ _ 84 rfl rfl rfl rfl rfl rfl
      rfl rfl (Or.inl ⟨rfl, rfl⟩)
    obtain ⟨e3, h3⟩ := GoTime.Parse_of_run_fail (quoted RFC3339UTCSansT)
      (literal Variant.nanoSansT c frac off) _ _ chunkList_RFC3339UTCSansT
      (run_RFC3339UTCSansT_on_nano _ _ c frac off hc hf)
    simp only [UnmarshalJSON.loop, h1, h2, h3, hp, hu]

/-- C5 witness: `"2020-05-10 17:55:29.623184+00:00"` and
`"2020-05-10T17:55:29.623184+00:00"` both store 2020-05-10 17:55:29.623184
UTC. -/
theorem UnmarshalJSON_variants_witness :
    literal Variant.nanoSansT ⟨2020, 5, 10, 17, 55, 29⟩ [6, 2, 3, 1, 8, 4] (Offset.east 0 0)
      = bytes "\"2020-05-10 17:55:29.623184+00:00\""
    ∧ literal Variant.rfc3339 ⟨2020, 5, 10, 17, 55, 29⟩ [6, 2, 3, 1, 8, 4] (Offset.east 0 0)
      = bytes "\"2020-05-10T17:55:29.623184+00:00\""
    ∧ Time.UnmarshalJSON {}
        (literal Variant.nanoSansT ⟨2020, 5, 10, 17, 55, 29⟩ [6, 2, 3, 1, 8, 4] (Offset.east 0 0))
      = (⟨GoTime.Date 2020 5 10 17 55 29 623184000⟩, none)
    ∧ Time.UnmarshalJSON {}
        (literal Variant.rfc3339 ⟨2020, 5, 10, 17, 55, 29⟩ [6, 2, 3, 1, 8, 4] (Offset.east 0 0))
      = (⟨GoTime.Date 2020 5 10 17 55 29 623184000⟩, none) :=
  ⟨by decide, by decide,
   (UnmarshalJSON_variants {} (GoTime.Date 2020 5 10 17 55 29 623184000) Variant.nanoSansT
      ⟨2020, 5, 10, 17, 55, 29⟩ [6, 2, 3, 1, 8, 4] (Offset.east 0 0)
      (by decide) (by decide) (by decide) (by decide)).1,
   (UnmarshalJSON_variants {} (GoTime.Date 2020 5 10 17 55 29 623184000) Variant.rfc3339
      ⟨2020, 5, 10, 17, 55, 29⟩ [6, 2, 3, 1, 8, 4] (Offset.east 0 0)
      (by decide) (by decide) (by decide) (by decide)).1⟩

/-! ## The fuel of the recursive definitions is enough -/

namespace GoTime

theorem stdAt_pos (l : GoString) (std : Std) (n : Nat) (h : stdAt l = some (std, n)) :
    1 ≤ n := by
  unfold stdAt at h
  repeat' split at h
  all_goals first
    | (simp only [Option.some.injEq, Prod.mk.injEq] at h; omega)
    | (simp at h; obtain ⟨_, _, h3⟩ := h; omega)
    | simp at h

theorem nextStdChunk_suffix (l : GoString) (std : Std)
    (h : (nextStdChunk l).2.1 = some std) : (nextStdChunk l).2.2.length < l.length := by
  induction l with
  | nil => simp [nextStdChunk] at h
  | cons c rest ih =>
    unfold nextStdChunk at h ⊢
    cases hs : stdAt (c :: rest) with
    | some p =>
      obtain ⟨s, n⟩ := p
      have := stdAt_pos _ _ _ hs
      simp only [List.length_drop, List.length_cons]
      omega
    | none =>
      rcases hr : nextStdChunk rest with ⟨pre, std', suffix⟩
      simp only [hs, hr] at h ⊢
      have := ih (by rw [hr]; exact h)
      rw [hr] at this
      simp only [List.length_cons] at this ⊢
      omega

theorem skip_fuel (n1 n2 : Nat) (value pre : GoString) (h1 : pre.length < n1)
    (h2 : pre.length < n2) : skip n1 value pre = skip n2 value pre := by
  induction n1 generalizing n2 value pre with
  | zero => omega
  | succ k ih =>
    cases n2 with
    | zero => omega
    | succ k2 =>
      cases pre with
      | nil => simp [skip]
      | cons p ps =>
        have hcut : (cutspace (p :: ps)).length ≤ (p :: ps).length := by
          unfold cutspace
          exact (List.dropWhile_sublist _).length_le
        simp only [skip]
        split
        · rename_i hp
          split
          · rfl
          · have hp' : p = 32 := by simpa using hp
            have hlen : (cutspace (p :: ps)).length < k := by
              subst hp'
              have : cutspace (32 :: ps) = cutspace ps := by
                simp [cutspace, List.dropWhile_cons]
              rw [this]
              have : (cutspace ps).length ≤ ps.length := by
                unfold cutspace
                exact (List.dropWhile_sublist _).length_le
              simp only [List.length_cons] at h1
              omega
            have hlen2 : (cutspace (p :: ps)).length < k2 := by
              subst hp'
              have : cutspace (32 :: ps) = cutspace ps := by
                simp [cutspace, List.dropWhile_cons]
              rw [this]
              have : (cutspace ps).length ≤ ps.length := by
                unfold cutspace
                exact (List.dropWhile_sublist _).length_le
              simp only [List.length_cons] at h2
              omega
            exact ih _ _ _ hlen hlen2
        · cases value with
          | nil => rfl
          | cons v vs =>
            simp only
            split
            · simp only [List.length_cons] at h1 h2
              exact ih _ _ _ (by omega) (by omega)
            · rfl

theorem parseLoop_fuel (al av : GoString) (n1 n2 : Nat) (layout value : GoString) (f : Fields)
    (h1 : layout.length < n1) (h2 : layout.length < n2) :
    parseLoop al av n1 layout value f = parseLoop al av n2 layout value f := by
  induction n1 generalizing n2 layout value f with
  | zero => omega
  | succ k ih =>
    cases n2 with
    | zero => omega
    | succ k2 =>
      unfold parseLoop
      rcases hc : nextStdChunk layout with ⟨pre, std, suffix⟩
      cases std with
      | none => rfl
      | some std =>
        have hlen : suffix.length < layout.length := by
          have := nextStdChunk_suffix layout std (by rw [hc])
          rw [hc] at this
          exact this
        simp only
        cases skip (pre.length + 1) value pre with
        | error v => rfl
        | ok value' =>
          simp only
          split
          · rfl
          · split
            · rfl
            · exact ih _ _ _ _ (by omega) (by omega)

end GoTime

/-! ## The fuel of the JSON scanner is enough -/

namespace Json

theorem scanString_rest (n : Nat) (s acc body rest : GoString)
    (h : scanString n s acc = Scan.ok body rest) : rest.length < s.length := by
  induction n generalizing s acc with
  | zero => simp [scanString] at h
  | succ k ih =>
    cases s with
    | nil => simp [scanString] at h
    | cons c t =>
      simp only [scanString] at h
      repeat' split at h
      all_goals first
        | (simp only [Scan.ok.injEq] at h; obtain ⟨_, rfl⟩ := h; simp)
        | (apply Nat.lt_of_lt_of_le (ih _ _ h); simp only [List.length_cons]; omega)
        | simp at h

theorem scanString_fuel (n : Nat) (s acc : GoString) (hn : s.length < n) :
    scanString n s acc ≠ Scan.fuel := by
  induction n generalizing s acc with
  | zero => omega
  | succ k ih =>
    cases s with
    | nil => simp [scanString]
    | cons c t =>
      simp only [scanString]
      simp only [List.length_cons] at hn
      repeat' split
      all_goals first
        | (apply ih; simp only [List.length_cons] at hn; omega)
        | (apply ih; omega)
        | simp

theorem Scan.bind_ok {α β : Type} (x : Scan α) (f : α → GoString → Scan β) (v : β)
    (rest : GoString) (h : x.bind f = Scan.ok v rest) :
    ∃ a r, x = Scan.ok a r ∧ f a r = Scan.ok v rest := by
  cases x with
  | ok a r => exact ⟨a, r, rfl, h⟩
  | bad => simp [Scan.bind] at h
  | eof => simp [Scan.bind] at h
  | fuel => simp [Scan.bind] at h

theorem Scan.bind_fuel {α β : Type} (x : Scan α) (f : α → GoString → Scan β)
    (hx : x ≠ Scan.fuel) (hf : ∀ a r, x = Scan.ok a r → f a r ≠ Scan.fuel) :
    x.bind f ≠ Scan.fuel := by
  cases x with
  | ok a r => exact hf a r rfl
  | bad => simp [Scan.bind]
  | eof => simp [Scan.bind]
  | fuel => exact absurd rfl hx

theorem skipSpace_length (s : GoString) : (skipSpace s).length ≤ s.length :=
  (List.dropWhile_sublist _).length_le

theorem skipSpace_cons (s rest : GoString) (c : Nat) (h : skipSpace s = c :: rest) :
    rest.length < s.length := by
  have := skipSpace_length s
  rw [h] at this
  simp only [List.length_cons] at this
  omega

theorem scanName_rest (es s rest : GoString) (u : Unit) (h : scanName es s = Scan.ok u rest) :
    rest.length ≤ s.length := by
  induction es generalizing s with
  | nil =>
    simp only [scanName, Scan.ok.injEq] at h
    rw [h.2]
  | cons e t ih =>
    cases s with
    | nil => simp [scanName] at h
    | cons c s' =>
      simp only [scanName] at h
      split at h
      · have := ih _ h
        simp only [List.length_cons]
        omega
      · simp at h

theorem scanName_fuel (es s : GoString) : scanName es s ≠ Scan.fuel := by
  induction es generalizing s with
  | nil => simp [scanName]
  | cons e t ih =>
    cases s with
    | nil => simp [scanName]
    | cons c s' =>
      simp only [scanName]
      split
      · exact ih _
      · simp

theorem dropWhile_length (p : Nat → Bool) (s : GoString) : (s.dropWhile p).length ≤ s.length :=
  (List.dropWhile_sublist _).length_le

theorem skipSign_length (s : GoString) : (skipSign s).length ≤ s.length := by
  unfold skipSign
  split
  · split
    · simp
    · exact Nat.le_refl _
  · exact Nat.le_refl _

theorem scanExp_rest (s rest : GoString) (u : Unit) (h : scanExp s = Scan.ok u rest) :
    rest.length ≤ s.length := by
  unfold scanExp at h
  have h1 := skipSign_length s
  split at h
  · simp at h
  · rename_i c t heq
    rw [heq] at h1
    split at h
    · simp only [Scan.ok.injEq] at h
      rw [← h.2]
      have := dropWhile_length isDigit t
      simp only [List.length_cons] at h1
      omega
    · simp at h

theorem scanExp_fuel (s : GoString) : scanExp s ≠ Scan.fuel := by
  unfold scanExp
  split
  · simp
  · split <;> simp

theorem scanExpOpt_rest (s rest : GoString) (u : Unit) (h : scanExpOpt s = Scan.ok u rest) :
    rest.length ≤ s.length := by
  unfold scanExpOpt at h
  split at h
  · split at h
    · have := scanExp_rest _ _ _ h
      simp only [List.length_cons]
      omega
    · simp only [Scan.ok.injEq] at h
      rw [← h.2]
  · simp only [Scan.ok.injEq] at h
    rw [← h.2]

theorem scanExpOpt_fuel (s : GoString) : scanExpOpt s ≠ Scan.fuel := by
  unfold scanExpOpt
  split
  · split
    · exact scanExp_fuel _
    · simp
  · simp

theorem scanFracExp_rest (s rest : GoString) (u : Unit) (h : scanFracExp s = Scan.ok u rest) :
    rest.length ≤ s.length := by
  unfold scanFracExp at h
  split at h
  · simp only [Scan.ok.injEq] at h
    rw [← h.2]
  · split at h
    · split at h
      · simp at h
      · rename_i c w
        split at h
        · have := scanExpOpt_rest _ _ _ h
          have := dropWhile_length isDigit w
          simp only [List.length_cons]
          omega
        · simp at h
    · exact scanExpOpt_rest _ _ _ h

theorem scanFracExp_fuel (s : GoString) : scanFracExp s ≠ Scan.fuel := by
  unfold scanFracExp
  split
  · simp
  · split
    · split
      · simp
      · split
        · exact scanExpOpt_fuel _
        · simp
    · exact scanExpOpt_fuel _

theorem scanNumber_rest (s lit rest : GoString) (h : scanNumber s = Scan.ok lit rest) :
    rest.length < s.length := by
  unfold scanNumber at h
  obtain ⟨u, r, h1, h2⟩ := Scan.bind_ok _ _ _ _ h
  simp only [Scan.ok.injEq] at h2
  rw [← h2.2]
  have hbody : ∀ body : GoString, body.length ≤ s.length →
      (match body with
        | [] => (Scan.eof : Scan Unit)
        | c :: t =>
          if c == 48 then scanFracExp t
          else if isDigit c then scanFracExp (t.dropWhile isDigit)
          else Scan.bad) = Scan.ok u r → r.length < s.length := by
    intro body hb hm
    split at hm
    · simp at hm
    · rename_i c t
      simp only [List.length_cons] at hb
      split at hm
      · have := scanFracExp_rest _ _ _ hm
        omega
      · split at hm
        · have := scanFracExp_rest _ _ _ hm
          have := dropWhile_length isDigit t
          omega
        · simp at hm
  apply hbody _ _ h1
  split
  · simp
  · exact Nat.le_refl _

theorem scanNumber_fuel (s : GoString) : scanNumber s ≠ Scan.fuel := by
  unfold scanNumber
  apply Scan.bind_fuel
  · split
    · simp
    · split
      · exact scanFracExp_fuel _
      · split
        · exact scanFracExp_fuel _
        · simp
  · intro a r _
    simp

theorem scanKey_rest (s key rest : GoString) (h : scanKey s = Scan.ok key rest) :
    rest.length < s.length := by
  unfold scanKey at h
  split at h
  · simp at h
  · rename_i q t
    split at h
    · simp at h
    · obtain ⟨body, r, h1, h2⟩ := Scan.bind_ok _ _ _ _ h
      have h3 := scanString_rest _ _ _ _ _ h1
      split at h2
      · simp at h2
      · rename_i c r' heq
        have h4 := skipSpace_cons _ _ _ heq
        split at h2
        · simp only [Scan.ok.injEq] at h2
          rw [← h2.2]
          simp only [List.length_cons]
          omega
        · simp at h2

theorem scanKey_fuel (s : GoString) : scanKey s ≠ Scan.fuel := by
  unfold scanKey
  split
  · simp
  · split
    · simp
    · apply Scan.bind_fuel
      · exact scanString_fuel _ _ _ (by omega)
      · intro a r _
        split
        · simp
        · split <;> simp

theorem parse_rest (fuel depth : Nat) (mode : Mode) (s : GoString) (v : Value)
    (rest : GoString) (h : parse fuel depth mode s = Scan.ok v rest) :
    rest.length < s.length := by
  induction fuel generalizing depth mode s v rest with
  | zero => simp [parse] at h
  | succ k ih =>
    cases mode with
    | value =>
      simp only [parse] at h
      split at h
      · simp at h
      · rename_i c r heq
        have h0 := skipSpace_cons _ _ _ heq
        split at h
        · split at h
          · simp at h
          · split at h
            · simp at h
            · rename_i d r2 heq2
              have h2 := skipSpace_cons _ _ _ heq2
              split at h
              · simp only [Scan.ok.injEq] at h
                rw [← h.2]
                omega
              · obtain ⟨key, r3, hk, h⟩ := Scan.bind_ok _ _ _ _ h
                have h3 := scanKey_rest _ _ _ hk
                obtain ⟨v1, r4, hv, h⟩ := Scan.bind_ok _ _ _ _ h
                have h4 := ih _ _ _ _ _ hv
                obtain ⟨v2, r5, hm, h⟩ := Scan.bind_ok _ _ _ _ h
                have h5 := ih _ _ _ _ _ hm
                simp only [List.length_cons] at h3
                split at h
                · simp only [Scan.ok.injEq] at h
                  rw [← h.2]
                  omega
                · simp at h
        · split at h
          · split at h
            · simp at h
            · split at h
              · simp at h
              · rename_i d r2 heq2
                have h2 := skipSpace_cons _ _ _ heq2
                split at h
                · simp only [Scan.ok.injEq] at h
                  rw [← h.2]
                  omega
                · obtain ⟨v1, r4, hv, h⟩ := Scan.bind_ok _ _ _ _ h
                  have h4 := ih _ _ _ _ _ hv
                  obtain ⟨v2, r5, hm, h⟩ := Scan.bind_ok _ _ _ _ h
                  have h5 := ih _ _ _ _ _ hm
                  simp only [List.length_cons] at h4
                  split at h
                  · simp only [Scan.ok.injEq] at h
                    rw [← h.2]
                    omega
                  · simp at h
          · split at h
            · obtain ⟨body, r2, hb, h⟩ := Scan.bind_ok _ _ _ _ h
              have h2 := scanString_rest _ _ _ _ _ hb
              simp only [Scan.ok.injEq] at h
              rw [← h.2]
              omega
            · split at h
              · obtain ⟨lit, r2, hb, h⟩ := Scan.bind_ok _ _ _ _ h
                have h2 := scanNumber_rest _ _ _ hb
                simp only [Scan.ok.injEq] at h
                rw [← h.2]
                simp only [List.length_cons] at h2
                omega
              · split at h
                · obtain ⟨u, r2, hb, h⟩ := Scan.bind_ok _ _ _ _ h
                  have h2 := scanName_rest _ _ _ _ hb
                  simp only [Scan.ok.injEq] at h
                  rw [← h.2]
                  omega
                · split at h
                  · obtain ⟨u, r2, hb, h⟩ := Scan.bind_ok _ _ _ _ h
                    have h2 := scanName_rest _ _ _ _ hb
                    simp only [Scan.ok.injEq] at h
                    rw [← h.2]
                    omega
                  · split at h
                    · obtain ⟨u, r2, hb, h⟩ := Scan.bind_ok _ _ _ _ h
                      have h2 := scanName_rest _ _ _ _ hb
                      simp only [Scan.ok.injEq] at h
                      rw [← h.2]
                      omega
                    · simp at h
    | elems acc =>
      simp only [parse] at h
      split at h
      · simp at h
      · rename_i c r heq
        have h0 := skipSpace_cons _ _ _ heq
        split at h
        · simp only [Scan.ok.injEq] at h
          rw [← h.2]
          exact h0
        · split at h
          · obtain ⟨v1, r2, hv, h⟩ := Scan.bind_ok _ _ _ _ h
            have h2 := ih _ _ _ _ _ hv
            have h3 := ih _ _ _ _ _ h
            omega
          · simp at h
    | members acc =>
      simp only [parse] at h
      split at h
      · simp at h
      · rename_i c r heq
        have h0 := skipSpace_cons _ _ _ heq
        split at h
        · simp only [Scan.ok.injEq] at h
          rw [← h.2]
          exact h0
        · split at h
          · obtain ⟨key, r2, hk, h⟩ := Scan.bind_ok _ _ _ _ h
            have h1 := scanKey_rest _ _ _ hk
            have h1' := skipSpace_length r
            obtain ⟨v1, r3, hv, h⟩ := Scan.bind_ok _ _ _ _ h
            have h2 := ih _ _ _ _ _ hv
            have h3 := ih _ _ _ _ _ h
            omega
          · simp at h

theorem parse_fuel (fuel depth : Nat) (mode : Mode) (s : GoString) (hn : s.length < fuel) :
    parse fuel depth mode s ≠ Scan.fuel := by
  induction fuel generalizing depth mode s with
  | zero => omega
  | succ k ih =>
    cases mode with
    | value =>
      simp only [parse]
      split
      · simp
      · rename_i c r heq
        have h0 := skipSpace_cons _ _ _ heq
        split
        · split
          · simp
          · split
            · simp
            · rename_i d r2 heq2
              have h2 := skipSpace_cons _ _ _ heq2
              split
              · simp
              · apply Scan.bind_fuel _ _ (scanKey_fuel _)
                intro key r3 hk
                have h3 := scanKey_rest _ _ _ hk
                simp only [List.length_cons] at h3
                apply Scan.bind_fuel _ _ (ih _ _ _ (by omega))
                intro v1 r4 hv
                have h4 := parse_rest _ _ _ _ _ _ hv
                apply Scan.bind_fuel _ _ (ih _ _ _ (by omega))
                intro v2 r5 _
                split <;> simp
        · split
          · split
            · simp
            · split
              · simp
              · rename_i d r2 heq2
                have h2 := skipSpace_cons _ _ _ heq2
                split
                · simp
                · apply Scan.bind_fuel _ _ (ih _ _ _ (by simp only [List.length_cons]; omega))
                  intro v1 r4 hv
                  have h4 := parse_rest _ _ _ _ _ _ hv
                  simp only [List.length_cons] at h4
                  apply Scan.bind_fuel _ _ (ih _ _ _ (by omega))
                  intro v2 r5 _
                  split <;> simp
          · split
            · apply Scan.bind_fuel _ _ (scanString_fuel _ _ _ (by omega))
              intro a b _
              simp
            · split
              · apply Scan.bind_fuel _ _ (scanNumber_fuel _)
                intro a b _
                simp
              · split
                · apply Scan.bind_fuel _ _ (scanName_fuel _ _)
                  intro a b _
                  simp
                · split
                  · apply Scan.bind_fuel _ _ (scanName_fuel _ _)
                    intro a b _
                    simp
                  · split
                    · apply Scan.bind_fuel _ _ (scanName_fuel _ _)
                      intro a b _
                      simp
                    · simp
    | elems acc =>
      simp only [parse]
      split
      · simp
      · rename_i c r heq
        have h0 := skipSpace_cons _ _ _ heq
        split
        · simp
        · split
          · apply Scan.bind_fuel _ _ (ih _ _ _ (by omega))
            intro v1 r2 hv
            have h2 := parse_rest _ _ _ _ _ _ hv
            exact ih _ _ _ (by omega)
          · simp
    | members acc =>
      simp only [parse]
      split
      · simp
      · rename_i c r heq
        have h0 := skipSpace_cons _ _ _ heq
        split
        · simp
        · split
          · apply Scan.bind_fuel _ _ (scanKey_fuel _)
            intro key r2 hk
            have h1 := scanKey_rest _ _ _ hk
            have h1' := skipSpace_length r
            apply Scan.bind_fuel _ _ (ih _ _ _ (by omega))
            intro v1 r3 hv
            have h2 := parse_rest _ _ _ _ _ _ hv
            exact ih _ _ _ (by omega)
          · simp

/-- The fuel `readValue` gives the parser is never used up: every body is
either read as a value, refused as malformed, or found to end too early. -/
theorem readValue_fuel (body : GoString) : readValue body ≠ Scan.fuel :=
  parse_fuel _ _ _ _ (Nat.lt_succ_self _)

theorem utf8Len_pos (s : GoString) (k : Nat) (h : utf8Len s = some k) : 1 ≤ k := by
  unfold utf8Len at h
  simp only at h
  repeat' split at h
  all_goals first
    | (simp only [Option.some.injEq] at h; omega)
    | simp at h

theorem unquote_fuel (n1 n2 : Nat) (s : GoString) (h1 : s.length < n1) (h2 : s.length < n2) :
    unquote n1 s = unquote n2 s := by
  induction n1 generalizing n2 s with
  | zero => omega
  | succ k ih =>
    cases n2 with
    | zero => omega
    | succ k2 =>
      cases s with
      | nil => simp [unquote]
      | cons c rest =>
        simp only [List.length_cons] at h1 h2
        simp only [unquote]
        split
        · split
          · rfl
          · rename_i e rest2
            simp only [List.length_cons] at h1 h2
            split
            · split
              · rfl
              · split
                · split
                  · split
                    · rw [ih k2 _ (by simp only [List.length_drop]; omega)
                        (by simp only [List.length_drop]; omega)]
                    · rw [ih k2 _ (by simp only [List.length_drop]; omega)
                        (by simp only [List.length_drop]; omega)]
                  · rw [ih k2 _ (by simp only [List.length_drop]; omega)
                      (by simp only [List.length_drop]; omega)]
                · rw [ih k2 _ (by simp only [List.length_drop]; omega)
                    (by simp only [List.length_drop]; omega)]
            · rw [ih k2 _ (by omega) (by omega)]
        · split
          · rw [ih k2 _ (by omega) (by omega)]
          · split
            · rename_i n hk
              have := utf8Len_pos _ _ hk
              rw [ih k2 _ (by simp only [List.length_drop, List.length_cons]; omega)
                (by simp only [List.length_drop, List.length_cons]; omega)]
            · rw [ih k2 _ (by omega) (by omega)]

end Json

/-! ## The references the client builds -/

/-- Every reference the client builds, `/gh/` followed by anything, is of the
form `url.Parse` is modelled for: the branch of the model that refuses other
references is never taken. -/
theorem Parse_client_reference (owner : GoString) :
    Url.Parse (bytes "/gh/" ++ owner)
      ≠ Except.error (GoError.urlError (bytes "reference outside the model")) := by
  have hb : bytes "/gh/" ++ owner = 47 :: 103 :: 104 :: 47 :: owner := by
    have : bytes "/gh/" = [47, 103, 104, 47] := by decide
    rw [this]
    rfl
  rw [hb]
  unfold Url.Parse
  have hc : (Url.cut (47 :: 103 :: 104 :: 47 :: owner) 35).1
      = 47 :: 103 :: (Url.cut (104 :: 47 :: owner) 35).1 := by
    simp [Url.cut, List.takeWhile_cons]
  simp only
  split
  · intro h
    have := congrArg (fun e => match e with
      | Except.error (GoError.urlError m) => m.length
      | _ => 0) h
    revert this
    decide
  · rw [hc]
    simp only [List.head?_cons, ne_eq, not_true_eq_false, List.drop_succ_cons, List.drop_zero,
      Option.some.injEq, false_or]
    split
    · exact absurd ‹_› (by decide)
    · split
      · intro h
        cases h
      · intro h
        have := congrArg (fun e => match e with
          | Except.error (GoError.urlError m) => m.length
          | _ => 0) h
        revert this
        decide

end Codecov
